import Mathlib

/-! # Open-Email server and client library: envelope, nonce and authentication

A shallow embedding of the Go sources under `internal/` and `cmd/server/`.

Conventions of the embedding

* A Go `string` or `[]byte` is a `Str`, a list of characters; one character
  stands for one code point of a text or one byte of binary data.
* A Go function that can fail at run time (index out of range, nil pointer)
  returns an `Outcome`: `ok` for a normal return without error, `error` for a
  returned non-nil `error`, `panic` for a run-time failure.
* The primitives of the Go standard library and of `golang.org/x/crypto`
  (SHA-256, Ed25519, sealed boxes, XChaCha20-Poly1305, base64, RFC 3339 times)
  are the fields of a `Prim` value that every function using them takes as an
  argument; the theorems hold for every such value.
* The file system is explicit state: a message directory and an account home
  are records of optional file contents. Reads of a missing file fail the way
  the Go code reports them; writes always succeed.
-/

set_option autoImplicit false

namespace OpenEmail

/-- A Go string or byte slice. -/
abbrev Str := List Char

/-- The three ways a Go call ends: a normal return, a returned error, a run-time failure. -/
inductive Outcome (α : Type) where
  | ok (value : α)
  | error (message : String)
  | panic
  deriving DecidableEq, Repr

namespace Outcome

/-- Sequencing of Go statements: the first error or run-time failure ends the function. -/
def bind {α β : Type} (x : Outcome α) (f : α → Outcome β) : Outcome β :=
  match x with
  | ok a => f a
  | error e => error e
  | panic => panic

instance : Monad Outcome where
  pure := Outcome.ok
  bind := Outcome.bind

/-- The call returned normally or with an error value: no run-time failure. -/
def returns {α : Type} : Outcome α → Bool
  | ok _ => true
  | error _ => true
  | panic => false

/-- The value of a normal return, if the call returned one. -/
def toOption {α : Type} : Outcome α → Option α
  | ok a => some a
  | error _ => none
  | panic => none

end Outcome

/-! ## Package `unicode`: lower-case letters -/

namespace unicode

/-- The upper-case and title-case letters outside ASCII that have a lower-case letter, as
ranges `(lo, hi, stride, lower)`: the code points `lo`, `lo + stride`, ... up to `hi`,
the first of which has the lower-case letter `lower` and the others follow at the same
distance. It is the simple lower-case mapping of the Unicode character database
(version 15.0) that Go keeps in `unicode.CaseRanges`. -/
def lowerRanges : List (Nat × Nat × Nat × Nat) := [
  (192, 214, 1, 224), (216, 222, 1, 248), (256, 302, 2, 257), (304, 304, 1, 105),
  (306, 310, 2, 307), (313, 327, 2, 314), (330, 374, 2, 331), (376, 376, 1, 255),
  (377, 381, 2, 378), (385, 385, 1, 595), (386, 388, 2, 387), (390, 390, 1, 596),
  (391, 391, 1, 392), (393, 394, 1, 598), (395, 395, 1, 396), (398, 398, 1, 477),
  (399, 399, 1, 601), (400, 400, 1, 603), (401, 401, 1, 402), (403, 403, 1, 608),
  (404, 404, 1, 611), (406, 406, 1, 617), (407, 407, 1, 616), (408, 408, 1, 409),
  (412, 412, 1, 623), (413, 413, 1, 626), (415, 415, 1, 629), (416, 420, 2, 417),
  (422, 422, 1, 640), (423, 423, 1, 424), (425, 425, 1, 643), (428, 428, 1, 429),
  (430, 430, 1, 648), (431, 431, 1, 432), (433, 434, 1, 650), (435, 437, 2, 436),
  (439, 439, 1, 658), (440, 440, 1, 441), (444, 444, 1, 445), (452, 452, 1, 454),
  (453, 453, 1, 454), (455, 455, 1, 457), (456, 456, 1, 457), (458, 458, 1, 460),
  (459, 475, 2, 460), (478, 494, 2, 479), (497, 497, 1, 499), (498, 500, 2, 499),
  (502, 502, 1, 405), (503, 503, 1, 447), (504, 542, 2, 505), (544, 544, 1, 414),
  (546, 562, 2, 547), (570, 570, 1, 11365), (571, 571, 1, 572), (573, 573, 1, 410),
  (574, 574, 1, 11366), (577, 577, 1, 578), (579, 579, 1, 384), (580, 580, 1, 649),
  (581, 581, 1, 652), (582, 590, 2, 583), (880, 882, 2, 881), (886, 886, 1, 887),
  (895, 895, 1, 1011), (902, 902, 1, 940), (904, 906, 1, 941), (908, 908, 1, 972),
  (910, 911, 1, 973), (913, 929, 1, 945), (931, 939, 1, 963), (975, 975, 1, 983),
  (984, 1006, 2, 985), (1012, 1012, 1, 952), (1015, 1015, 1, 1016), (1017, 1017, 1, 1010),
  (1018, 1018, 1, 1019), (1021, 1023, 1, 891), (1024, 1039, 1, 1104), (1040, 1071, 1, 1072),
  (1120, 1152, 2, 1121), (1162, 1214, 2, 1163), (1216, 1216, 1, 1231), (1217, 1229, 2, 1218),
  (1232, 1326, 2, 1233), (1329, 1366, 1, 1377), (4256, 4293, 1, 11520), (4295, 4295, 1, 11559),
  (4301, 4301, 1, 11565), (5024, 5103, 1, 43888), (5104, 5109, 1, 5112), (7312, 7354, 1, 4304),
  (7357, 7359, 1, 4349), (7680, 7828, 2, 7681), (7838, 7838, 1, 223), (7840, 7934, 2, 7841),
  (7944, 7951, 1, 7936), (7960, 7965, 1, 7952), (7976, 7983, 1, 7968), (7992, 7999, 1, 7984),
  (8008, 8013, 1, 8000), (8025, 8031, 2, 8017), (8040, 8047, 1, 8032), (8072, 8079, 1, 8064),
  (8088, 8095, 1, 8080), (8104, 8111, 1, 8096), (8120, 8121, 1, 8112), (8122, 8123, 1, 8048),
  (8124, 8124, 1, 8115), (8136, 8139, 1, 8050), (8140, 8140, 1, 8131), (8152, 8153, 1, 8144),
  (8154, 8155, 1, 8054), (8168, 8169, 1, 8160), (8170, 8171, 1, 8058), (8172, 8172, 1, 8165),
  (8184, 8185, 1, 8056), (8186, 8187, 1, 8060), (8188, 8188, 1, 8179), (8486, 8486, 1, 969),
  (8490, 8490, 1, 107), (8491, 8491, 1, 229), (8498, 8498, 1, 8526), (8544, 8559, 1, 8560),
  (8579, 8579, 1, 8580), (9398, 9423, 1, 9424), (11264, 11311, 1, 11312), (11360, 11360, 1, 11361),
  (11362, 11362, 1, 619), (11363, 11363, 1, 7549), (11364, 11364, 1, 637),
  (11367, 11371, 2, 11368), (11373, 11373, 1, 593), (11374, 11374, 1, 625), (11375, 11375, 1, 592),
  (11376, 11376, 1, 594), (11378, 11378, 1, 11379), (11381, 11381, 1, 11382),
  (11390, 11391, 1, 575), (11392, 11490, 2, 11393), (11499, 11501, 2, 11500),
  (11506, 11506, 1, 11507), (42560, 42604, 2, 42561), (42624, 42650, 2, 42625),
  (42786, 42798, 2, 42787), (42802, 42862, 2, 42803), (42873, 42875, 2, 42874),
  (42877, 42877, 1, 7545), (42878, 42886, 2, 42879), (42891, 42891, 1, 42892),
  (42893, 42893, 1, 613), (42896, 42898, 2, 42897), (42902, 42920, 2, 42903),
  (42922, 42922, 1, 614), (42923, 42923, 1, 604), (42924, 42924, 1, 609), (42925, 42925, 1, 620),
  (42926, 42926, 1, 618), (42928, 42928, 1, 670), (42929, 42929, 1, 647), (42930, 42930, 1, 669),
  (42931, 42931, 1, 43859), (42932, 42946, 2, 42933), (42948, 42948, 1, 42900),
  (42949, 42949, 1, 642), (42950, 42950, 1, 7566), (42951, 42953, 2, 42952),
  (42960, 42960, 1, 42961), (42966, 42968, 2, 42967), (42997, 42997, 1, 42998),
  (65313, 65338, 1, 65345), (66560, 66599, 1, 66600), (66736, 66771, 1, 66776),
  (66928, 66938, 1, 66967), (66940, 66954, 1, 66979), (66956, 66962, 1, 66995),
  (66964, 66965, 1, 67003), (68736, 68786, 1, 68800), (71840, 71871, 1, 71872),
  (93760, 93791, 1, 93792), (125184, 125217, 1, 125218)]

/-- The lower-case letter of a code point that lies in one of the ranges. -/
def lowerIn : List (Nat × Nat × Nat × Nat) → Nat → Option Nat
  | [], _ => none
  | (lo, hi, stride, lower) :: rest, n =>
    if lo ≤ n ∧ n ≤ hi ∧ (n - lo) % stride = 0 then some (lower + (n - lo)) else lowerIn rest n

/-- Go `unicode.ToLower`: the letters `A` to `Z` within ASCII, the case ranges beyond. -/
def ToLower (c : Char) : Char :=
  if c.toNat < 128 then c.toLower
  else match lowerIn lowerRanges c.toNat with
    | some l => Char.ofNat l
    | none => c

/-- The code points of white space, those of Go `unicode.IsSpace`. -/
def spaces : List Nat := [9, 10, 11, 12, 13, 32, 133, 160, 5760, 8192, 8193, 8194, 8195, 8196, 8197, 8198,
  8199, 8200, 8201, 8202, 8232, 8233, 8239, 8287, 12288]

/-- A range lies outside ASCII, and so do its lower-case letters or they are no capital
letters; the lower-case letters are code points; neither the range nor its lower-case
letters reach a white space. -/
def rangeOK (r : Nat × Nat × Nat × Nat) : Bool :=
  Nat.ble 128 r.1 && Nat.ble 1 r.2.2.1 &&
  (Nat.blt (r.2.2.2 + (r.2.1 - r.1)) 65 || Nat.blt 90 r.2.2.2) &&
  (Nat.blt (r.2.2.2 + (r.2.1 - r.1)) 55296 ||
    (Nat.blt 57343 r.2.2.2 && Nat.blt (r.2.2.2 + (r.2.1 - r.1)) 1114112)) &&
  spaces.all (fun s =>
    (Nat.blt s r.2.2.2 || Nat.blt (r.2.2.2 + (r.2.1 - r.1)) s) && (Nat.blt s r.1 || Nat.blt r.2.1 s))

/-- The lower-case letters of the range `r` lie apart from the range `q`: before it,
after it, or between its code points. -/
def apart (r q : Nat × Nat × Nat × Nat) : Bool :=
  Nat.blt (r.2.2.2 + (r.2.1 - r.1)) q.1 || Nat.blt q.2.1 r.2.2.2 ||
    ((Nat.beq r.2.2.1 2 || Nat.beq r.1 r.2.1) && Nat.beq q.2.2.1 2 && Nat.beq ((r.2.2.2 + q.1) % 2) 1)

/-- Every range is in order and its lower-case letters lie apart from every range. -/
def rangesOK : Bool := lowerRanges.all (fun r => rangeOK r && lowerRanges.all (fun q => apart r q))

end unicode

/-! ## Package `strings`, `bufio`, `strconv` -/

namespace strings

/-- Go `unicode.IsSpace`. -/
def isSpace (c : Char) : Bool :=
  let n := c.toNat
  (9 ≤ n && n ≤ 13) || n == 32 || n == 0x85 || n == 0xA0 || n == 0x1680 ||
    (0x2000 ≤ n && n ≤ 0x200A) || n == 0x2028 || n == 0x2029 || n == 0x202F ||
    n == 0x205F || n == 0x3000

/-- Go `strings.TrimSpace`: leading and trailing white space removed. -/
def TrimSpace (s : Str) : Str :=
  ((s.dropWhile isSpace).reverse.dropWhile isSpace).reverse

/-- Go `strings.ToLower`: every character is mapped by `unicode.ToLower`. -/
def ToLower (s : Str) : Str := s.map unicode.ToLower

/-- Go `strings.HasPrefix`. -/
def HasPrefix (s pre : Str) : Bool := pre.isPrefixOf s

/-- Go `strings.HasSuffix`. -/
def HasSuffix (s suf : Str) : Bool := suf.reverse.isPrefixOf s.reverse

/-- The text before and after the first occurrence of `sep` in the string, if any
(Go `strings.Cut`). -/
def Cut (sep : Str) : Str → Option (Str × Str)
  | [] => if sep = [] then some ([], []) else none
  | c :: cs =>
    if sep.isPrefixOf (c :: cs) then some ([], (c :: cs).drop sep.length)
    else match Cut sep cs with
      | none => none
      | some (before, after) => some (c :: before, after)

/-- The loop of Go `strings.Split`, bounded by the number of characters left. -/
def splitLoop (sep : Str) : Nat → Str → List Str
  | 0, s => [s]
  | fuel + 1, s =>
    match Cut sep s with
    | none => [s]
    | some (before, after) => before :: splitLoop sep fuel after

/-- Go `strings.Split(s, sep)` for a non-empty separator (every call site passes one). -/
def Split (s sep : Str) : List Str := splitLoop sep s.length s

/-- Go `strings.SplitN(s, sep, 2)`: cut at the first separator only. -/
def SplitN2 (s sep : Str) : List Str :=
  match Cut sep s with
  | none => [s]
  | some (before, after) => [before, after]

/-- Go `strings.Join`. -/
def Join : List Str → Str → Str
  | [], _ => []
  | [a], _ => a
  | a :: b :: rest, sep => a ++ sep ++ Join (b :: rest) sep

/-- Go `strings.ReplaceAll(s, old, "")` for a one-character `old`. -/
def RemoveAll (s : Str) (old : Char) : Str := s.filter (fun c => c != old)

end strings

namespace bufio

/-- Go `bufio.MaxScanTokenSize`. -/
def MaxScanTokenSize : Nat := 65536

/-- Length in bytes of the UTF-8 encoding. -/
def utf8Len (s : Str) : Nat := (s.map Char.utf8Size).sum

/-- The pieces between line feeds; a final line feed opens no further line. -/
def rawLines : Str → List Str
  | [] => []
  | c :: cs =>
    if c = '\n' then [] :: rawLines cs
    else match rawLines cs with
      | [] => [[c]]
      | l :: ls => (c :: l) :: ls

/-- Go `dropCR`: one trailing carriage return is removed. -/
def dropCR (l : Str) : Str :=
  if l.getLast? = some '\r' then l.dropLast else l

/-- The tokens a `bufio.Scanner` with `ScanLines` delivers, and whether it stopped
with `ErrTooLong`: a line that does not fit the 64 KiB buffer together with its line
feed ends the scan. -/
def scanTokens : List Str → List Str × Bool
  | [] => ([], false)
  | l :: ls =>
    if utf8Len l < MaxScanTokenSize then
      ((dropCR l) :: (scanTokens ls).1, (scanTokens ls).2)
    else ([], true)

/-- Lines read by `scanner.Scan()` in a loop, and whether `scanner.Err()` is non-nil
afterwards. -/
def scanLines (data : Str) : List Str × Bool := scanTokens (rawLines data)

end bufio

namespace strconv

/-- Value of a decimal digit. -/
def digitVal (c : Char) : Option Nat :=
  if '0' ≤ c ∧ c ≤ '9' then some (c.toNat - 48) else none

/-- Value of a non-empty string of decimal digits. -/
def parseDigits : Str → Nat → Option Nat
  | [], acc => some acc
  | c :: cs, acc =>
    match digitVal c with
    | none => none
    | some d => parseDigits cs (acc * 10 + d)

/-- Go `strconv.ParseInt(s, 10, 64)`: optional sign, decimal digits, range of `int64`. -/
def ParseInt (s : Str) : Option Int :=
  match s with
  | [] => none
  | '-' :: ds =>
    if ds = [] then none else
    match parseDigits ds 0 with
    | none => none
    | some n => if n ≤ 2 ^ 63 then some (-(n : Int)) else none
  | '+' :: ds =>
    if ds = [] then none else
    match parseDigits ds 0 with
    | none => none
    | some n => if n < 2 ^ 63 then some (n : Int) else none
  | ds =>
    match parseDigits ds 0 with
    | none => none
    | some n => if n < 2 ^ 63 then some (n : Int) else none

/-- The text of the error that `strconv.ParseInt(s, 10, 64)` returns: `value out of range`
for digits beyond the range of `int64`, `invalid syntax` otherwise. The input is written
between the quotes as it is; `strconv.Quote` escapes the characters that are not
printable. -/
def parseIntError (s : Str) : String :=
  let digits := match s with
    | '-' :: ds => ds
    | '+' :: ds => ds
    | ds => ds
  let reason :=
    if digits ≠ [] ∧ (parseDigits digits 0).isSome then "value out of range" else "invalid syntax"
  "strconv.ParseInt: parsing \"" ++ String.mk s ++ "\": " ++ reason

/-- Go `strconv.FormatInt(i, 10)` and the `%d` verb. -/
def FormatInt (i : Int) : Str := (toString i).toList

end strconv

/-! ## Primitives of the standard library and of `golang.org/x/crypto` -/

/-- The functions and constants the repository takes from the Go standard library, from
`golang.org/x/crypto` and from its package `internal/crypto/secretstream`. -/
structure Prim where
  /-- The digest `sha256.Sum256`, as raw bytes. -/
  sha256Raw : Str → Str
  /-- The digest in lower-case hexadecimal, `hex.EncodeToString` of the raw digest. -/
  sha256Hex : Str → Str
  /-- Go `base64.StdEncoding.EncodeToString`. -/
  base64Encode : Str → Str
  /-- Go `base64.StdEncoding.DecodeString`; `none` is a decoding error. -/
  base64Decode : Str → Option Str
  /-- NaCl `sign.Sign(nil, data, &privateKey)`: the signed message. -/
  sign : (privateKey data : Str) → Str
  /-- NaCl `sign.Open(nil, signed, &publicKey)`: the message when the signature verifies. -/
  signOpen : (signed publicKey : Str) → Option Str
  /-- NaCl `box.SealAnonymous(nil, data, &publicKey, rand.Reader)`. -/
  boxSealAnonymous : (data publicKey : Str) → Option Str
  /-- NaCl `box.OpenAnonymous(nil, cipher, &publicKey, &privateKey)`. -/
  boxOpenAnonymous : (cipher publicKey privateKey : Str) → Option Str
  /-- Fresh random bytes read from `rand.Reader`; `none` when the reader fails. -/
  randomBytes : Nat → Option Str
  /-- XChaCha20-Poly1305 `aead.Seal(nil, nonce, plaintext, nil)` under a 32-byte key. -/
  aeadSeal : (key nonce plaintext : Str) → Str
  /-- XChaCha20-Poly1305 `aead.Open(nil, nonce, cipher, nil)` under a 32-byte key. -/
  aeadOpen : (key nonce cipher : Str) → Option Str
  /-- The state of `secretstream.NewDecryptor(header, key)`; `none` is an error. -/
  streamInit : (header key : Str) → Option Str
  /-- One `decryptor.Pull(chunk, nil)`: plaintext, tag and next state; `none` is an error. -/
  streamPull : (state chunk : Str) → Option (Str × Nat × Str)
  /-- The constant `secretstream.HeaderBytes`. -/
  streamHeaderBytes : Nat
  /-- The constant `secretstream.AdditionalBytes`. -/
  streamAdditionalBytes : Nat
  /-- The constant `secretstream.TagMessage`. -/
  tagMessage : Nat
  /-- The constant `secretstream.TagFinal`. -/
  tagFinal : Nat
  /-- Go `time.Parse(time.RFC3339, s)`, the instant in seconds; `none` is a parse error. -/
  parseRFC3339 : Str → Option Int
  /-- Go `t.Format(time.RFC3339)`. -/
  formatRFC3339 : Int → Str
  /-- Go `rand.Int(rand.Reader, max)` at the given turn of a loop; `none` when the reader
  fails. -/
  randomInt : (max turn : Nat) → Option Nat
  /-- The state of `secretstream.NewEncryptor(header, key)`; `none` is an error. -/
  streamEncryptor : (header key : Str) → Option Str
  /-- One `encryptor.Push(chunk, nil, tag)`: the sealed chunk and the next state; `none` is
  an error. -/
  streamPush : (state chunk : Str) → (tag : Nat) → Option (Str × Str)

/-! ## Package `internal/utils` -/

namespace utils

/-- A Go `map[string]string` as the list of its assignments, the latest first. -/
abbrev Attrs := List (Str × Str)

/-- Go `m[key]`: the empty string when the key is absent. -/
def Attrs.get (m : Attrs) (key : Str) : Str :=
  match m.lookup key with
  | some v => v
  | none => []

/-- Go `_, ok := m[key]`. -/
def Attrs.has (m : Attrs) (key : Str) : Bool := (m.lookup key).isSome

/-- The loop of `ParseHeadersAttributes`; `parts[1]` fails when a pair has no `=`. -/
def parseAttributePairs : List Str → Attrs → Outcome Attrs
  | [], m => .ok m
  | kv :: rest, m =>
    match strings.SplitN2 kv ['='] with
    | [k, v] => parseAttributePairs rest ((strings.ToLower (strings.TrimSpace k), strings.TrimSpace v) :: m)
    | _ => .panic

/-- Go `utils.ParseHeadersAttributes` (headers.go). -/
def ParseHeadersAttributes (value : Str) : Outcome Attrs :=
  parseAttributePairs (strings.Split value [';']) []

/-- Go `utils.ToRFC3339String` (time.go). -/
def ToRFC3339String (P : Prim) (t : Int) : Str := P.formatRFC3339 t

/-- Go `utils.ParseRFC3339Time` (time.go). -/
def ParseRFC3339Time (P : Prim) (s : Str) : Outcome Int :=
  match P.parseRFC3339 s with
  | some t => .ok t
  | none => .error "parsing time: cannot parse"

/-- Go `utils.StringIsAlphaNumeric` (utils.go): the regular expression `^[a-zA-Z0-9]+$`.
Go lets `$` match only at the end of the text. -/
def StringIsAlphaNumeric (s : Str) : Bool :=
  s != [] && s.all (fun c => ('a' ≤ c && c ≤ 'z') || ('A' ≤ c && c ≤ 'Z') || ('0' ≤ c && c ≤ '9'))

/-- Go `MESSAGE_ID_MINIMUM_LENGTH` (ids.go). -/
def MESSAGE_ID_MINIMUM_LENGTH : Nat := 32

/-- Go `MESSAGE_ID_MAXIMUM_LENGTH` (ids.go). -/
def MESSAGE_ID_MAXIMUM_LENGTH : Nat := 128

/-- Go `utils.ValidMessageID` (ids.go). -/
def ValidMessageID (msgID : Str) : Bool :=
  let id := strings.TrimSpace msgID
  if id = [] ∨ bufio.utf8Len id > MESSAGE_ID_MAXIMUM_LENGTH ∨ bufio.utf8Len id < MESSAGE_ID_MINIMUM_LENGTH then false
  else StringIsAlphaNumeric id

/-- The scanning loop of `PrefixExistsInFile`: the first trimmed line with the prefix wins. -/
def prefixInLines (targetString : Str) : List Str → Bool
  | [] => false
  | line :: rest =>
    if strings.HasPrefix (strings.TrimSpace line) targetString then true
    else prefixInLines targetString rest

/-- Go `utils.PrefixExistsInFile` (files.go) on the content of the file, `none` for a
missing file. A line found before the scanner stops counts; otherwise the scanner's
error is returned. -/
def PrefixExistsInFile (targetString : Str) (file : Option Str) : Outcome Bool :=
  match file with
  | none => .ok false
  | some data =>
    if prefixInLines targetString (bufio.scanLines data).1 then .ok true
    else if (bufio.scanLines data).2 then .error "bufio.Scanner: token too long"
    else .ok false

/-- Go `utils.AppendStringToFile` (files.go): the file is created when missing and the
content is written at its end, closed by a line feed. -/
def AppendStringToFile (content : Str) (file : Option Str) : Str :=
  let old := match file with
    | none => []
    | some data => data
  if strings.HasSuffix content ['\n'] then old ++ content else old ++ (content ++ ['\n'])

end utils

/-! ## Package `internal/crypto` -/

namespace crypto

def CHECKSUM_ALGORITHM : Str := "sha256".toList
def SIGNING_ALGORITHM : Str := "ed25519".toList
def ANONYMOUS_ENCRYPTION_CIPHER : Str := "curve25519xsalsa20poly1305".toList
def SYMMETRIC_CIPHER : Str := "xchacha20poly1305".toList
def SYMMETRIC_FILE_CIPHER : Str := "secretstream_xchacha20poly1305".toList
def DEFAULT_CHUNK_SIZE : Int := 8192
def MAX_CHUNK_SIZE : Int := 1048576

/-- Go `crypto.Sha256Hash` (crypto.go): the hexadecimal and the raw digest. -/
def Sha256Hash (P : Prim) (content : Str) : Str × Str :=
  (P.sha256Hex content, P.sha256Raw content)

/-- Go `crypto.Checksum` (crypto.go). -/
def Checksum (P : Prim) (content : Str) : Str × Str := Sha256Hash P content

/-- Go `crypto.Fingerprint` (crypto.go). -/
def Fingerprint (P : Prim) (key : Str) : Str := (Sha256Hash P key).1

/-- Go `crypto.SignData` (crypto.go). -/
def SignData (P : Prim) (_publicKey privateKey data : Str) : Str :=
  P.base64Encode (P.sign privateKey data)

/-- Go `crypto.VerifySignature` (crypto.go). -/
def VerifySignature (P : Prim) (publicKey signatureStr origData : Str) : Bool :=
  match P.base64Decode signatureStr with
  | none => false
  | some signature =>
    match P.signOpen signature publicKey with
    | none => false
    | some verifiedMessage => origData == verifiedMessage

/-- Copy of a key into a fixed array of `n` bytes, as `copy(key[:], keyBytes)` does. -/
def toArray (n : Nat) (bytes : Str) : Str :=
  bytes.take n ++ List.replicate (n - bytes.length) (Char.ofNat 0)

/-- Go `crypto.DecodeBase64Key32` (crypto.go). -/
def DecodeBase64Key32 (P : Prim) (cryptoKey : Str) : Outcome Str :=
  match P.base64Decode cryptoKey with
  | none => .error "illegal base64 data"
  | some keyBytes => .ok (toArray 32 keyBytes)

/-- Go `crypto.EncryptAnonymous` (crypto.go). -/
def EncryptAnonymous (P : Prim) (publicKey data : Str) : Outcome Str :=
  match P.boxSealAnonymous data publicKey with
  | none => .error "box: seal failed"
  | some encryptedData => .ok (P.base64Encode encryptedData)

/-- Go `crypto.DecryptAnonymous` (crypto.go). -/
def DecryptAnonymous (P : Prim) (privateKey publicKey ciphertext : Str) : Outcome Str :=
  match P.base64Decode ciphertext with
  | none => .error "illegal base64 data"
  | some cipherbytes =>
    match P.boxOpenAnonymous cipherbytes publicKey privateKey with
    | none => .error "Decryption failed"
    | some decryptedMessage => .ok decryptedMessage

/-- Key size of `chacha20poly1305.NewX`. -/
def KeySize : Nat := 32

/-- Nonce size of XChaCha20-Poly1305. -/
def NonceSizeX : Nat := 24

/-- Go `crypto.Xchacha20Poly1305Encrypt` (crypto.go): the random nonce is prepended. -/
def Xchacha20Poly1305Encrypt (P : Prim) (plaintext key : Str) : Outcome Str :=
  if key.length ≠ KeySize then .error "chacha20poly1305: bad key length"
  else match P.randomBytes NonceSizeX with
    | none => .error "rand: read failed"
    | some nonce => .ok (nonce ++ P.aeadSeal key nonce plaintext)

/-- Go `crypto.Xchacha20Poly1305Decrypt` (crypto.go). With a key of the wrong length the
source returns `nil, nil`: no plaintext and no error. -/
def Xchacha20Poly1305Decrypt (P : Prim) (ciphertext key : Str) : Outcome Str :=
  if key.length ≠ KeySize then .ok []
  else if ciphertext.length < NonceSizeX then .error "ciphertext too short"
  else match P.aeadOpen key (ciphertext.take NonceSizeX) (ciphertext.drop NonceSizeX) with
    | none => .error "chacha20poly1305: message authentication failed"
    | some plaintext => .ok plaintext

/-- Go `crypto.Xchacha20Poly1305DecodeDecrypt` (crypto.go). -/
def Xchacha20Poly1305DecodeDecrypt (P : Prim) (ciphertext key : Str) : Outcome Str :=
  match P.base64Decode ciphertext with
  | none => .error "illegal base64 data"
  | some cipherbytes => Xchacha20Poly1305Decrypt P cipherbytes key

/-- Go `crypto.CipherInfo` (cipherinfo.go). -/
structure CipherInfo where
  Algorithm : Str := []
  Stream : Bool := false
  ChunkSize : Int := 0
  OriginalHeaderValue : Str := []
  deriving DecidableEq, Repr

def ALGORITHM_ATTRIBUTE : Str := "algorithm".toList
def CHUNK_SIZE_ATTRIBUTE : Str := "chunk-size".toList

/-- Go `(*CipherInfo).ToHeader` (cipherinfo.go). -/
def CipherInfo.ToHeader (ci : CipherInfo) : Str :=
  if ci.Stream then
    if ci.Algorithm = [] ∨ ci.ChunkSize = 0 then []
    else ALGORITHM_ATTRIBUTE ++ ['='] ++ ci.Algorithm ++ "; ".toList ++ CHUNK_SIZE_ATTRIBUTE ++ ['='] ++
      strconv.FormatInt ci.ChunkSize
  else ALGORITHM_ATTRIBUTE ++ ['='] ++ ci.Algorithm

/-- The loop of `CipherInfoFromHeader` over the `;`-separated pairs; `kvs[1]` fails when
a `chunk-size` or `algorithm` pair has no `=`. -/
def cipherInfoPairs : List Str → CipherInfo → Outcome CipherInfo
  | [], ci => .ok ci
  | pair :: rest, ci =>
    let kvs := strings.Split pair ['=']
    let name := strings.ToLower (strings.TrimSpace (kvs.headD []))
    if name = CHUNK_SIZE_ATTRIBUTE then
      match kvs.tail.head? with
      | none => .panic
      | some v =>
        match strconv.ParseInt (strings.TrimSpace v) with
        | none => .error (strconv.parseIntError (strings.TrimSpace v))
        | some size =>
          if size > MAX_CHUNK_SIZE then .error "unacceptable chunk size"
          else cipherInfoPairs rest { ci with ChunkSize := size }
    else if name = ALGORITHM_ATTRIBUTE then
      match kvs.tail.head? with
      | none => .panic
      | some v =>
        let algorithm := strings.ToLower (strings.TrimSpace v)
        if algorithm = SYMMETRIC_CIPHER ∨ algorithm = SYMMETRIC_FILE_CIPHER then
          cipherInfoPairs rest
            { ci with Algorithm := algorithm, Stream := decide (algorithm = SYMMETRIC_FILE_CIPHER) }
        else .error ("unsupported encryption algorithm: " ++ String.mk algorithm)
    else cipherInfoPairs rest ci

/-- Go `crypto.CipherInfoFromHeader` (cipherinfo.go). -/
def CipherInfoFromHeader (headerValue : Str) : Outcome CipherInfo :=
  cipherInfoPairs (strings.Split headerValue [';']) { OriginalHeaderValue := headerValue }

/-- Go `crypto.IOInfo` (files.go). -/
structure IOInfo where
  InputSize : Int := 0
  InputChecksum : Str := []
  OutputSize : Int := 0
  OutputChecksum : Str := []
  deriving DecidableEq, Repr

/-- Go `crypto.CopyFile` (files.go) from the source content (`none`: no such file) over the
destination content: the result and the destination afterwards. -/
def CopyFile (P : Prim) (source dest : Option Str) : Outcome IOInfo × Option Str :=
  match source with
  | none => (.error "open: no such file or directory", dest)
  | some data =>
    (.ok { InputSize := data.length, InputChecksum := P.sha256Hex data,
           OutputSize := data.length, OutputChecksum := P.sha256Hex data }, some data)

/-- Go `crypto.Xchacha20Poly1305DecryptFile` (crypto.go). -/
def Xchacha20Poly1305DecryptFile (P : Prim) (encrypted dest : Option Str) (key : Str) :
    Outcome IOInfo × Option Str :=
  match encrypted with
  | none => (.error "open: no such file or directory", dest)
  | some encryptedData =>
    match Xchacha20Poly1305Decrypt P encryptedData key with
    | .ok decryptedData =>
      (.ok { InputSize := encryptedData.length, InputChecksum := P.sha256Hex encryptedData,
             OutputSize := decryptedData.length, OutputChecksum := P.sha256Hex decryptedData },
        some decryptedData)
    | .error e => (.error e, dest)
    | .panic => (.panic, dest)

/-- Successive reads of a file into a buffer of `n` bytes, `n` positive. -/
def readChunks (n : Nat) : Nat → Str → List Str
  | 0, _ => []
  | fuel + 1, data => if data = [] then [] else data.take n :: readChunks n fuel (data.drop n)

/-- The reading loop of `SecretStreamXchacha20Poly1305DecryptFile`: the bytes read, the
bytes written so far, and how the loop ends. -/
def pullChunks (P : Prim) : Str → List Str → Str → Str → Outcome (Str × Str) × Str
  | _, [], consumed, written => (.ok (consumed, written), written)
  | state, chunk :: rest, consumed, written =>
    match P.streamPull state chunk with
    | none => (.error "secretstream: pull failed", written)
    | some (decryptedBuffer, tag, state) =>
      if tag = P.tagMessage ∨ tag = P.tagFinal then
        if tag = P.tagFinal then (.ok (consumed ++ chunk, written ++ decryptedBuffer), written ++ decryptedBuffer)
        else pullChunks P state rest (consumed ++ chunk) (written ++ decryptedBuffer)
      else pullChunks P state rest (consumed ++ chunk) written

/-- Go `crypto.SecretStreamXchacha20Poly1305DecryptFile` (files.go). -/
def SecretStreamXchacha20Poly1305DecryptFile (P : Prim) (encrypted dest : Option Str) (key : Str)
    (chunkSize : Int) : Outcome IOInfo × Option Str :=
  match encrypted with
  | none => (.error "open: no such file or directory", dest)
  | some data =>
    if data = [] then (.error "EOF", some [])
    else
      let header := toArray P.streamHeaderBytes (data.take P.streamHeaderBytes)
      match P.streamInit header key with
      | none => (.error "secretstream: bad header or key", some [])
      | some decryptor =>
        let bufferLen := chunkSize + P.streamAdditionalBytes
        if bufferLen < 0 then (.panic, some [])
        else
          let body := data.drop P.streamHeaderBytes
          let chunks := if bufferLen = 0 then [] else readChunks bufferLen.toNat body.length body
          match pullChunks P decryptor chunks [] [] with
          | (.ok (consumed, written), _) =>
            (.ok { InputSize := P.streamHeaderBytes + consumed.length,
                   InputChecksum := P.sha256Hex (header ++ consumed),
                   OutputSize := written.length, OutputChecksum := P.sha256Hex written }, some written)
          | (.error e, written) => (.error e, some written)
          | (.panic, written) => (.panic, some written)

end crypto

/-! ## Packages `internal/email/address`, `links`, `user` -/

namespace address

/-- Go `address.JoinAddress` (address.go). -/
def JoinAddress (domain localPart : Str) : Str := localPart ++ ['@'] ++ domain

/-- Go `address.ParseEmailAddress` (address.go): address, domain and local part;
`userParts[1]` fails when the text has no `@`. -/
def ParseEmailAddress (addr : Str) : Outcome (Str × Str × Str) :=
  match strings.Split (strings.ToLower addr) ['@'] with
  | u0 :: u1 :: _ =>
    let localPart := strings.TrimSpace u0
    let domain := strings.TrimSpace u1
    .ok (JoinAddress domain localPart, domain, localPart)
  | _ => .panic

end address

namespace links

/-- Byte-wise order of Go strings, the order `sort.Strings` uses. -/
def strLess : Str → Str → Bool
  | _, [] => false
  | [], _ :: _ => true
  | a :: as, b :: bs => if a.toNat < b.toNat then true else if b.toNat < a.toNat then false else strLess as bs

/-- Go `links.Make` (links.go). -/
def Make (P : Prim) (emailAddress1 emailAddress2 : Str) : Str :=
  let a1 := strings.ToLower (strings.TrimSpace emailAddress1)
  let a2 := strings.ToLower (strings.TrimSpace emailAddress2)
  let strs := if strLess a2 a1 then [a2, a1] else [a1, a2]
  P.sha256Hex (strings.Join strs [])

end links

namespace user

/-- Go `user.User` (user.go); a key array is the string of its bytes. -/
structure User where
  Address : Str := []
  Domain : Str := []
  LocalPart : Str := []
  PublicEncryptionKeyFingerprint : Str := []
  PublicSigningKeyFingerprint : Str := []
  PublicEncryptionKeyBase64 : Str := []
  PublicEncryptionKey : Str := crypto.toArray 32 []
  PublicSigningKeyBase64 : Str := []
  PublicSigningKey : Str := crypto.toArray 32 []
  PrivateEncryptionKeyBase64 : Str := []
  PrivateEncryptionKey : Str := crypto.toArray 32 []
  PrivateSigningKeyBase64 : Str := []
  PrivateSigningKey : Str := crypto.toArray 64 []
  deriving DecidableEq, Repr

/-- Go `user.Reader` (user.go): the embedded `User`, the link and the sealed access key. -/
structure Reader where
  User : User := {}
  Link : Str := []
  SealedKey : Str := []
  deriving DecidableEq, Repr

/-- Go `user.SelfLink` (user.go). -/
def SelfLink (P : Prim) (usr domain : Str) : Str :=
  let addr := usr ++ ['@'] ++ domain
  links.Make P addr addr

/-- Go `user.AsReader` (user.go). -/
def AsReader (P : Prim) (u : User) : Reader :=
  { User := u, Link := links.Make P u.Address u.Address }

end user

/-! ## Package `internal/email/message` -/

namespace message

open user crypto

def MESSAGE_DIR_BODY_FILE_NAME : Str := "body".toList
def MESSAGE_DIR_FILE_NAME : Str := "file".toList
def MESSAGE_DIR_HEADERS_FILE_NAME : Str := "headers".toList

def HEADER_MESSAGE_ID : Str := "message-id".toList
def HEADER_MESSAGE_STREAM : Str := "message-stream".toList
def HEADER_MESSAGE_ACCESS : Str := "message-access".toList
def HEADER_MESSAGE_CONTENT_HEADERS : Str := "message-headers".toList
def HEADER_MESSAGE_ENVELOPE_CHECKSUM : Str := "message-checksum".toList
def HEADER_MESSAGE_ENVELOPE_SIGNATURE : Str := "message-signature".toList
def HEADER_MESSAGE_ENCRYPTION : Str := "message-encryption".toList

def HEADER_CONTENT_MESSAGE_ID : Str := "id".toList
def HEADER_CONTENT_AUTHOR : Str := "author".toList
def HEADER_CONTENT_DATE : Str := "date".toList
def HEADER_CONTENT_SIZE : Str := "size".toList
def HEADER_CONTENT_CHECKSUM : Str := "checksum".toList
def HEADER_CONTENT_FILE : Str := "file".toList
def HEADER_CONTENT_SUBJECT : Str := "subject".toList
def HEADER_CONTENT_SUBJECT_ID : Str := "subject-id".toList
def HEADER_CONTENT_PARENT_MESSAGE_ID : Str := "parent-message-id".toList
def HEADER_CONTENT_CATEGORY : Str := "category".toList
def HEADER_CONTENT_READERS : Str := "readers".toList

def HEADER_ACCESS_LIST_SEPARATOR : Str := ",".toList
def HEADER_KEY_VALUE_SEPARATOR : Str := ":".toList
def HEADER_CONTENT_READERS_ADDRESS_SEPARATOR : Str := ",".toList

def ACCESS_LINE_ATTRIBUTE_LINK : Str := "link".toList
def ACCESS_LINE_ATTRIBUTE_NONCE_KEY_FINGERPRINT : Str := "access-key".toList
def ACCESS_LINE_ATTRIBUTE_DATA : Str := "value".toList
def ACCESS_LINE_ATTRIBUTE_ALGORITHM : Str := "algorithm".toList
def ACCESS_LINE_ATTRIBUTE_FINGERPRINT : Str := "key".toList

/-- Go `message.Content` (message.go); a `time.Time` is the instant in seconds. -/
structure Content where
  Date : Int := 0
  Subject : Str := []
  SubjectID : Str := []
  ParentMessageID : Str := []
  Category : Str := []
  ReadersAddresses : Str := []
  Body : Str := []
  FilePath : Str := []
  FileName : Str := []
  FileType : Str := []
  FileModifiedAt : Int := 0
  Size : Int := 0
  Checksum : Str := []
  AuthorAddress : Str := []
  Readers : Str := []
  ID : Str := []
  deriving DecidableEq, Repr

/-- Go `message.Message` (message.go). `PayloadCipher` is a pointer, `none` when nil. -/
structure Message where
  ID : Str := []
  Author : User := {}
  IsBroadcast : Bool := false
  AccessKey : Str := []
  Readers : List Reader := []
  StreamID : Str := []
  PayloadCipher : Option CipherInfo := none
  EnvelopeHeadersOrder : Str := []
  EnvelopeHeadersChecksum : Str := []
  EnvelopeHeadersChecksumUnparsed : Str := []
  EnvelopeHeadersSignature : Str := []
  EnvelopeHeadersSignatureUnparsed : Str := []
  Content : Content := {}
  AccessList : Str := []
  ContentHeadersData : Str := []
  ContentHeadersBytes : Str := []
  EnvelopeHeadersList : List Str := []
  IsRead : Bool := false
  deriving DecidableEq, Repr

/-- Go `(*Message).IsFile` (message.go). -/
def Message.IsFile (msg : Message) : Bool :=
  decide (msg.Content.Category = "file".toList) && decide (msg.Content.FileName ≠ [])

/-- Go `HeaderLine` (helpers.go). -/
def HeaderLine (key value : Str) : Str := key ++ HEADER_KEY_VALUE_SEPARATOR ++ " ".toList ++ value

/-- Go `HeadersChecksumHeader` (helpers.go). -/
def HeadersChecksumHeader (checksum headersOrder : Str) : Str :=
  "algorithm=".toList ++ CHECKSUM_ALGORITHM ++ "; order=".toList ++ headersOrder ++ "; value=".toList ++ checksum

/-- Go `ChecksumHeader` (helpers.go). -/
def ChecksumHeader (checksum : Str) : Str :=
  "algorithm=".toList ++ CHECKSUM_ALGORITHM ++ "; value=".toList ++ checksum

/-- Go `SignatureHeader` (helpers.go). -/
def SignatureHeader (data : Str) : Str :=
  "algorithm=".toList ++ SIGNING_ALGORITHM ++ "; value=".toList ++ data

/-- Go `FileHeader` (helpers.go). -/
def FileHeader (P : Prim) (content : Content) : Str :=
  "name=".toList ++ content.FileName ++ "; type=".toList ++ content.FileType ++ "; modified=".toList ++
    utils.ToRFC3339String P content.FileModifiedAt

/-- Go `envelopeAccessLine` (helpers.go). -/
def envelopeAccessLine (reader : Reader) : Str :=
  strings.Join [
    strings.Join [ACCESS_LINE_ATTRIBUTE_LINK, reader.Link] ['='],
    strings.Join [ACCESS_LINE_ATTRIBUTE_NONCE_KEY_FINGERPRINT, reader.User.PublicSigningKeyFingerprint] ['='],
    strings.Join [ACCESS_LINE_ATTRIBUTE_DATA, reader.SealedKey] ['='],
    strings.Join [ACCESS_LINE_ATTRIBUTE_ALGORITHM, ANONYMOUS_ENCRYPTION_CIPHER] ['='],
    strings.Join [ACCESS_LINE_ATTRIBUTE_FINGERPRINT, reader.User.PublicEncryptionKeyFingerprint] ['=']]
    "; ".toList

/-- The loop of `parseEnvelopeAccessLine` over the `;`-separated attributes: `none` is
the nil reader returned for a foreign algorithm; `parts[1]` fails when a known
attribute has no `=`. -/
def accessLineAttributes : List Str → Reader → Outcome (Option Reader)
  | [], reader => .ok (some reader)
  | s :: rest, reader =>
    let parts := strings.SplitN2 (strings.TrimSpace s) ['=']
    let name := strings.TrimSpace (parts.headD [])
    if name = ACCESS_LINE_ATTRIBUTE_LINK then
      match parts.tail.head? with
      | none => .panic
      | some v => accessLineAttributes rest { reader with Link := strings.TrimSpace v }
    else if name = ACCESS_LINE_ATTRIBUTE_NONCE_KEY_FINGERPRINT then
      match parts.tail.head? with
      | none => .panic
      | some v => accessLineAttributes rest
          { reader with User := { reader.User with PublicSigningKeyFingerprint := strings.TrimSpace v } }
    else if name = ACCESS_LINE_ATTRIBUTE_DATA then
      match parts.tail.head? with
      | none => .panic
      | some v => accessLineAttributes rest { reader with SealedKey := strings.TrimSpace v }
    else if name = ACCESS_LINE_ATTRIBUTE_ALGORITHM then
      match parts.tail.head? with
      | none => .panic
      | some v =>
        if strings.ToLower (strings.TrimSpace v) ≠ ANONYMOUS_ENCRYPTION_CIPHER then .ok none
        else accessLineAttributes rest reader
    else if name = ACCESS_LINE_ATTRIBUTE_FINGERPRINT then
      match parts.tail.head? with
      | none => .panic
      | some v => accessLineAttributes rest
          { reader with User := { reader.User with PublicEncryptionKeyFingerprint := strings.TrimSpace v } }
    else accessLineAttributes rest reader

/-- Go `parseEnvelopeAccessLine` (helpers.go). -/
def parseEnvelopeAccessLine (line : Str) : Outcome (Option Reader) :=
  accessLineAttributes (strings.Split line [';']) {}

/-- The loop of `extractReaderAccess` over the `,`-separated entries. -/
def readerAccessEntries : List Str → List Reader → Outcome (List Reader)
  | [], readers => .ok readers
  | accessStr :: rest, readers =>
    match parseEnvelopeAccessLine (strings.TrimSpace accessStr) with
    | .ok (some reader) => readerAccessEntries rest (readers ++ [reader])
    | .ok none => readerAccessEntries rest readers
    | .error e => .error e
    | .panic => .panic

/-- Go `extractReaderAccess` (headers.go). -/
def extractReaderAccess (accessListStr : Str) : Outcome (List Reader) :=
  readerAccessEntries (strings.Split accessListStr HEADER_ACCESS_LIST_SEPARATOR) []

/-- Go `AssignMessageHeader` (headers.go): whether the key is an envelope header, and
the message after the assignment. -/
def AssignMessageHeader (key value : Str) (message : Message) : Outcome (Bool × Message) :=
  let value := strings.TrimSpace value
  let name := strings.ToLower (strings.TrimSpace key)
  if name = HEADER_MESSAGE_ID then .ok (true, { message with ID := value })
  else if name = HEADER_MESSAGE_STREAM then .ok (true, { message with StreamID := value })
  else if name = HEADER_MESSAGE_ACCESS then
    match extractReaderAccess value with
    | .ok readers => .ok (true, { message with AccessList := value, IsBroadcast := false, Readers := readers })
    | .error e => .error e
    | .panic => .panic
  else if name = HEADER_MESSAGE_CONTENT_HEADERS then .ok (true, { message with ContentHeadersData := value })
  else if name = HEADER_MESSAGE_ENVELOPE_CHECKSUM then
    match utils.ParseHeadersAttributes value with
    | .ok checksumAttrMap =>
      if checksumAttrMap.get "algorithm".toList ≠ CHECKSUM_ALGORITHM then .error "unsupported checksum algorithm"
      else .ok (true, { message with
        EnvelopeHeadersChecksumUnparsed := value,
        EnvelopeHeadersChecksum := checksumAttrMap.get "sum".toList,
        EnvelopeHeadersOrder := checksumAttrMap.get "order".toList })
    | .error e => .error e
    | .panic => .panic
  else if name = HEADER_MESSAGE_ENVELOPE_SIGNATURE then
    match utils.ParseHeadersAttributes value with
    | .ok signatureAttrMap =>
      if signatureAttrMap.get "algorithm".toList ≠ SIGNING_ALGORITHM then .error "unsupported signing algorithm"
      else .ok (true, { message with
        EnvelopeHeadersSignatureUnparsed := value,
        EnvelopeHeadersSignature := signatureAttrMap.get "data".toList })
    | .error e => .error e
    | .panic => .panic
  else if name = HEADER_MESSAGE_ENCRYPTION then
    match CipherInfoFromHeader value with
    | .ok ci => .ok (true, { message with PayloadCipher := some ci })
    | .error e => .error e
    | .panic => .panic
  else .ok (false, message)

/-- The scanning loop of `ParseEnvelopeData`; `line[0]` fails on a blank line. -/
def parseEnvelopeLines : List Str → Message → Outcome Message
  | [], message => .ok message
  | text :: rest, message =>
    match strings.TrimSpace text with
    | [] => .panic
    | c :: cs =>
      if c = '#' then parseEnvelopeLines rest message
      else match strings.SplitN2 (c :: cs) HEADER_KEY_VALUE_SEPARATOR with
        | [k, v] =>
          match AssignMessageHeader k v message with
          | .ok (_, message) => parseEnvelopeLines rest message
          | .error e => .error e
          | .panic => .panic
        | _ => parseEnvelopeLines rest message

/-- Go `ParseEnvelopeData` (headers.go). -/
def ParseEnvelopeData (data : Str) : Outcome Message :=
  match parseEnvelopeLines (bufio.scanLines data).1 { IsBroadcast := true } with
  | .ok message =>
    if (bufio.scanLines data).2 then .error "bufio.Scanner: token too long" else .ok message
  | .error e => .error e
  | .panic => .panic

/-- The loop of `VerifyEnvelopeAuthenticity` over the names of the declared order: the
buffer after the values written; reading the value of `message-encryption` fails when
`PayloadCipher` is nil. -/
def writeOrderedValues (msg : Message) : List Str → Str → Outcome Str
  | [], buffer => .ok buffer
  | h :: rest, buffer =>
    let h := strings.ToLower (strings.TrimSpace h)
    if h = HEADER_MESSAGE_ID then writeOrderedValues msg rest (buffer ++ msg.ID)
    else if h = HEADER_MESSAGE_STREAM then writeOrderedValues msg rest (buffer ++ msg.StreamID)
    else if h = HEADER_MESSAGE_ACCESS then writeOrderedValues msg rest (buffer ++ msg.AccessList)
    else if h = HEADER_MESSAGE_CONTENT_HEADERS then writeOrderedValues msg rest (buffer ++ msg.ContentHeadersData)
    else if h = HEADER_MESSAGE_ENCRYPTION then
      match msg.PayloadCipher with
      | none => .panic
      | some ci => writeOrderedValues msg rest (buffer ++ ci.OriginalHeaderValue)
    else writeOrderedValues msg rest buffer

/-- Go `(*Message).VerifyEnvelopeAuthenticity` (open.go). -/
def VerifyEnvelopeAuthenticity (P : Prim) (msg : Message) : Outcome Bool :=
  if msg.EnvelopeHeadersOrder = [] ∨ msg.EnvelopeHeadersChecksum = [] ∨ msg.EnvelopeHeadersSignature = [] then
    .ok false
  else
    match writeOrderedValues msg (strings.Split msg.EnvelopeHeadersOrder [':']) [] with
    | .ok values =>
      if msg.EnvelopeHeadersChecksum ≠ (Checksum P values).1 then .ok false
      else if !VerifySignature P msg.Author.PublicSigningKey msg.EnvelopeHeadersSignature (Checksum P values).2 then
        .ok false
      else .ok true
    | .error e => .error e
    | .panic => .panic

/-- The order `sort.Slice` establishes in `SealedAccessList`: `a` may stay before `b`
when the link of `b` is not smaller. -/
def linkOrder (a b : Reader) : Prop := links.strLess b.Link a.Link = false

instance : DecidableRel linkOrder := fun a b => inferInstanceAs (Decidable (links.strLess b.Link a.Link = false))

/-- The readers after `sort.Slice(msg.Readers, ...)`: sorted by link. Readers with equal
links keep their order, as Go's insertion sort of short slices does. -/
def sortReaders (readers : List Reader) : List Reader := List.insertionSort linkOrder readers

/-- The loop of `SealedAccessList`: the access key sealed for each reader in turn. -/
def sealedAccessLines (P : Prim) (accessKey : Str) : List Reader → Outcome (List Str)
  | [] => .ok []
  | r :: rest =>
    match EncryptAnonymous P r.User.PublicEncryptionKey accessKey with
    | .ok sealedKey =>
      match sealedAccessLines P accessKey rest with
      | .ok lines => .ok (envelopeAccessLine { r with SealedKey := sealedKey } :: lines)
      | .error e => .error e
      | .panic => .panic
    | .error e => .error e
    | .panic => .panic

/-- Go `(Message).SealedAccessList` (seal.go). The sort reorders the slice that the
caller's message shares. -/
def SealedAccessList (P : Prim) (msg : Message) : Outcome Str :=
  match sealedAccessLines P msg.AccessKey (sortReaders msg.Readers) with
  | .ok readersList => .ok (strings.Join readersList (HEADER_ACCESS_LIST_SEPARATOR ++ " ".toList))
  | .error e => .error e
  | .panic => .panic

/-- Go `(*Message).EmbedContentHeaders` (seal.go). -/
def EmbedContentHeaders (P : Prim) (msg : Message) : Str :=
  let headers : List Str := [
    HeaderLine HEADER_CONTENT_MESSAGE_ID msg.ID,
    HeaderLine HEADER_CONTENT_AUTHOR msg.Author.Address,
    HeaderLine HEADER_CONTENT_DATE (utils.ToRFC3339String P msg.Content.Date),
    HeaderLine HEADER_CONTENT_SUBJECT msg.Content.Subject,
    HeaderLine HEADER_CONTENT_SUBJECT_ID msg.Content.SubjectID,
    HeaderLine HEADER_CONTENT_PARENT_MESSAGE_ID msg.Content.ParentMessageID,
    HeaderLine HEADER_CONTENT_CATEGORY msg.Content.Category,
    HeaderLine HEADER_CONTENT_SIZE (strconv.FormatInt msg.Content.Size),
    HeaderLine HEADER_CONTENT_CHECKSUM (ChecksumHeader msg.Content.Checksum)]
  let headers := if msg.IsFile then headers ++ [HeaderLine HEADER_CONTENT_FILE (FileHeader P msg.Content)] else headers
  let headers :=
    if !msg.IsBroadcast then
      headers ++ [HeaderLine HEADER_CONTENT_READERS
        (strings.Join (msg.Readers.map (fun reader => reader.User.Address))
          (HEADER_CONTENT_READERS_ADDRESS_SEPARATOR ++ " ".toList))]
    else headers
  strings.Join headers ['\n']

/-- The envelope headers `SealEnvelope` collects before the checksum: name and value. -/
def sealedHeaderPairs (P : Prim) (msg : Message) : Outcome (List (Str × Str)) :=
  let headers : List (Str × Str) := [(HEADER_MESSAGE_ID, msg.ID)]
  let headers := if msg.StreamID ≠ [] then headers ++ [(HEADER_MESSAGE_STREAM, msg.StreamID)] else headers
  let contentHeaders := EmbedContentHeaders P msg
  if msg.IsBroadcast then
    .ok (headers ++ [(HEADER_MESSAGE_CONTENT_HEADERS,
      "algorithm=none; value=".toList ++ P.base64Encode contentHeaders)])
  else
    match msg.PayloadCipher with
    | none => .panic
    | some ci =>
      match SealedAccessList P msg with
      | .ok accessList =>
        match Xchacha20Poly1305Encrypt P contentHeaders msg.AccessKey with
        | .ok encryptedHeaders =>
          .ok (headers ++ [(HEADER_MESSAGE_ENCRYPTION, ci.ToHeader), (HEADER_MESSAGE_ACCESS, accessList),
            (HEADER_MESSAGE_CONTENT_HEADERS,
              "algorithm=".toList ++ SYMMETRIC_CIPHER ++ "; ".toList ++ "value=".toList ++
                P.base64Encode encryptedHeaders)])
        | .error e => .error e
        | .panic => .panic
      | .error e => .error e
      | .panic => .panic

/-- Go `(*Message).SealEnvelope` (seal.go): the text written to the envelope file. -/
def SealEnvelope (P : Prim) (msg : Message) : Outcome Str :=
  match sealedHeaderPairs P msg with
  | .ok headers =>
    let envelopeDumpHeadersList := headers.map (fun hPair => HeaderLine hPair.1 hPair.2)
    let envelopeHeadersOrderList := headers.map (fun hPair => hPair.1)
    let envelopeChecksumValuesList := headers.map (fun hPair => hPair.2)
    let envelopeChecksum := strings.Join envelopeChecksumValuesList []
    let envelopeHexCheckSum := (Checksum P envelopeChecksum).1
    let envelopeSumBytes := (Checksum P envelopeChecksum).2
    let envelopeSignature := SignData P msg.Author.PublicSigningKey msg.Author.PrivateSigningKey envelopeSumBytes
    let envelopeDumpHeadersList := envelopeDumpHeadersList ++ [
      HeaderLine HEADER_MESSAGE_ENVELOPE_CHECKSUM
        (HeadersChecksumHeader envelopeHexCheckSum (strings.Join envelopeHeadersOrderList [':'])),
      HeaderLine HEADER_MESSAGE_ENVELOPE_SIGNATURE (SignatureHeader envelopeSignature)]
    .ok (strings.Join envelopeDumpHeadersList ['\n'] ++ ['\n'])
  | .error e => .error e
  | .panic => .panic

/-- The inner loop of `parseContentHeaders` that discloses an address: the first reader
with the link receives it. -/
def assignReaderAddress (link addr : Str) : List Reader → List Reader
  | [] => []
  | r :: rest =>
    if r.Link = link then { r with User := { r.User with Address := addr } } :: rest
    else r :: assignReaderAddress link addr rest

/-- The loop of `parseContentHeaders` over the disclosed reader addresses. -/
def expandReaders (P : Prim) (authorAddress : Str) : List Str → List Reader → List Reader
  | [], readers => readers
  | addr :: rest, readers =>
    expandReaders P authorAddress rest
      (assignReaderAddress (links.Make P (strings.TrimSpace addr) authorAddress) (strings.TrimSpace addr) readers)

/-- One content header assigned by the `switch` of `parseContentHeaders`. -/
def assignContentHeader (P : Prim) (key value : Str) (message : Message) : Outcome Message :=
  if key = HEADER_CONTENT_MESSAGE_ID then
    let message := { message with Content := { message.Content with ID := value } }
    if message.ID = [] ∧ utils.ValidMessageID value then .ok { message with ID := value } else .ok message
  else if key = HEADER_CONTENT_AUTHOR then
    let message := { message with Content := { message.Content with AuthorAddress := value } }
    if message.Author.Address = [] then
      match address.ParseEmailAddress value with
      | .ok (addr, domain, localPart) =>
        .ok { message with Author := { message.Author with Address := addr, Domain := domain, LocalPart := localPart } }
      | .error e => .error e
      | .panic => .panic
    else .ok message
  else if key = HEADER_CONTENT_DATE then
    match utils.ParseRFC3339Time P value with
    | .ok time => .ok { message with Content := { message.Content with Date := time } }
    | .error e => .error e
    | .panic => .panic
  else if key = HEADER_CONTENT_SIZE then
    match strconv.ParseInt value with
    | some size => .ok { message with Content := { message.Content with Size := size } }
    | none => .error (strconv.parseIntError value)
  else if key = HEADER_CONTENT_CHECKSUM then
    match utils.ParseHeadersAttributes value with
    | .ok checksumAttrs =>
      if checksumAttrs.get "algorithm".toList ≠ CHECKSUM_ALGORITHM then .error "unsupported checksum algorithm"
      else .ok { message with Content := { message.Content with Checksum := checksumAttrs.get "sum".toList } }
    | .error e => .error e
    | .panic => .panic
  else if key = HEADER_CONTENT_FILE then
    match utils.ParseHeadersAttributes value with
    | .ok fileAttrs =>
      let content := message.Content
      let content := { content with
        FileName := if fileAttrs.has "name".toList then fileAttrs.get "name".toList else "unnamed-file".toList }
      let content :=
        if fileAttrs.has "type".toList then { content with FileType := fileAttrs.get "type".toList } else content
      if fileAttrs.has "modified".toList then
        match utils.ParseRFC3339Time P (fileAttrs.get "modified".toList) with
        | .ok time => .ok { message with Content := { content with FileModifiedAt := time } }
        | .error e => .error e
        | .panic => .panic
      else .ok { message with Content := content }
    | .error e => .error e
    | .panic => .panic
  else if key = HEADER_CONTENT_SUBJECT then
    .ok { message with Content := { message.Content with Subject := value } }
  else if key = HEADER_CONTENT_SUBJECT_ID then
    .ok { message with Content := { message.Content with SubjectID := value } }
  else if key = HEADER_CONTENT_PARENT_MESSAGE_ID then
    .ok { message with Content := { message.Content with ParentMessageID := value } }
  else if key = HEADER_CONTENT_CATEGORY then
    .ok { message with Content := { message.Content with Category := value } }
  else if key = HEADER_CONTENT_READERS then
    .ok { message with Content := { message.Content with ReadersAddresses := value } }
  else .ok message

/-- The scanning loop of `parseContentHeaders`; `line[0]` fails on a blank line. -/
def parseContentLines (P : Prim) : List Str → Message → Outcome Message
  | [], message => .ok message
  | text :: rest, message =>
    match strings.TrimSpace text with
    | [] => .panic
    | c :: cs =>
      if c = '#' then parseContentLines P rest message
      else match strings.SplitN2 (c :: cs) HEADER_KEY_VALUE_SEPARATOR with
        | [k, v] =>
          match assignContentHeader P (strings.ToLower (strings.TrimSpace k)) (strings.TrimSpace v) message with
          | .ok message => parseContentLines P rest message
          | .error e => .error e
          | .panic => .panic
        | _ => parseContentLines P rest message

/-- Go `parseContentHeaders` (headers.go). The scanner's error is not consulted. -/
def parseContentHeaders (P : Prim) (message : Message) (contentHeaders : Str) : Outcome Message :=
  match parseContentLines P (bufio.scanLines contentHeaders).1 message with
  | .ok message =>
    .ok { message with
      Readers := expandReaders P message.Author.Address
        (strings.Split message.Content.ReadersAddresses [',']) message.Readers }
  | .error e => .error e
  | .panic => .panic

/-- The loop of `retrieveAccessKeyForReaderUser` over the readers of the access list: the
result, and the sealed keys handed to `DecryptAnonymous` on the way. -/
def retrieveAccessKeyTrace (P : Prim) (link : Str) (readerUser : Reader) : List Reader → Outcome Str × List Str
  | [] => (.error "non-designated reader or public key mismatch", [])
  | r :: rest =>
    if r.Link = link ∧ r.User.PublicEncryptionKeyFingerprint = readerUser.User.PublicEncryptionKeyFingerprint then
      (DecryptAnonymous P readerUser.User.PrivateEncryptionKey readerUser.User.PublicEncryptionKey r.SealedKey,
        [r.SealedKey])
    else retrieveAccessKeyTrace P link readerUser rest

/-- Go `retrieveAccessKeyForReaderUser` (headers.go). -/
def retrieveAccessKeyForReaderUser (P : Prim) (message : Message) (readerUser : Reader) : Outcome Str :=
  (retrieveAccessKeyTrace P (links.Make P message.Author.Address readerUser.User.Address) readerUser
    message.Readers).1

/-- The sealed keys `retrieveAccessKeyForReaderUser` hands to `DecryptAnonymous`. -/
def openedSealedKeys (P : Prim) (message : Message) (readerUser : Reader) : List Str :=
  (retrieveAccessKeyTrace P (links.Make P message.Author.Address readerUser.User.Address) readerUser
    message.Readers).2

/-- Go `openContentHeaders` (headers.go). -/
def openContentHeaders (P : Prim) (message : Message) (contentHeadersBytes : Str) : Outcome Str :=
  Xchacha20Poly1305DecodeDecrypt P contentHeadersBytes message.AccessKey

/-- The loop of `openEnvelopeFile` over the attributes of `Message-Headers`: the base64
text of the `data` attribute; `kvs[1]` fails when `seal` or `data` has no `=`. -/
def contentHeaderAttrs : List Str → Str → Outcome Str
  | [], contentHeadersBase64 => .ok contentHeadersBase64
  | pair :: rest, contentHeadersBase64 =>
    let kvs := strings.SplitN2 pair ['=']
    let name := strings.ToLower (strings.TrimSpace (kvs.headD []))
    if name = "seal".toList then
      match kvs.tail.head? with
      | none => .panic
      | some v =>
        let algorithm := strings.ToLower (strings.TrimSpace v)
        if algorithm = "none".toList then contentHeaderAttrs rest contentHeadersBase64
        else if algorithm ≠ SYMMETRIC_CIPHER then
          .error ("Unsupported content headers cipher: " ++ String.mk algorithm)
        else contentHeaderAttrs rest contentHeadersBase64
    else if name = "data".toList then
      match kvs.tail.head? with
      | none => .panic
      | some v => contentHeaderAttrs rest v
    else contentHeaderAttrs rest contentHeadersBase64

/-- A message directory: the content of each file, `none` when the file is missing. -/
structure MessageDir where
  envelope : Option Str := none
  payload : Option Str := none
  headers : Option Str := none
  body : Option Str := none
  file : Option Str := none
  /-- Modification time set on the opened file by `SetFileModificationTime`. -/
  fileModifiedAt : Option Int := none
  deriving DecidableEq, Repr

/-- Go `ParseEnvelopeFile` (headers.go). -/
def ParseEnvelopeFile (dir : MessageDir) : Outcome Message :=
  match dir.envelope with
  | none => .error "open envelope: no such file or directory"
  | some envelopeData => ParseEnvelopeData envelopeData

/-- Go `openEnvelopeFile` (headers.go). -/
def openEnvelopeFile (P : Prim) (dir : MessageDir) (authorUser : User) (readerUser : Reader) : Outcome Message :=
  match ParseEnvelopeFile dir with
  | .ok message =>
    let message := { message with Author := authorUser }
    if message.ContentHeadersData = [] then .error "Invalid message"
    else match contentHeaderAttrs (strings.Split message.ContentHeadersData [';']) [] with
      | .ok contentHeadersBase64 =>
        let opened : Outcome Message :=
          if message.IsBroadcast then
            match P.base64Decode contentHeadersBase64 with
            | none => .error "illegal base64 data"
            | some contentHeadersBytes => .ok { message with ContentHeadersBytes := contentHeadersBytes }
          else
            match retrieveAccessKeyForReaderUser P message readerUser with
            | .ok key =>
              match openContentHeaders P { message with AccessKey := key } contentHeadersBase64 with
              | .ok decrypted => .ok { message with AccessKey := key, ContentHeadersBytes := decrypted }
              | .error e => .error e
              | .panic => .panic
            | .error e => .error e
            | .panic => .panic
        match opened with
        | .ok message =>
          match VerifyEnvelopeAuthenticity P message with
          | .ok true => parseContentHeaders P message message.ContentHeadersBytes
          | .ok false => .error "Message authenticity failure"
          | .error e => .error e
          | .panic => .panic
        | .error e => .error e
        | .panic => .panic
      | .error e => .error e
      | .panic => .panic
  | .error e => .error e
  | .panic => .panic

/-- Go `OpenFromUnsealedHeaders` (open.go). -/
def OpenFromUnsealedHeaders (P : Prim) (dir : MessageDir) : Outcome Message :=
  match dir.headers with
  | none => .error "Message is not opened."
  | some headersData => parseContentHeaders P {} headersData

/-- Go `cleanupFailedOpen` (open.go): the `headers` file is removed. -/
def cleanupFailedOpen (dir : MessageDir) : MessageDir := { dir with headers := none }

/-- The payload step of `Open`: the payload copied or decrypted into `body`, or into
`file` for a file message. A private message without `Message-Encryption` has a nil
`PayloadCipher`, whose `Stream` field cannot be read. -/
def openPayload (P : Prim) (message : Message) (dir : MessageDir) : Outcome IOInfo × MessageDir :=
  let dest := if message.IsFile then dir.file else dir.body
  let result : Outcome IOInfo × Option Str :=
    if message.IsBroadcast then CopyFile P dir.payload dest
    else match message.PayloadCipher with
      | none => (.panic, dest)
      | some ci =>
        if ci.Stream then SecretStreamXchacha20Poly1305DecryptFile P dir.payload dest message.AccessKey ci.ChunkSize
        else Xchacha20Poly1305DecryptFile P dir.payload dest message.AccessKey
  (result.1, if message.IsFile then { dir with file := result.2 } else { dir with body := result.2 })

/-- Go `Open` (open.go): the message or the error, and the directory afterwards. -/
def Open (P : Prim) (dir : MessageDir) (authorUser : User) (readerUser : Reader) : Outcome Message × MessageDir :=
  if dir.headers.isSome then (.error "Message is already opened.", dir)
  else
    match openEnvelopeFile P dir authorUser readerUser with
    | .ok message =>
      let dir := { dir with headers := some (message.ContentHeadersBytes ++ ['\n']) }
      match openPayload P message dir with
      | (.ok fileInfo, dir) =>
        if message.Content.Checksum ≠ fileInfo.OutputChecksum then
          (.error "Content checksum failure: seal broken", dir)
        else
          let dir :=
            if message.IsFile then { dir with fileModifiedAt := some message.Content.FileModifiedAt } else dir
          (.ok message, { dir with payload := none })
      | (.error e, dir) => (.error e, cleanupFailedOpen dir)
      | (.panic, dir) => (.panic, dir)
    | .error e => (.error e, cleanupFailedOpen dir)
    | .panic => (.panic, dir)

end message

/-! ## Package `internal/nonce` -/

/-- A message directory `store/<id>` on the server: the envelope file, the payload file
and the access log; `none` is a missing file. -/
structure StoredMessage where
  envelope : Option Str := none
  payload : Option Str := none
  access : Option Str := none
  deriving DecidableEq, Repr

/-- The home directory of an account on the server: the daily nonce files, by day number,
the file `profile/data`, the files `store/index` and `store/index~`, and the message
directories of `store/` by name; `none` is a missing file or directory. -/
structure Home where
  nonces : Int → Option Str := fun _ => none
  profileData : Option Str := none
  index : Option Str := none
  indexTemp : Option Str := none
  messages : Str → Option StoredMessage := fun _ => none

namespace nonce

def NONCES_COLUMN_SEPARATOR : Str := ",".toList
def NONCE_SCHEME : Str := "SOTN".toList
def NONCE_HEADER_ATTRIBUTE_VALUE : Str := "nonce".toList
def NONCE_HEADER_ATTRIBUTE_ALGORITHM : Str := "algorithm".toList
def NONCE_HEADER_ATTRIBUTE_SIGNATURE : Str := "signature".toList
def NONCE_HEADER_ATTRIBUTE_KEY : Str := "key".toList

def ErrorNonceReplay : String := "nonce replay"
def ErrorBadNonceHeader : String := "bad nonce header"
def ErrorBadNonceSignature : String := "bad nonce signature"
def ErrorBadNonceKey : String := "bad nonce signing key"

/-- Go `nonce.Nonce` (nonce.go). -/
structure Nonce where
  Value : Str := []
  Signature : Str := []
  SigningKey : Str := crypto.toArray 32 []
  Date : Str := []
  SigningKeyBase64 : Str := []
  SigningKeyFingerprint : Str := []
  SigningAlgorithm : Str := []
  deriving DecidableEq, Repr

/-- Go `nonce.ToHeader` (nonce.go). -/
def ToHeader (nonce : Nonce) : Str :=
  NONCE_SCHEME ++ " ".toList ++ strings.Join [
    strings.Join [NONCE_HEADER_ATTRIBUTE_VALUE, nonce.Value] ['='],
    strings.Join [NONCE_HEADER_ATTRIBUTE_ALGORITHM, nonce.SigningAlgorithm] ['='],
    strings.Join [NONCE_HEADER_ATTRIBUTE_SIGNATURE, nonce.Signature] ['='],
    strings.Join [NONCE_HEADER_ATTRIBUTE_KEY, nonce.SigningKeyBase64] ['=']] ", ".toList

/-- The loop of `FromHeader` over the `,`-separated attributes; `parts[1]` fails when an
attribute has no `=`. -/
def headerAttributes (P : Prim) : List Str → Nonce → Outcome Nonce
  | [], nonce => .ok nonce
  | kv :: rest, nonce =>
    match strings.SplitN2 (strings.TrimSpace kv) ['='] with
    | [name, value] =>
      let name := strings.ToLower name
      if name = NONCE_HEADER_ATTRIBUTE_ALGORITHM then
        headerAttributes P rest { nonce with SigningAlgorithm := value }
      else if name = NONCE_HEADER_ATTRIBUTE_VALUE then
        if nonce.Value ≠ [] then .error ErrorBadNonceHeader
        else headerAttributes P rest { nonce with Value := value }
      else if name = NONCE_HEADER_ATTRIBUTE_SIGNATURE then
        if nonce.Signature ≠ [] then .error ErrorBadNonceHeader
        else headerAttributes P rest { nonce with Signature := value }
      else if name = NONCE_HEADER_ATTRIBUTE_KEY then
        if nonce.SigningKeyBase64 ≠ [] then .error ErrorBadNonceHeader
        else match crypto.DecodeBase64Key32 P value with
          | .ok pubKey =>
            headerAttributes P rest { nonce with
              SigningKeyBase64 := value, SigningKey := pubKey,
              SigningKeyFingerprint := crypto.Fingerprint P pubKey }
          | .error e => .error e
          | .panic => .panic
      else headerAttributes P rest nonce
    | _ => .panic

/-- Go `nonce.FromHeader` (nonce.go), at the instant `now`; `values[1]` fails when the
header does not contain the scheme. -/
def FromHeader (P : Prim) (now : Int) (nonceHeader : Str) : Outcome Nonce :=
  match strings.SplitN2 nonceHeader NONCE_SCHEME with
  | [_, v] =>
    let trimmedValues := strings.TrimSpace v
    let trimmedValues := strings.RemoveAll trimmedValues '\t'
    let trimmedValues := strings.RemoveAll trimmedValues '\n'
    match headerAttributes P (strings.Split trimmedValues [',']) { Date := utils.ToRFC3339String P now } with
    | .ok nonce =>
      if nonce.Value = [] ∨ nonce.Signature = [] ∨ nonce.SigningKeyBase64 = [] then .error ErrorBadNonceHeader
      else .ok nonce
    | .error e => .error e
    | .panic => .panic
  | _ => .panic

/-- Go `nonce.VerifySignature` (nonce.go): `none` is the nil error. -/
def VerifySignature (P : Prim) (nonce : Nonce) : Option String :=
  if crypto.Fingerprint P nonce.SigningKey ≠ nonce.SigningKeyFingerprint then some ErrorBadNonceKey
  else if !crypto.VerifySignature P nonce.SigningKey nonce.Signature nonce.Value then some ErrorBadNonceSignature
  else none

/-- The calendar day of an instant given in seconds; the name of a nonce file carries it
as `.nonces_YYYY-MM-DD`. Days are those of a zone with a fixed offset. -/
def dayOf (now : Int) : Int := now / 86400

/-- Go `nonce.IsUnique` (nonce.go) at the instant `now`: `ok ()` is the nil error. -/
def IsUnique (home : Home) (nonce : Nonce) (now : Int) : Outcome Unit :=
  match utils.PrefixExistsInFile nonce.Value (home.nonces (dayOf now)) with
  | .ok true => .error ErrorNonceReplay
  | .ok false =>
    match utils.PrefixExistsInFile nonce.Value (home.nonces (dayOf now - 1)) with
    | .ok true => .error ErrorNonceReplay
    | .ok false => .ok ()
    | .error e => .error e
    | .panic => .panic
  | .error e => .error e
  | .panic => .panic

/-- Go `nonce.Record` (nonce.go) at the instant `now`: the home with the line appended to
the file of the day. The clean-up it starts runs on its own, see `Cleanup`. -/
def Record (home : Home) (nonce : Nonce) (now : Int) : Home :=
  let nonceLine := nonce.Value ++ NONCES_COLUMN_SEPARATOR ++ nonce.Date
  { home with nonces := fun d =>
      if d = dayOf now then Option.some (utils.AppendStringToFile nonceLine (home.nonces d))
      else home.nonces d }

/-- Go `nonce.Cleanup` (nonce.go) at the instant `now`: every nonce file but the one of
the day and the one of the day before is deleted. -/
def Cleanup (home : Home) (now : Int) : Home :=
  { home with nonces := fun d => if d = dayOf now ∨ d = dayOf now - 1 then home.nonces d else none }

end nonce

/-! ## Package `internal/email/profile` -/

namespace profile

def PROFILE_FIELD_PUBLIC_ACCESS : Str := "Public-Access".toList
def PROFILE_FIELD_NAME : Str := "Name".toList
def PROFILE_FIELD_ENCRYPTION_KEY : Str := "Encryption-Key".toList
def PROFILE_FIELD_SIGNING_KEY : Str := "Signing-Key".toList
def PROFILE_FIELD_LAST_SIGNING_KEY : Str := "Last-Signing-Key".toList
def PROFILE_FIELD_AWAY : Str := "Away".toList
def PROFILE_FIELD_AWAY_WARNING : Str := "Away-Warning".toList
def PROFILE_FIELD_UPDATED : Str := "Updated".toList
def PROFILE_LAST_SEEN_PUBLIC : Str := "Last-Seen-Public".toList

/-- Go `profile.Profile` (profile.go). -/
structure Profile where
  User : user.User := {}
  Name : Str := []
  IsAway : Bool := false
  AwayMessage : Str := []
  PublicAccess : Bool := false
  LastSeenPublicTracking : Bool := false
  LastEncryptionKeyFingerprint : Str := []
  LastSigningKeyFingerprint : Str := []
  LastEncryptionKeyBase64 : Str := []
  LastEncryptionKey : Str := crypto.toArray 32 []
  LastSigningKeyBase64 : Str := []
  LastSigningKey : Str := crypto.toArray 32 []
  RemoteBody : Option Str := none
  deriving DecidableEq, Repr

/-- Go `extractKeyData` (profile.go): the base64 text, the key array (left zero by the
source) and the fingerprint of the decoded key. -/
def extractKeyData (P : Prim) (algorithm strkey : Str) : Outcome (Str × Str × Str) :=
  match utils.ParseHeadersAttributes strkey with
  | .ok valuesMap =>
    if !valuesMap.has "algorithm".toList then .error "'algorithm' attribute not present in profile Key data"
    else if strings.ToLower (valuesMap.get "algorithm".toList) ≠ algorithm then
      .error "algorithm mismatch in Key data"
    else if !valuesMap.has "value".toList then .error "'value' attribute not present in profile Key data"
    else match P.base64Decode (valuesMap.get "value".toList) with
      | none => .error "illegal base64 data"
      | some data => .ok (valuesMap.get "value".toList, crypto.toArray 32 [], crypto.Fingerprint P data)
  | .error e => .error e
  | .panic => .panic

/-- Go `assignValueToField` (profile.go). -/
def assignValueToField (P : Prim) (profile : Profile) (key value : Str) : Outcome Profile :=
  if strings.TrimSpace value = [] then .ok profile
  else if key = PROFILE_FIELD_PUBLIC_ACCESS then
    .ok { profile with PublicAccess := decide (strings.ToLower value ≠ "no".toList) }
  else if key = PROFILE_FIELD_AWAY then .ok { profile with IsAway := decide (strings.ToLower value = "yes".toList) }
  else if key = PROFILE_FIELD_AWAY_WARNING then .ok { profile with AwayMessage := value }
  else if key = PROFILE_FIELD_NAME then .ok { profile with Name := value }
  else if key = PROFILE_FIELD_ENCRYPTION_KEY then
    match extractKeyData P crypto.ANONYMOUS_ENCRYPTION_CIPHER value with
    | .ok (b64, key, fp) =>
      .ok { profile with User := { profile.User with
        PublicEncryptionKeyBase64 := b64, PublicEncryptionKey := key, PublicEncryptionKeyFingerprint := fp } }
    | .error e => .error e
    | .panic => .panic
  else if key = PROFILE_FIELD_SIGNING_KEY then
    match extractKeyData P crypto.SIGNING_ALGORITHM value with
    | .ok (b64, key, fp) =>
      .ok { profile with User := { profile.User with
        PublicSigningKeyBase64 := b64, PublicSigningKey := key, PublicSigningKeyFingerprint := fp } }
    | .error e => .error e
    | .panic => .panic
  else if key = PROFILE_FIELD_LAST_SIGNING_KEY then
    match extractKeyData P crypto.SIGNING_ALGORITHM value with
    | .ok (b64, key, fp) =>
      .ok { profile with LastSigningKeyBase64 := b64, LastSigningKey := key, LastSigningKeyFingerprint := fp }
    | .error e => .error e
    | .panic => .panic
  else if key = PROFILE_FIELD_UPDATED then .ok profile
  else if key = PROFILE_LAST_SEEN_PUBLIC then
    .ok { profile with LastSeenPublicTracking := decide (strings.ToLower value ≠ "no".toList) }
  else .ok profile

/-- The scanning loop of `ParseProfile`. -/
def parseProfileLines (P : Prim) : List Str → Profile → Outcome Profile
  | [], p => .ok p
  | text :: rest, p =>
    match strings.TrimSpace text with
    | [] => parseProfileLines P rest p
    | c :: cs =>
      if c = '#' then parseProfileLines P rest p
      else match strings.SplitN2 (c :: cs) [':'] with
        | [k, v] =>
          match assignValueToField P p (strings.TrimSpace k) (strings.TrimSpace v) with
          | .ok p => parseProfileLines P rest p
          | .error e => .error e
          | .panic => .panic
        | _ => parseProfileLines P rest p

/-- Go `ParseProfile` (profile.go). -/
def ParseProfile (P : Prim) (p : Profile) (body : Str) : Outcome Profile :=
  match parseProfileLines P (bufio.scanLines body).1 p with
  | .ok p => if (bufio.scanLines body).2 then .error "bufio.Scanner: token too long" else .ok p
  | .error e => .error e
  | .panic => .panic

/-- Go `GetLocalProfile` (profile.go). -/
def GetLocalProfile (P : Prim) (home : Home) (domain localPart : Str) : Outcome Profile :=
  match home.profileData with
  | none => .error "open profile/data: no such file or directory"
  | some profileData =>
    ParseProfile P
      { RemoteBody := some profileData, PublicAccess := true,
        User := { Address := address.JoinAddress domain localPart, Domain := domain, LocalPart := localPart } }
      profileData

end profile

/-! ## Command `cmd/server`: the authentication middleware -/

namespace server

/-- The data directory of the server: the home of each account, by domain and user. -/
structure Application where
  homes : Str → Str → Option Home

/-- What the middleware reads of a request: the value of the nonce header (empty when the
header is absent) and the route parameters. -/
structure Request where
  nonceHeader : Str := []
  domain : Str := []
  user : Str := []
  link : Str := []
  deriving DecidableEq, Repr

/-- How a middleware answers: a status written by `clientError`, `serverError` or
`notFound`, or the call of the next handler with the values put in the request context. -/
inductive Response where
  | status (code : Nat)
  | next (domain user : Str)
  deriving DecidableEq, Repr

def StatusBadRequest : Nat := 400
def StatusUnauthorized : Nat := 401
def StatusNotFound : Nat := 404
def StatusInternalServerError : Nat := 500

/-- The home written back into the data directory. -/
def Application.setHome (app : Application) (domain usr : Str) (home : Home) : Application :=
  { homes := fun d u => if d = domain ∧ u = usr then some home else app.homes d u }

/-- Go `(*application).authenticatePrivate` (middleware.go) at the instant `now`: the
answer, and the data directory afterwards. -/
def authenticatePrivate (P : Prim) (app : Application) (r : Request) (now : Int) :
    Outcome Response × Application :=
  match nonce.FromHeader P now r.nonceHeader with
  | .ok n =>
    match nonce.VerifySignature P n with
    | some _ => (.ok (.status StatusBadRequest), app)
    | none =>
      let domain := strings.ToLower r.domain
      let usr := strings.ToLower r.user
      if domain = [] ∨ usr = [] then (.ok (.status StatusBadRequest), app)
      else match app.homes domain usr with
        | none => (.ok (.status StatusUnauthorized), app)
        | some userHomeDir =>
          match nonce.IsUnique userHomeDir n now with
          | .ok () =>
            let userHomeDir := nonce.Record userHomeDir n now
            let app := app.setHome domain usr userHomeDir
            match profile.GetLocalProfile P userHomeDir domain usr with
            | .ok localProfile =>
              if n.SigningKeyFingerprint ≠ localProfile.User.PublicSigningKeyFingerprint ∧
                  (localProfile.User.PublicSigningKeyFingerprint ≠ [] ∧
                    n.SigningKeyFingerprint ≠ localProfile.LastSigningKeyFingerprint) then
                (.ok (.status StatusUnauthorized), app)
              else (.ok (.next domain usr), app)
            | .error _ => (.ok (.status StatusNotFound), app)
            | .panic => (.panic, app)
          | .error e =>
            if e = nonce.ErrorNonceReplay then (.ok (.status StatusUnauthorized), app)
            else (.ok (.status StatusInternalServerError), app)
          | .panic => (.panic, app)
  | .error _ => (.ok (.status StatusBadRequest), app)
  | .panic => (.panic, app)

end server

/-! ## Notions used to state the properties -/

namespace message

/-- The envelope fields that can enter the checksum. -/
inductive EnvelopeField where
  | id
  | stream
  | access
  | contentHeaders
  | encryption
  deriving DecidableEq, Repr

/-- The header name of an envelope field. -/
def EnvelopeField.name : EnvelopeField → Str
  | .id => HEADER_MESSAGE_ID
  | .stream => HEADER_MESSAGE_STREAM
  | .access => HEADER_MESSAGE_ACCESS
  | .contentHeaders => HEADER_MESSAGE_CONTENT_HEADERS
  | .encryption => HEADER_MESSAGE_ENCRYPTION

/-- The field an entry of the declared order names, after trimming and lowering; `none`
for the checksum and signature fields and for any other name. -/
def EnvelopeField.named (entry : Str) : Option EnvelopeField :=
  let h := strings.ToLower (strings.TrimSpace entry)
  if h = HEADER_MESSAGE_ID then some .id
  else if h = HEADER_MESSAGE_STREAM then some .stream
  else if h = HEADER_MESSAGE_ACCESS then some .access
  else if h = HEADER_MESSAGE_CONTENT_HEADERS then some .contentHeaders
  else if h = HEADER_MESSAGE_ENCRYPTION then some .encryption
  else none

/-- The value a parsed envelope holds for a field. `Message-Encryption` has a value only
when the envelope carried the header. -/
def EnvelopeField.value (msg : Message) : EnvelopeField → Option Str
  | .id => some msg.ID
  | .stream => some msg.StreamID
  | .access => some msg.AccessList
  | .contentHeaders => some msg.ContentHeadersData
  | .encryption => msg.PayloadCipher.map (fun ci => ci.OriginalHeaderValue)

/-- The message with another value for a field. -/
def EnvelopeField.replace (msg : Message) (value : Str) : EnvelopeField → Message
  | .id => { msg with ID := value }
  | .stream => { msg with StreamID := value }
  | .access => { msg with AccessList := value }
  | .contentHeaders => { msg with ContentHeadersData := value }
  | .encryption => { msg with PayloadCipher := msg.PayloadCipher.map (fun ci => { ci with OriginalHeaderValue := value }) }

/-- The fields named in the declared order, in that order. -/
def declaredFields (msg : Message) : List EnvelopeField :=
  (strings.Split msg.EnvelopeHeadersOrder [':']).filterMap EnvelopeField.named

/-- The values of the given fields concatenated without separators; `none` when one of
the fields has no value. -/
def concatValues (msg : Message) : List EnvelopeField → Option Str
  | [] => some []
  | f :: rest =>
    match f.value msg, concatValues msg rest with
    | some v, some vs => some (v ++ vs)
    | _, _ => none

/-- The values of the fields named in the declared order, concatenated in that order. -/
def declaredValues (msg : Message) : Option Str := concatValues msg (declaredFields msg)

end message

/-! ## A small instance of the primitives, to evaluate the functions on concrete inputs -/

namespace sample

/-- The hexadecimal digit of a number below sixteen. -/
def hexDigit (n : Nat) : Char := "0123456789abcdef".toList.getD n '0'

/-- Two hexadecimal digits for each byte. -/
def hexEncode : Str → Str
  | [] => []
  | c :: cs => hexDigit (c.toNat / 16 % 16) :: hexDigit (c.toNat % 16) :: hexEncode cs

/-- The value of a hexadecimal digit. -/
def hexValue (c : Char) : Option Nat :=
  if '0' ≤ c ∧ c ≤ '9' then some (c.toNat - 48)
  else if 'a' ≤ c ∧ c ≤ 'f' then some (c.toNat - 87)
  else none

/-- The bytes of a hexadecimal text. -/
def hexDecode : Str → Option Str
  | [] => some []
  | [_] => none
  | a :: b :: rest =>
    match hexValue a, hexValue b, hexDecode rest with
    | some x, some y, some cs => some (Char.ofNat (16 * x + y) :: cs)
    | _, _, _ => none

/-- A digest of four bytes: a polynomial in the bytes of the text. -/
def digest (data : Str) : Str :=
  let h := data.foldl (fun h c => (h * 131 + c.toNat) % 4294967291) 7
  [Char.ofNat (h / 16777216 % 256), Char.ofNat (h / 65536 % 256), Char.ofNat (h / 256 % 256), Char.ofNat (h % 256)]

/-- Primitives that can be computed by hand. The digest has four bytes; the text encoding
is hexadecimal; a signed message is the public half of the private key (its last 32
bytes) followed by the data; a sealed box is the public key followed by the data; the
symmetric ciphers prepend the key; a time is written as its number of seconds; the
random number of a turn is the turn; a pushed chunk is the chunk after the digit of its
tag. -/
def prim : Prim where
  sha256Raw := digest
  sha256Hex := fun data => hexEncode (digest data)
  base64Encode := hexEncode
  base64Decode := hexDecode
  sign := fun privateKey data => privateKey.drop 32 ++ data
  signOpen := fun signed publicKey =>
    if publicKey.isPrefixOf signed then some (signed.drop publicKey.length) else none
  boxSealAnonymous := fun data publicKey => some (publicKey ++ data)
  boxOpenAnonymous := fun cipher publicKey _ =>
    if publicKey.isPrefixOf cipher then some (cipher.drop publicKey.length) else none
  randomBytes := fun n => some (List.replicate n 'n')
  aeadSeal := fun key _ plaintext => key ++ plaintext
  aeadOpen := fun key _ cipher => if key.isPrefixOf cipher then some (cipher.drop key.length) else none
  streamInit := fun _ key => some key
  streamPull := fun state chunk => some (chunk, 0, state)
  streamHeaderBytes := 24
  streamAdditionalBytes := 17
  tagMessage := 0
  tagFinal := 3
  parseRFC3339 := fun s => (strconv.ParseInt s)
  formatRFC3339 := fun t => strconv.FormatInt t
  randomInt := fun _ turn => some turn
  streamEncryptor := fun _ key => some key
  streamPush := fun state chunk tag => some (Char.ofNat (48 + tag) :: chunk, state)

/-- A public signing key of 32 bytes. -/
def publicKey : Str := List.replicate 32 'K'

/-- The private signing key of `publicKey`: a seed followed by the public key. -/
def privateKey : Str := List.replicate 32 'S' ++ publicKey

/-- The author `a@x.test`. -/
def author : user.User :=
  { Address := "a@x.test".toList, Domain := "x.test".toList, LocalPart := "a".toList,
    PublicSigningKey := publicKey, PrivateSigningKey := privateKey }

/-- A parsed broadcast envelope whose checksum and signature are those of its two fields. -/
def signedMessage : message.Message :=
  { ID := "m1".toList, IsBroadcast := true, Author := author,
    ContentHeadersData := "seal=none; data=".toList,
    EnvelopeHeadersOrder := "message-id:message-headers".toList,
    EnvelopeHeadersChecksum := hexEncode (digest "m1seal=none; data=".toList),
    EnvelopeHeadersSignature := hexEncode (publicKey ++ digest "m1seal=none; data=".toList) }

end sample

namespace sample

/-- A broadcast message by `a@x.test` with the body `hello`, ready to be sealed. -/
def broadcast : message.Message :=
  { ID := "m1".toList, IsBroadcast := true, Author := author,
    Content :=
      { Body := "hello".toList, Size := 5, Checksum := hexEncode (digest "hello".toList),
        Category := "personal".toList, SubjectID := "m1".toList, ParentMessageID := "m1".toList } }

/-- Content headers in the form `parseContentHeaders` reads, for a body `hello`, carrying
the given `id`. -/
def contentHeaders (id : Str) : Str :=
  "id: ".toList ++ id ++ "\nauthor: a@x.test\ndate: 0\ncategory: personal\nsize: 5\n".toList ++
    "checksum: algorithm=sha256; sum=".toList ++ hexEncode (digest "hello".toList)

/-- The value of `Message-Headers` of a broadcast envelope, in the form `openEnvelopeFile`
reads. -/
def headersValue (content : Str) : Str := "seal=none; data=".toList ++ hexEncode content

/-- A broadcast envelope with identifier `m1`, in the form `ParseEnvelopeData` reads, signed
by `a@x.test` over the identifier and the content headers. -/
def envelope (content : Str) : Str :=
  "message-id: m1\nmessage-headers: ".toList ++ headersValue content ++
  "\nmessage-checksum: algorithm=sha256; order=message-id:message-headers; sum=".toList ++
    hexEncode (digest ("m1".toList ++ headersValue content)) ++
  "\nmessage-signature: algorithm=ed25519; data=".toList ++
    hexEncode (publicKey ++ digest ("m1".toList ++ headersValue content)) ++ "\n".toList

/-- A message directory holding the envelope `m1` and the payload `hello`. -/
def sealedDir : message.MessageDir :=
  { envelope := some (envelope (contentHeaders "m1".toList)), payload := some "hello".toList }

/-- The same directory with content headers that carry the identifier `m9`. -/
def foreignIdDir : message.MessageDir :=
  { envelope := some (envelope (contentHeaders "m9".toList)), payload := some "hello".toList }

/-- The reader `b@y.test`, with encryption keys. -/
def readerB : user.Reader :=
  { User := { Address := "b@y.test".toList, PublicEncryptionKeyFingerprint := "fpB".toList,
              PublicEncryptionKey := List.replicate 32 'B', PrivateEncryptionKey := List.replicate 32 'b' } }

/-- The reader `c@z.test`, who is not on the access list. -/
def readerC : user.Reader :=
  { User := { Address := "c@z.test".toList, PublicEncryptionKeyFingerprint := "fpC".toList,
              PublicEncryptionKey := List.replicate 32 'C', PrivateEncryptionKey := List.replicate 32 'c' } }

/-- An access list with an entry for the author and an entry for `b@y.test`. -/
def accessList : Str :=
  "link=".toList ++ links.Make prim "a@x.test".toList "a@x.test".toList ++
    "; access-key=sfpA; value=6b6579; algorithm=curve25519xsalsa20poly1305; key=fpA, ".toList ++
  "link=".toList ++ links.Make prim "a@x.test".toList "b@y.test".toList ++
    "; access-key=sfpB; value=6b6580; algorithm=curve25519xsalsa20poly1305; key=fpB".toList

/-- A private envelope with that access list, in the form `ParseEnvelopeData` reads. -/
def privateEnvelope : Str :=
  "message-id: m2\nmessage-encryption: algorithm=xchacha20poly1305\nmessage-access: ".toList ++ accessList ++
    "\nmessage-headers: seal=xchacha20poly1305; data=00\n".toList

end sample

namespace message

/-- Whether an entry of the access list designates the reader: its link is the link of
author and reader, and its `key` attribute is the reader's encryption-key fingerprint. -/
def designates (P : Prim) (message : Message) (readerUser : user.Reader) (r : user.Reader) : Prop :=
  r.Link = links.Make P message.Author.Address readerUser.User.Address ∧
    r.User.PublicEncryptionKeyFingerprint = readerUser.User.PublicEncryptionKeyFingerprint

instance (P : Prim) (message : Message) (readerUser r : user.Reader) :
    Decidable (designates P message readerUser r) :=
  inferInstanceAs (Decidable (_ ∧ _))

/-- The bytes `Open` wrote as the opened payload: the file `file` for a file message, the
file `body` otherwise. -/
def openedPayload (message : Message) (dir : MessageDir) : Option Str :=
  if message.IsFile then dir.file else dir.body

end message

namespace sample

/-- The private envelope as parsed, with the author set as `openEnvelopeFile` sets it. -/
def privateMessage : message.Message :=
  match message.ParseEnvelopeData privateEnvelope with
  | .ok m => { m with Author := author }
  | _ => {}

/-- The message `Open` returns for `sealedDir`. -/
def openedMessage : message.Message :=
  match (message.Open prim sealedDir author {}).1 with
  | .ok m => m
  | _ => {}

end sample

namespace sample

/-- The nonce header of a request whose token value is the given text, signed by
`a@x.test`. -/
def nonceHeader (value : Str) : Str :=
  "SOTN nonce=".toList ++ value ++ ", algorithm=ed25519, signature=".toList ++
    hexEncode (publicKey ++ value) ++ ", key=".toList ++ hexEncode publicKey

/-- A profile with the signing key of `a@x.test`. -/
def profileWithKey : Str :=
  "Name: A\nSigning-Key: algorithm=ed25519; value=".toList ++ hexEncode publicKey ++ "\n".toList

/-- A profile without a `Signing-Key` field. -/
def profileWithoutKey : Str := "Name: A\n".toList

/-- A data directory with the single account `x.test/a`, no nonce recorded, and the given
profile. -/
def application (profileData : Str) : server.Application :=
  { homes := fun domain usr =>
      if domain = "x.test".toList ∧ usr = "a".toList then some { profileData := some profileData } else none }

/-- A request to the private interface of `x.test/a` with the given nonce header. -/
def request (header : Str) : server.Request :=
  { nonceHeader := header, domain := "x.test".toList, user := "a".toList }

/-- A public signing key other than that of `a@x.test`. -/
def strangerKey : Str := List.replicate 32 'Z'

/-- The nonce header of a request with the token `abc`, signed with `strangerKey`. -/
def strangerHeader : Str :=
  "SOTN nonce=abc, algorithm=ed25519, signature=".toList ++
    hexEncode (strangerKey ++ "abc".toList) ++ ", key=".toList ++ hexEncode strangerKey

end sample

namespace nonce

/-- The value does not begin with white space. -/
def noLeadingSpace (value : Str) : Prop := ∀ c, value.head? = some c → strings.isSpace c = false

instance (value : Str) : Decidable (noLeadingSpace value) :=
  match value with
  | [] => isTrue (fun _ h => by simp at h)
  | c :: _ =>
    if hc : strings.isSpace c = false then isTrue (fun d h => by simp at h; rw [← h]; exact hc)
    else isFalse (fun h => hc (h c rfl))

/-- A nonce file as `Record` leaves it: missing, or made of complete lines (each closed
by a line feed) that the scanner reads without error. -/
def wellFormedFile (file : Option Str) : Prop :=
  ∀ data, file = some data → (bufio.scanLines data).2 = false ∧ (data = [] ∨ data.getLast? = some '\n')

end nonce

namespace sample

/-- A nonce with the value `abc`, as recorded at 23:00 of day 0. -/
def recordedNonce : nonce.Nonce := { Value := "abc".toList, Date := "1970-01-01T23:00:00Z".toList }

/-- A nonce whose value begins with a space, as `FromHeader` reads it from
`SOTN nonce= abc, ...`. -/
def spacedNonce : nonce.Nonce := { Value := " abc".toList, Date := "1970-01-01T00:00:00Z".toList }

end sample

/-! ## Package `internal/utils`: filtering a file; package `internal/email/storage` -/

namespace strings

/-- Go `strings.Contains` (and `bytes.Contains`). -/
def Contains (s substr : Str) : Bool := (Cut substr s).isSome

end strings

namespace utils

/-- Go `utils.ListContains` (utils.go). -/
def ListContains (slice : List Str) (value : Str) : Bool :=
  match slice with
  | [] => false
  | item :: rest => if item = value then true else ListContains rest value

/-- The scanning loop of `FilterFileByPrefix`: of every trimmed line that starts with the
target, what follows the target, trimmed, unless it is empty. -/
def filterLines (targetString : Str) : List Str → List Str
  | [] => []
  | text :: rest =>
    let line := strings.TrimSpace text
    if strings.HasPrefix line targetString then
      let remainder := strings.TrimSpace (line.drop targetString.length)
      if remainder = [] then filterLines targetString rest
      else remainder :: filterLines targetString rest
    else filterLines targetString rest

/-- Go `utils.FilterFileByPrefix` (files.go) on the content of the file, `none` for a
missing file. -/
def FilterFileByPrefix (file : Option Str) (targetString : Str) : Outcome (List Str) :=
  let targetString := strings.TrimSpace targetString
  if targetString = [] then .ok []
  else match file with
    | none => .ok []
    | some data =>
      if (bufio.scanLines data).2 then .error "bufio.Scanner: token too long"
      else .ok (filterLines targetString (bufio.scanLines data).1)

end utils

namespace storage

def MESSAGES_INDEX_COLUMN_SEPARATOR : Str := ",".toList
def MESSAGES_INDEX_FILENAME : Str := "index".toList
def MESSAGES_ACCESS_LOG_COLUMN_SEPARATOR : Str := ",".toList

/-- Go `storage.MessageExists` (storage.go): whether `store/<messageID>` exists. The
identifier is taken as a name in `store/`, where the index file and its temporary copy
have names too. -/
def MessageExists (home : Home) (messageID : Str) : Bool :=
  (home.messages messageID).isSome ||
    (decide (messageID = MESSAGES_INDEX_FILENAME) && home.index.isSome) ||
    (decide (messageID = MESSAGES_INDEX_FILENAME ++ ['~']) && home.indexTemp.isSome)

/-- Go `storage.FilterMessagesIndex` (index.go). -/
def FilterMessagesIndex (home : Home) (link signingPublicKeyFingerprint stream : Str) :
    Outcome (List Str) :=
  let target := strings.Join [link, signingPublicKeyFingerprint, stream, []] MESSAGES_INDEX_COLUMN_SEPARATOR
  match utils.FilterFileByPrefix home.index target with
  | .ok messageIDs => .ok (messageIDs.filter (fun messageID => MessageExists home messageID))
  | .error e => .error e
  | .panic => .panic

/-- Go `storage.WriteMessageIndex` (index.go): the result and the home afterwards. -/
def WriteMessageIndex (home : Home) (link fingerprint stream messageID : Str) : Outcome Unit × Home :=
  let indexLine := strings.Join [link, fingerprint, stream, messageID] MESSAGES_INDEX_COLUMN_SEPARATOR
  match utils.PrefixExistsInFile indexLine home.index with
  | .ok true => (.ok (), home)
  | .ok false => (.ok (), { home with index := some (utils.AppendStringToFile indexLine home.index) })
  | .error e => (.error e, home)
  | .panic => (.panic, home)

/-- The lines `RemoveMessageFromIndex` copies: those that do not end with the separator
and the identifier. -/
def keptIndexLines (messageID : Str) (lines : List Str) : List Str :=
  lines.filter (fun line => !strings.HasSuffix line (MESSAGES_INDEX_COLUMN_SEPARATOR ++ messageID))

/-- Lines written one after the other, each closed by a line feed. -/
def writeLines (lines : List Str) : Str := (lines.map (fun line => line ++ ['\n'])).flatten

/-- Go `storage.RemoveMessageFromIndex` (index.go): the result and the home afterwards.
The kept lines go to `index~`, which replaces the index when the scanner reached the end
of the file. -/
def RemoveMessageFromIndex (home : Home) (messageID : Str) : Outcome Unit × Home :=
  match home.index with
  | none => (.error "open store/index: no such file or directory", home)
  | some data =>
    let output := writeLines (keptIndexLines messageID (bufio.scanLines data).1)
    if (bufio.scanLines data).2 then
      (.error "bufio.Scanner: token too long", { home with indexTemp := some output })
    else (.ok (), { home with index := some output, indexTemp := none })

/-- Go `storage.LogMessageAccess` (storage.go) at the instant `now`: the result and the
message directory afterwards. -/
def LogMessageAccess (P : Prim) (dir : StoredMessage) (link : Str) (now : Int) : Outcome Unit × StoredMessage :=
  let accessLine := link ++ MESSAGES_ACCESS_LOG_COLUMN_SEPARATOR ++ utils.ToRFC3339String P now
  match utils.PrefixExistsInFile link dir.access with
  | .ok true => (.ok (), dir)
  | .ok false => (.ok (), { dir with access := some (utils.AppendStringToFile accessLine dir.access) })
  | .error e => (.error e, dir)
  | .panic => (.panic, dir)

end storage

/-! ## Package `internal/email/message`: the access check and the request headers -/

namespace message

def PERMITTED_ENVELOPE_KEYS : List Str := [
  HEADER_MESSAGE_ID,
  HEADER_MESSAGE_STREAM,
  HEADER_MESSAGE_ACCESS,
  HEADER_MESSAGE_CONTENT_HEADERS,
  HEADER_MESSAGE_ENVELOPE_CHECKSUM,
  HEADER_MESSAGE_ENVELOPE_SIGNATURE,
  HEADER_MESSAGE_ENCRYPTION]

/-- The loop of `LinkFingerprintExistsInAccessList` over the entries of the access list.
A nil reader, which `parseEnvelopeAccessLine` returns for a foreign algorithm, is
dereferenced. -/
def accessEntriesMatch (link keyFingerprint : Str) : List Str → Outcome Bool
  | [] => .ok false
  | access :: rest =>
    match parseEnvelopeAccessLine (strings.TrimSpace access) with
    | .ok (some reader) =>
      if reader.Link = link ∧ reader.User.PublicSigningKeyFingerprint = keyFingerprint then .ok true
      else accessEntriesMatch link keyFingerprint rest
    | .ok none => .panic
    | .error e => .error e
    | .panic => .panic

/-- The scanning loop of `LinkFingerprintExistsInAccessList`: the answer given at the
first line that starts with the header key, `none` when the loop ends without one. The
slice `envLine[:len(headerKey)]` fails on a line shorter than the key; when it does not,
its bytes equal the key up to case exactly when its first characters do. -/
def accessListLines (link keyFingerprint : Str) : List Str → Option (Outcome Bool)
  | [] => none
  | text :: rest =>
    let headerKey := HEADER_MESSAGE_ACCESS ++ HEADER_KEY_VALUE_SEPARATOR
    let envLine := strings.TrimSpace text
    if bufio.utf8Len envLine < bufio.utf8Len headerKey then some .panic
    else if strings.ToLower (envLine.take headerKey.length) = headerKey then
      some (accessEntriesMatch link keyFingerprint
        (strings.Split (envLine.drop headerKey.length) HEADER_ACCESS_LIST_SEPARATOR))
    else accessListLines link keyFingerprint rest

/-- Go `LinkFingerprintExistsInAccessList` (helpers.go) on the bytes of an envelope. -/
def LinkFingerprintExistsInAccessList (link keyFingerprint accessListStr : Str) : Outcome Bool :=
  match accessListLines link keyFingerprint (bufio.scanLines accessListStr).1 with
  | some answer => answer
  | none =>
    if (bufio.scanLines accessListStr).2 then .error "bufio.Scanner: token too long" else .ok false

/-- The loop of `MessageFromHeadersData` over the header map, in the order of iteration:
the message and the header lines collected so far. -/
def headersDataLoop : List (Str × List Str) → Message → List Str → Outcome (Message × List Str)
  | [], message, headersList => .ok (message, headersList)
  | (key, values) :: rest, message, headersList =>
    if values.length > 1 then headersDataLoop rest message headersList
    else match values with
      | [] => .panic
      | value :: _ =>
        match AssignMessageHeader key value message with
        | .ok (isMailHeader, message) =>
          headersDataLoop rest message
            (if isMailHeader then headersList ++ [HeaderLine key value] else headersList)
        | .error e => .error e
        | .panic => .panic

/-- Go `MessageFromHeadersData` (headers.go) on the entries of an `http.Header`, whose keys
are in the canonical form `net/http` gives them. -/
def MessageFromHeadersData (h : List (Str × List Str)) : Outcome Message :=
  match headersDataLoop h { IsBroadcast := true } [] with
  | .ok (message, headersList) =>
    if message.ID = [] then .error "bad message data"
    else .ok { message with EnvelopeHeadersList := headersList }
  | .error e => .error e
  | .panic => .panic

end message

/-! ## Command `cmd/server`: the handlers that serve messages -/

namespace server

/-- Go `textproto.CanonicalMIMEHeaderKey` for a key made of token characters: the first
letter and every letter after a hyphen in upper case, the other letters in lower case. -/
def canonicalKey : Bool → Str → Str
  | _, [] => []
  | upper, c :: cs => (if upper then c.toUpper else c.toLower) :: canonicalKey (c = '-') cs

/-- Go `textproto.CanonicalMIMEHeaderKey`. -/
def CanonicalMIMEHeaderKey (key : Str) : Str := canonicalKey true key

/-- Response headers, in the order in which they were first set. -/
abbrev Header := List (Str × Str)

/-- Go `http.Header.Set`: the value replaces those stored under the canonical key. -/
def Header.Set (h : Header) (key value : Str) : Header :=
  h.filter (fun entry => entry.1 ≠ CanonicalMIMEHeaderKey key) ++ [(CanonicalMIMEHeaderKey key, value)]

/-- What a handler writes: a status without content, or the response headers and the
body. -/
inductive Answer where
  | status (code : Nat)
  | content (header : Header) (body : Str)
  deriving DecidableEq, Repr

/-- The scanning loop of `writeEnvelopeAsResponseHeaders`; `line[0]` fails on a blank
line. -/
def envelopeResponseHeaders : List Str → Header → Outcome Header
  | [], h => .ok h
  | text :: rest, h =>
    match strings.TrimSpace text with
    | [] => .panic
    | c :: cs =>
      if c = '#' then envelopeResponseHeaders rest h
      else match strings.SplitN2 (c :: cs) message.HEADER_KEY_VALUE_SEPARATOR with
        | [k, v] =>
          if utils.ListContains message.PERMITTED_ENVELOPE_KEYS (strings.ToLower k) then
            envelopeResponseHeaders rest (h.Set k v)
          else envelopeResponseHeaders rest h
        | _ => envelopeResponseHeaders rest h

/-- Go `writeEnvelopeAsResponseHeaders` (handlers_public_messages.go). -/
def writeEnvelopeAsResponseHeaders (envelopeContent : Str) (h : Header) : Outcome Header :=
  match envelopeResponseHeaders (bufio.scanLines envelopeContent).1 h with
  | .ok h =>
    if (bufio.scanLines envelopeContent).2 then .error "bufio.Scanner: token too long" else .ok h
  | .error e => .error e
  | .panic => .panic

/-- The end of both message handlers: the payload served with its content type and
length, the size of the payload file in bytes. The header `Content-Disposition`, whose
value is built from a constant of package `consts`, is left out. -/
def servePayload (h : Header) (payload : Str) : Answer :=
  .content
    ((h.Set "Content-Type".toList "application/octet-stream".toList).Set
      "Content-Length".toList (strconv.FormatInt payload.length))
    payload

/-- Go `(*application).getBroadcastMessage` (handlers_public_messages.go) for the route
parameters of the request. -/
def getBroadcastMessage (app : Application) (domain usr messageid : Str) : Outcome Answer :=
  let domain := strings.ToLower domain
  let usr := strings.ToLower usr
  let messageID := strings.ToLower messageid
  if domain = [] ∨ usr = [] ∨ messageID = [] then .ok (.status StatusBadRequest)
  else match app.homes domain usr with
    | none => .ok (.status StatusBadRequest)
    | some home =>
      if !storage.MessageExists home messageID then .ok (.status StatusNotFound)
      else match (home.messages messageID).bind (fun dir => dir.envelope) with
        | none => .ok (.status StatusInternalServerError)
        | some envelopeFileContents =>
          if strings.Contains envelopeFileContents message.HEADER_MESSAGE_ACCESS then
            .ok (.status StatusNotFound)
          else match writeEnvelopeAsResponseHeaders envelopeFileContents [] with
            | .ok h =>
              match (home.messages messageID).bind (fun dir => dir.payload) with
              | none => .ok (.status StatusInternalServerError)
              | some payload => .ok (servePayload h payload)
            | .error _ => .ok (.status StatusInternalServerError)
            | .panic => .panic

/-- Go `(*application).listLinkMessages` (handlers_public_messages.go) for the values the
middleware put in the request context and the route parameter: the identifiers written
to the response, one per line. -/
def listLinkMessages (app : Application) (publicKeyFingerprint domain usr link stream : Str) :
    Outcome (List Str) :=
  let stream := strings.ToLower stream
  match app.homes domain usr with
  | none => .ok []
  | some home => storage.FilterMessagesIndex home link publicKeyFingerprint stream

/-- Go `(*application).getLinkMessage` (handlers_public_messages.go) at the instant `now`,
for the values the middleware put in the request context and the route parameter: the
answer, and the data directory afterwards. -/
def getLinkMessage (P : Prim) (app : Application) (publicKeyFingerprint domain usr link messageid : Str)
    (now : Int) : Outcome Answer × Application :=
  let messageID := strings.ToLower messageid
  match app.homes domain usr with
  | none => (.ok (.status StatusBadRequest), app)
  | some home =>
    if !storage.MessageExists home messageID then (.ok (.status StatusNotFound), app)
    else match home.messages messageID with
      | none => (.ok (.status StatusInternalServerError), app)
      | some dir =>
        match dir.envelope with
        | none => (.ok (.status StatusInternalServerError), app)
        | some envelopeFileContents =>
          match message.LinkFingerprintExistsInAccessList link publicKeyFingerprint envelopeFileContents with
          | .ok true =>
            match writeEnvelopeAsResponseHeaders envelopeFileContents [] with
            | .ok h =>
              match dir.payload with
              | none => (.ok (.status StatusInternalServerError), app)
              | some payload =>
                if user.SelfLink P usr domain ≠ link then
                  let logged := (storage.LogMessageAccess P dir link now).2
                  (.ok (servePayload h payload),
                    app.setHome domain usr
                      { home with messages := fun id => if id = messageID then some logged else home.messages id })
                else (.ok (servePayload h payload), app)
            | .error _ => (.ok (.status StatusInternalServerError), app)
            | .panic => (.panic, app)
          | .ok false => (.ok (.status StatusUnauthorized), app)
          | .error _ => (.ok (.status StatusInternalServerError), app)
          | .panic => (.panic, app)

end server

namespace sample

/-- The author `a@x.test` as the first reader of a message, the way `NewMessage` adds
it. -/
def authorReader : user.Reader :=
  user.AsReader prim
    { author with PublicEncryptionKeyFingerprint := "fpA".toList, PublicEncryptionKey := List.replicate 32 'A' }

/-- The reader `b@y.test` with the link `AddReader` gives it. -/
def addressee : user.Reader :=
  { readerB with Link := links.Make prim author.Address readerB.User.Address }

/-- A private message by `a@x.test` to which `b@y.test` was added as reader: the readers
are held in the order in which they were added. -/
def letter : message.Message :=
  { ID := "m3".toList, Author := author, IsBroadcast := false, AccessKey := List.replicate 32 'k',
    PayloadCipher := some
      { Algorithm := crypto.SYMMETRIC_CIPHER, Stream := false, ChunkSize := crypto.DEFAULT_CHUNK_SIZE },
    Readers := [authorReader, addressee] }

/-- The same message with the readers held in the order of their links. -/
def sortedLetter : message.Message := { letter with Readers := [addressee, authorReader] }

end sample

namespace sample

/-- The access list of `letter` as `SealedAccessList` writes it: the entry of `b@y.test`,
whose link is the smaller, comes first. -/
def letterAccessList : Str :=
  "link=16efb901; access-key=; value=".toList ++ hexEncode (List.replicate 32 'B' ++ List.replicate 32 'k') ++
    "; algorithm=curve25519xsalsa20poly1305; key=fpB, ".toList ++
  "link=a3f9ea9d; access-key=; value=".toList ++ hexEncode (List.replicate 32 'A' ++ List.replicate 32 'k') ++
    "; algorithm=curve25519xsalsa20poly1305; key=fpA".toList

/-- The value of `message-headers` of `letter` for a given `readers` content header. -/
def letterHeaders (readers : Str) : Str :=
  "algorithm=xchacha20poly1305; value=".toList ++
    hexEncode (List.replicate 24 'n' ++ List.replicate 32 'k' ++
      ("id: m3\nauthor: a@x.test\ndate: 0\nsubject: \nsubject-id: \nparent-message-id: \ncategory: \n".toList ++
        "size: 0\nchecksum: algorithm=sha256; value=\nreaders: ".toList ++ readers))

/-- The envelope headers of `letter` before the checksum, for a given `readers` content
header. -/
def letterPairs (readers : Str) : List (Str × Str) :=
  [(message.HEADER_MESSAGE_ID, "m3".toList),
   (message.HEADER_MESSAGE_ENCRYPTION, "algorithm=xchacha20poly1305".toList),
   (message.HEADER_MESSAGE_ACCESS, letterAccessList),
   (message.HEADER_MESSAGE_CONTENT_HEADERS, letterHeaders readers)]
end sample

namespace server

/-- The envelope file `storeMessage` writes (handlers_private_messages.go): the header
lines collected by `MessageFromHeadersData`, each closed by a line feed. -/
def envelopeDump (message : message.Message) : Str :=
  strings.Join message.EnvelopeHeadersList ['\n'] ++ ['\n']

end server

namespace sample

/-- The headers of a request that stores the private message `m7`, with the keys in the
canonical form of `net/http`. -/
def privateRequestHeaders : List (Str × List Str) :=
  [("Content-Length".toList, ["6".toList]),
   ("Message-Id".toList, ["m7".toList]),
   ("Message-Encryption".toList, ["algorithm=xchacha20poly1305".toList]),
   ("Message-Access".toList, [accessList]),
   ("Message-Headers".toList, ["algorithm=xchacha20poly1305; value=00".toList])]

/-- The envelope file the server writes for that request. -/
def storedPrivateEnvelope : Str :=
  "Message-Id: m7\nMessage-Encryption: algorithm=xchacha20poly1305\nMessage-Access: ".toList ++ accessList ++
    "\nMessage-Headers: algorithm=xchacha20poly1305; value=00\n".toList

/-- An envelope whose access list has a single entry, sealed with another algorithm. -/
def foreignSealEnvelope : Str :=
  ("Message-Id: 0123456789\nMessage-Access: link=16efb901; access-key=sfpB; value=00; " ++
    "algorithm=aes; key=fpB\n").toList

/-- A data directory in which the home of `a@x.test` stores one message. -/
def storeOf (id envelope payload : Str) : server.Application :=
  { homes := fun domain usr =>
      if domain = "x.test".toList ∧ usr = "a".toList then
        some { messages := fun name =>
          if name = id then some { envelope := some envelope, payload := some payload } else none }
      else none }

/-- The response headers written from `storedPrivateEnvelope` and the payload `secret`. -/
def servedHeaders : server.Header :=
  [("Message-Id".toList, " m7".toList),
   ("Message-Encryption".toList, " algorithm=xchacha20poly1305".toList),
   ("Message-Access".toList, " ".toList ++ accessList),
   ("Message-Headers".toList, " algorithm=xchacha20poly1305; value=00".toList),
   ("Content-Type".toList, "application/octet-stream".toList),
   ("Content-Length".toList, "6".toList)]

end sample

/-! ## Notions used to state the properties of the index -/

namespace storage

/-- An entry of the index: the four columns of a line. -/
structure IndexEntry where
  link : Str := []
  fingerprint : Str := []
  stream : Str := []
  messageID : Str := []
  deriving DecidableEq, Repr

/-- The line of an entry, joined as `WriteMessageIndex` joins it. -/
def IndexEntry.line (e : IndexEntry) : Str :=
  strings.Join [e.link, e.fingerprint, e.stream, e.messageID] MESSAGES_INDEX_COLUMN_SEPARATOR

/-- The content of an index file that holds the lines of the entries, in order. -/
def indexOf (entries : List IndexEntry) : Str := writeLines (entries.map IndexEntry.line)

/-- Text that can stand in a column of a line: without the separator and without the
characters that end a line. -/
def columnText (s : Str) : Prop := ',' ∉ s ∧ '\n' ∉ s ∧ '\r' ∉ s

instance (s : Str) : Decidable (columnText s) := by
  unfold columnText
  infer_instance

/-- An entry whose four columns are column text. -/
def IndexEntry.wellFormed (e : IndexEntry) : Prop :=
  columnText e.link ∧ columnText e.fingerprint ∧ columnText e.stream ∧ columnText e.messageID

instance (e : IndexEntry) : Decidable e.wellFormed := by
  unfold IndexEntry.wellFormed
  infer_instance

/-- A column made of letters and digits only, such as a hexadecimal link or fingerprint
or an alphanumeric stream, or an empty column. -/
def plainColumn (s : Str) : Prop := s = [] ∨ utils.StringIsAlphaNumeric s = true

instance (s : Str) : Decidable (plainColumn s) := by
  unfold plainColumn
  infer_instance

/-- An entry with plain link, fingerprint and stream and an alphanumeric identifier. -/
def IndexEntry.plain (e : IndexEntry) : Prop :=
  plainColumn e.link ∧ plainColumn e.fingerprint ∧ plainColumn e.stream ∧
    utils.StringIsAlphaNumeric e.messageID = true

instance (e : IndexEntry) : Decidable e.plain := by
  unfold IndexEntry.plain
  infer_instance

/-- An entry whose line has no white space at either end and no line feed, as the lines
are that `storeMessage` passes: the link and the identifier come trimmed from the
request headers. -/
def IndexEntry.trimmed (e : IndexEntry) : Prop :=
  strings.TrimSpace e.line = e.line ∧ '\n' ∉ e.line

instance (e : IndexEntry) : Decidable e.trimmed := by
  unfold IndexEntry.trimmed
  infer_instance

/-- A file made of complete lines: missing, empty, or ending with a line feed. -/
def completeLines (file : Option Str) : Prop :=
  ∀ data, file = some data → data = [] ∨ data.getLast? = some '\n'

instance (file : Option Str) : Decidable (completeLines file) :=
  match file with
  | none => isTrue (fun _ h => by cases h)
  | some d =>
    if h : d = [] ∨ d.getLast? = some '\n' then isTrue (fun data hd => by cases hd; exact h)
    else isFalse (fun g => h (g d rfl))

/-- The home after `WriteMessageIndex` was called for each entry in turn. -/
def writeAll : List IndexEntry → Home → Home
  | [], home => home
  | e :: rest, home =>
    writeAll rest (WriteMessageIndex home e.link e.fingerprint e.stream e.messageID).2

end storage

namespace sample

/-- Three entries: of the stream `news` for the message `m1`, without stream for `m2`, and
of another fingerprint for `m3`. -/
def indexEntries : List storage.IndexEntry := [
  { link := "ab12".toList, fingerprint := "cd34".toList, stream := "news".toList, messageID := "m1".toList },
  { link := "ab12".toList, fingerprint := "cd34".toList, messageID := "m2".toList },
  { link := "ab12".toList, fingerprint := "ee56".toList, stream := "news".toList, messageID := "m3".toList }]

/-- A home whose index holds these entries, that is, the lines `ab12,cd34,news,m1`,
`ab12,cd34,,m2` and `ab12,ee56,news,m3`; the three message directories exist. -/
def indexedHome : Home :=
  { index := some (storage.indexOf indexEntries),
    messages := fun id =>
      if id = "m1".toList ∨ id = "m2".toList ∨ id = "m3".toList then some {} else none }

end sample

namespace sample

/-- A data directory that holds the given home for `a@x.test`. -/
def storeOfHome (home : Home) : server.Application :=
  { homes := fun domain usr => if domain = "x.test".toList ∧ usr = "a".toList then some home else none }

end sample

namespace sample

/-- The tuple `(ab12, cd34, no stream, m9)`. -/
def plainEntry : storage.IndexEntry :=
  { link := "ab12".toList, fingerprint := "cd34".toList, messageID := "m9".toList }

/-- The tuple `(ab12, cd34, news, m8)`. -/
def newsEntry : storage.IndexEntry :=
  { link := "ab12".toList, fingerprint := "cd34".toList, stream := "news".toList, messageID := "m8".toList }

/-- A tuple whose message identifier ends with a blank. -/
def blankEntry : storage.IndexEntry :=
  { link := "ab12".toList, fingerprint := "cd34".toList, messageID := "m9 ".toList }

/-- A tuple whose message identifier holds a line feed. -/
def feedEntry : storage.IndexEntry :=
  { link := "ab12".toList, fingerprint := "cd34".toList, messageID := "m9\nzz".toList }

end sample

/-! ## Authoring a message: local keys, `NewMessage`, `AddReader`, `SetPlainContent` -/

namespace crypto

/-- Go `crypto.GenerateRandomBytes` (crypto.go). -/
def GenerateRandomBytes (P : Prim) (n : Nat) : Outcome Str :=
  match P.randomBytes n with
  | none => .error "rand: read failed"
  | some b => .ok b

/-- The letters of `GenerateRandomString`. -/
def randomLetters : Str := "0123456789ABCDEFGHIJKLMNOPQRSTUVWXYZabcdefghijklmnopqrstuvwxyz".toList

/-- The loop of `GenerateRandomString` from the turn `i`, for `n` more letters. -/
def randomLettersFrom (P : Prim) (i : Nat) : Nat → Outcome Str
  | 0 => .ok []
  | n + 1 =>
    match P.randomInt randomLetters.length i with
    | none => .error "rand: read failed"
    | some num =>
      match randomLettersFrom P (i + 1) n with
      | .ok rest => .ok (randomLetters.getD num '0' :: rest)
      | .error e => .error e
      | .panic => .panic

/-- Go `crypto.GenerateRandomString` (crypto.go). -/
def GenerateRandomString (P : Prim) (n : Nat) : Outcome Str := randomLettersFrom P 0 n

/-- Go `crypto.DecodeBase64Key64` (crypto.go). -/
def DecodeBase64Key64 (P : Prim) (cryptoKey : Str) : Outcome Str :=
  match P.base64Decode cryptoKey with
  | none => .error "illegal base64 data"
  | some keyBytes => .ok (toArray 64 keyBytes)

end crypto

namespace utils

/-- Go `utils.NewMessageID` (ids.go). -/
def NewMessageID (P : Prim) (domain localPart : Str) : Outcome Str :=
  match crypto.GenerateRandomString P 24 with
  | .ok randomStr => .ok (crypto.Sha256Hash P (randomStr ++ domain ++ localPart)).1
  | .error e => .error e
  | .panic => .panic

end utils

namespace keys

def PUBLIC_ENCRYPTION_KEY_SUFFIX : Str := "encrypt.public".toList
def PRIVATE_ENCRYPTION_KEY_SUFFIX : Str := "encrypt.private".toList
def PRIVATE_SIGNING_KEY_SUFFIX : Str := "sign.private".toList
def PUBLIC_SIGNING_KEY_SUFFIX : Str := "sign.public".toList

/-- The local key files: what `GetLocalKey(emailAddress, suffix)` (keys.go) returns, the
text of the key file or the error for a malformed address or a missing file. -/
abbrev Keyring := Str → Str → Outcome Str

/-- Go `keys.GetLocalKey32` (keys.go): the text of the key and its 32 bytes. -/
def GetLocalKey32 (P : Prim) (keyring : Keyring) (emailAddress suffix : Str) : Outcome (Str × Str) :=
  match keyring emailAddress suffix with
  | .ok base64Key =>
    match crypto.DecodeBase64Key32 P base64Key with
    | .ok keyBytes => .ok (base64Key, keyBytes)
    | .error e => .error e
    | .panic => .panic
  | .error e => .error e
  | .panic => .panic

/-- Go `keys.GetLocalKey64` (keys.go). -/
def GetLocalKey64 (P : Prim) (keyring : Keyring) (emailAddress suffix : Str) : Outcome (Str × Str) :=
  match keyring emailAddress suffix with
  | .ok base64Key =>
    match crypto.DecodeBase64Key64 P base64Key with
    | .ok keyBytes => .ok (base64Key, keyBytes)
    | .error e => .error e
    | .panic => .panic
  | .error e => .error e
  | .panic => .panic

end keys

namespace user

/-- Go `getLocalEncryptionKeys` (user.go). -/
def getLocalEncryptionKeys (P : Prim) (keyring : keys.Keyring) (u : User) : Outcome User :=
  match keys.GetLocalKey32 P keyring u.Address keys.PRIVATE_ENCRYPTION_KEY_SUFFIX with
  | .ok (privateBase64, privateKey) =>
    match keys.GetLocalKey32 P keyring u.Address keys.PUBLIC_ENCRYPTION_KEY_SUFFIX with
    | .ok (publicBase64, publicKey) =>
      .ok { u with
        PrivateEncryptionKeyBase64 := privateBase64, PrivateEncryptionKey := privateKey,
        PublicEncryptionKeyBase64 := publicBase64, PublicEncryptionKey := publicKey,
        PublicEncryptionKeyFingerprint := crypto.Fingerprint P publicKey }
    | .error e => .error e
    | .panic => .panic
  | .error e => .error e
  | .panic => .panic

/-- Go `getLocalSigningKeys` (user.go). -/
def getLocalSigningKeys (P : Prim) (keyring : keys.Keyring) (u : User) : Outcome User :=
  match keys.GetLocalKey64 P keyring u.Address keys.PRIVATE_SIGNING_KEY_SUFFIX with
  | .ok (privateBase64, privateKey) =>
    match keys.GetLocalKey32 P keyring u.Address keys.PUBLIC_SIGNING_KEY_SUFFIX with
    | .ok (publicBase64, publicKey) =>
      .ok { u with
        PrivateSigningKeyBase64 := privateBase64, PrivateSigningKey := privateKey,
        PublicSigningKeyBase64 := publicBase64, PublicSigningKey := publicKey,
        PublicSigningKeyFingerprint := crypto.Fingerprint P publicKey }
    | .error e => .error e
    | .panic => .panic
  | .error e => .error e
  | .panic => .panic

/-- Go `user.LocalUser` (user.go). -/
def LocalUser (P : Prim) (keyring : keys.Keyring) (emailAddress : Str) : Outcome User :=
  match address.ParseEmailAddress emailAddress with
  | .ok (addr, domain, localPart) =>
    match getLocalEncryptionKeys P keyring { Address := addr, Domain := domain, LocalPart := localPart } with
    | .ok u => getLocalSigningKeys P keyring u
    | .error e => .error e
    | .panic => .panic
  | .error e => .error e
  | .panic => .panic

end user

namespace message

def READER_KEY_LENGTH : Nat := 32
def DEFAULT_MESSAGE_CATEGORY : Str := "personal".toList
def MESSAGE_FILE_CATEGORY : Str := "file".toList

/-- Go `message.NewMessage` (message.go). -/
def NewMessage (P : Prim) (keyring : keys.Keyring) (authorEmailAddress : Str) : Outcome Message :=
  match address.ParseEmailAddress authorEmailAddress with
  | .ok (authorEmailAddress, domain, localPart) =>
    match user.LocalUser P keyring authorEmailAddress with
    | .ok author =>
      match utils.NewMessageID P domain localPart with
      | .ok messageId =>
        .ok { ID := messageId, Author := author, IsBroadcast := true, PayloadCipher := none,
              Readers := [user.AsReader P author] }
      | .error e => .error e
      | .panic => .panic
    | .error e => .error e
    | .panic => .panic
  | .error e => .error e
  | .panic => .panic

/-- Go `(*Message).AddReader` (message.go): the message afterwards, when the call returns
nil. An access key that is nil is the empty one. -/
def AddReader (P : Prim) (keyring : keys.Keyring) (msg : Message) (readerEmailAddress : Str) :
    Outcome Message :=
  let msg := { msg with IsBroadcast := false }
  let cipher : crypto.CipherInfo :=
    { Algorithm := crypto.SYMMETRIC_CIPHER, Stream := msg.IsFile, ChunkSize := crypto.DEFAULT_CHUNK_SIZE }
  let msg :=
    match msg.PayloadCipher with
    | none => { msg with PayloadCipher := Option.some cipher }
    | some _ => msg
  let keyed : Outcome Message :=
    if msg.AccessKey = [] then
      match crypto.GenerateRandomBytes P READER_KEY_LENGTH with
      | .ok password => .ok { msg with AccessKey := password }
      | .error e => .error e
      | .panic => .panic
    else .ok msg
  match keyed with
  | .ok msg =>
    match user.LocalUser P keyring readerEmailAddress with
    | .ok u =>
      let r := user.AsReader P u
      let r := { r with Link := links.Make P msg.Author.Address r.User.Address }
      .ok { msg with Readers := msg.Readers ++ [r] }
    | .error e => .error e
    | .panic => .panic
  | .error e => .error e
  | .panic => .panic

/-- Go `(*Message).SetPlainContent` (message.go) at the instant `now`. The last two
assignments write through `msg.PayloadCipher`, which is nil until a reader is added. -/
def SetPlainContent (P : Prim) (msg : Message) (body : Str) (now : Int) : Outcome Message :=
  let content := { msg.Content with
    Body := body, Size := body.length, Checksum := (crypto.Checksum P body).1, Date := now,
    SubjectID := msg.ID, ParentMessageID := msg.ID }
  let content :=
    if content.Category = [] then { content with Category := DEFAULT_MESSAGE_CATEGORY } else content
  match msg.PayloadCipher with
  | none => .panic
  | some ci =>
    let cipher : crypto.CipherInfo := { ci with Stream := false, Algorithm := crypto.SYMMETRIC_CIPHER }
    .ok { msg with Content := content, PayloadCipher := Option.some cipher }

end message

namespace message

/-- The message after `AddReader` was called for each address in turn, every call
returning nil. -/
def addReaders (P : Prim) (keyring : keys.Keyring) : Message → List Str → Outcome Message
  | msg, [] => .ok msg
  | msg, addr :: rest =>
    match AddReader P keyring msg addr with
    | .ok msg => addReaders P keyring msg rest
    | .error e => .error e
    | .panic => .panic

end message

namespace sample

/-- Local key files of `a@x.test` and `b@y.test`, in the text encoding of `prim`. -/
def keyring : keys.Keyring := fun emailAddress suffix =>
  if emailAddress = "a@x.test".toList then
    if suffix = keys.PUBLIC_ENCRYPTION_KEY_SUFFIX then .ok (hexEncode (List.replicate 32 'A'))
    else if suffix = keys.PRIVATE_ENCRYPTION_KEY_SUFFIX then .ok (hexEncode (List.replicate 32 'a'))
    else if suffix = keys.PUBLIC_SIGNING_KEY_SUFFIX then .ok (hexEncode publicKey)
    else if suffix = keys.PRIVATE_SIGNING_KEY_SUFFIX then .ok (hexEncode privateKey)
    else .error "no such file or directory"
  else if emailAddress = "b@y.test".toList then
    if suffix = keys.PUBLIC_ENCRYPTION_KEY_SUFFIX then .ok (hexEncode (List.replicate 32 'B'))
    else if suffix = keys.PRIVATE_ENCRYPTION_KEY_SUFFIX then .ok (hexEncode (List.replicate 32 'b'))
    else if suffix = keys.PUBLIC_SIGNING_KEY_SUFFIX then .ok (hexEncode (List.replicate 32 'Z'))
    else if suffix = keys.PRIVATE_SIGNING_KEY_SUFFIX then
      .ok (hexEncode (List.replicate 32 'z' ++ List.replicate 32 'Z'))
    else .error "no such file or directory"
  else .error "no such file or directory"

/-- The message `NewMessage` builds for the author `a@x.test`. -/
def newMessage : message.Message :=
  match message.NewMessage prim keyring "a@x.test".toList with
  | .ok m => m
  | _ => {}

/-- That message after `AddReader` for `b@y.test`. -/
def newLetter : message.Message :=
  match message.addReaders prim keyring newMessage ["b@y.test".toList] with
  | .ok m => m
  | _ => {}

end sample

namespace sample

/-- A home whose index holds the one line `ab12,cd34,,m9abc`; the message directories
`m9abc` and `m9` exist. -/
def longIdHome : Home :=
  { index := some "ab12,cd34,,m9abc\n".toList,
    messages := fun id => if id = "m9abc".toList ∨ id = "m9".toList then some {} else none }

end sample

/-! ## Sealing a file as a stream -/

namespace crypto

/-- The reading loop of `SecretStreamXchacha20Poly1305EncryptFile` over the successive
reads of the source that return bytes; the read after them returns no byte and ends the
loop. `eofReached` and `encryptorTag` are the variables of the source, kept from one turn
to the next. The result is how the loop ends, with the bytes read, then the bytes
written, then the tags handed to `Push`, in order. -/
def pushChunks (P : Prim) (chunkSize : Int) :
    List Str → (state : Str) → (eofReached : Bool) → (encryptorTag : Nat) →
      (consumed written : Str) → (tags : List Nat) → Outcome Str × Str × List Nat
  | [], _, _, _, consumed, written, tags => (.ok consumed, written, tags)
  | chunk :: rest, state, eofReached, encryptorTag, consumed, written, tags =>
    let eofReached := eofReached || decide ((chunk.length : Int) < chunkSize)
    let encryptorTag := if eofReached then P.tagFinal else encryptorTag
    match P.streamPush state chunk encryptorTag with
    | none => (.error "secretstream: push failed", written, tags ++ [encryptorTag])
    | some (encryptedBuffer, state) =>
      pushChunks P chunkSize rest state eofReached encryptorTag (consumed ++ chunk)
        (written ++ encryptedBuffer) (tags ++ [encryptorTag])

/-- Go `crypto.SecretStreamXchacha20Poly1305EncryptFile` (files.go) from the source
content (`none`: no such file) over the destination content: the result and the
destination afterwards, and the tags handed to `Push`, in order. -/
def encryptFileTrace (P : Prim) (source dest : Option Str) (key : Str) (chunkSize : Int) :
    (Outcome IOInfo × Option Str) × List Nat :=
  match source with
  | none => ((.error "open: no such file or directory", dest), [])
  | some data =>
    match P.randomBytes P.streamHeaderBytes with
    | none => ((.error "rand: read failed", some []), [])
    | some header =>
      match P.streamEncryptor header key with
      | none => ((.error "secretstream: bad header or key", some []), [])
      | some encryptor =>
        if chunkSize < 0 then ((.panic, some header), [])
        else
          let chunks := if chunkSize = 0 then [] else readChunks chunkSize.toNat data.length data
          match pushChunks P chunkSize chunks encryptor false P.tagMessage [] [] [] with
          | (.ok consumed, written, tags) =>
            ((.ok { InputSize := consumed.length, InputChecksum := P.sha256Hex consumed,
                    OutputSize := P.streamHeaderBytes + written.length,
                    OutputChecksum := P.sha256Hex (header ++ written) }, some (header ++ written)), tags)
          | (.error e, written, tags) => ((.error e, some (header ++ written)), tags)
          | (.panic, written, tags) => ((.panic, some (header ++ written)), tags)

/-- Go `crypto.SecretStreamXchacha20Poly1305EncryptFile` (files.go): the result and the
destination afterwards. -/
def SecretStreamXchacha20Poly1305EncryptFile (P : Prim) (source dest : Option Str) (key : Str)
    (chunkSize : Int) : Outcome IOInfo × Option Str :=
  (encryptFileTrace P source dest key chunkSize).1

/-- The tags `SecretStreamXchacha20Poly1305EncryptFile` hands to `Push`, chunk by chunk. -/
def pushedTags (P : Prim) (source dest : Option Str) (key : Str) (chunkSize : Int) : List Nat :=
  (encryptFileTrace P source dest key chunkSize).2

end crypto

/-! ## The nonce header: values without comma and white space -/

namespace nonce

/-- A value that can stand in a nonce header as it is: no comma and no white space. -/
def headerToken (s : Str) : Prop := ∀ c ∈ s, c ≠ ',' ∧ strings.isSpace c = false

instance (s : Str) : Decidable (headerToken s) :=
  inferInstanceAs (Decidable (∀ c ∈ s, c ≠ ',' ∧ strings.isSpace c = false))

end nonce

namespace sample

/-- A nonce header in the format `SOTN value=<rand>, ...`, with the token value `abc`
signed by `a@x.test`. -/
def valueHeader : Str :=
  "SOTN value=abc, algorithm=ed25519, signature=".toList ++
    hexEncode (publicKey ++ "abc".toList) ++ ", key=".toList ++ hexEncode publicKey

/-- The nonce with the token value `abc` signed by `a@x.test`. -/
def signedNonce : nonce.Nonce :=
  { Value := "abc".toList, SigningAlgorithm := "ed25519".toList,
    Signature := hexEncode (publicKey ++ "abc".toList), SigningKeyBase64 := hexEncode publicKey }

end sample

/-! ## The header lines an envelope carries -/

namespace message

/-- The name of the header that a line of an envelope assigns, as `ParseEnvelopeData`
reads the line; `none` for a blank line, a comment and a line without `: `. -/
def lineName (text : Str) : Option Str :=
  match strings.TrimSpace text with
  | [] => none
  | c :: cs =>
    if c = '#' then none
    else match strings.SplitN2 (c :: cs) HEADER_KEY_VALUE_SEPARATOR with
      | [k, _] => some (strings.ToLower (strings.TrimSpace k))
      | _ => none

/-- The envelope text has a line for the header of that name. -/
def carries (data name : Str) : Prop := some name ∈ (bufio.scanLines data).1.map lineName

instance (data name : Str) : Decidable (carries data name) :=
  inferInstanceAs (Decidable (some name ∈ (bufio.scanLines data).1.map lineName))

end message

namespace sample

/-- A broadcast envelope without a `message-id` line, signed by `a@x.test` over the
content headers. -/
def envelopeWithoutID (content : Str) : Str :=
  "message-headers: ".toList ++ headersValue content ++
  "\nmessage-checksum: algorithm=sha256; order=message-headers; sum=".toList ++
    hexEncode (digest (headersValue content)) ++
  "\nmessage-signature: algorithm=ed25519; data=".toList ++
    hexEncode (publicKey ++ digest (headersValue content)) ++ "\n".toList

/-- The envelope `m1` without its `message-headers` line. -/
def envelopeWithoutHeaders : Str :=
  "message-id: m1\nmessage-checksum: algorithm=sha256; order=message-id; sum=".toList ++
    hexEncode (digest "m1".toList) ++
  "\nmessage-signature: algorithm=ed25519; data=".toList ++
    hexEncode (publicKey ++ digest "m1".toList) ++ "\n".toList

/-- The envelope `m1` without its `message-checksum` line. -/
def envelopeWithoutChecksum (content : Str) : Str :=
  "message-id: m1\nmessage-headers: ".toList ++ headersValue content ++
  "\nmessage-signature: algorithm=ed25519; data=".toList ++
    hexEncode (publicKey ++ digest ("m1".toList ++ headersValue content)) ++ "\n".toList

/-- The envelope `m1` without its `message-signature` line. -/
def envelopeWithoutSignature (content : Str) : Str :=
  "message-id: m1\nmessage-headers: ".toList ++ headersValue content ++
  "\nmessage-checksum: algorithm=sha256; order=message-id:message-headers; sum=".toList ++
    hexEncode (digest ("m1".toList ++ headersValue content)) ++ "\n".toList

end sample

namespace sample

/-- The value of `Message-Access` of a private envelope for the reader `b@y.test`, with
the access key of 32 bytes `k` sealed for them. -/
def sealedAccess : Str :=
  "link=".toList ++ links.Make prim "a@x.test".toList "b@y.test".toList ++
    "; access-key=sfpB; value=".toList ++ hexEncode (List.replicate 32 'B' ++ List.replicate 32 'k') ++
    "; algorithm=curve25519xsalsa20poly1305; key=fpB".toList

/-- The value of `Message-Headers` of that envelope: the content headers sealed with the
access key. -/
def sealedHeadersValue (content : Str) : Str :=
  "seal=xchacha20poly1305; data=".toList ++
    hexEncode (List.replicate 24 'n' ++ List.replicate 32 'k' ++ content)

/-- A private envelope `m2` for `b@y.test` without a `message-encryption` line, signed by
`a@x.test` over the identifier, the access list and the content headers. -/
def envelopeWithoutEncryption (content : Str) : Str :=
  "message-id: m2\nmessage-access: ".toList ++ sealedAccess ++
  "\nmessage-headers: ".toList ++ sealedHeadersValue content ++
  "\nmessage-checksum: algorithm=sha256; order=message-id:message-access:message-headers; sum=".toList ++
    hexEncode (digest ("m2".toList ++ sealedAccess ++ sealedHeadersValue content)) ++
  "\nmessage-signature: algorithm=ed25519; data=".toList ++
    hexEncode (publicKey ++ digest ("m2".toList ++ sealedAccess ++ sealedHeadersValue content)) ++
    "\n".toList

end sample

namespace sample

/-- An access list with an entry for the author and two entries for `b@y.test`; each holds
an access key sealed for its reader: 32 bytes `k` in the first two, 32 bytes `j` in the
last. -/
def keyedAccessList : Str :=
  "link=".toList ++ links.Make prim "a@x.test".toList "a@x.test".toList ++
    "; access-key=sfpA; value=".toList ++ hexEncode (List.replicate 32 'A' ++ List.replicate 32 'k') ++
    "; algorithm=curve25519xsalsa20poly1305; key=fpA, ".toList ++
  "link=".toList ++ links.Make prim "a@x.test".toList "b@y.test".toList ++
    "; access-key=sfpB; value=".toList ++ hexEncode (List.replicate 32 'B' ++ List.replicate 32 'k') ++
    "; algorithm=curve25519xsalsa20poly1305; key=fpB, ".toList ++
  "link=".toList ++ links.Make prim "a@x.test".toList "b@y.test".toList ++
    "; access-key=sfpB; value=".toList ++ hexEncode (List.replicate 32 'B' ++ List.replicate 32 'j') ++
    "; algorithm=curve25519xsalsa20poly1305; key=fpB".toList

/-- A private envelope with that access list, as parsed, with the author set as
`openEnvelopeFile` sets it. -/
def keyedMessage : message.Message :=
  match message.ParseEnvelopeData
    ("message-id: m2\nmessage-encryption: algorithm=xchacha20poly1305\nmessage-access: ".toList ++
      keyedAccessList ++ "\nmessage-headers: seal=xchacha20poly1305; data=00\n".toList) with
  | .ok m => { m with Author := author }
  | _ => {}

end sample

namespace sample

/-- A home whose index holds the lines `ab12,cd34,,d,m1` and `ab12,cd34,,m2`, as
`WriteMessageIndex` writes them for the message identifiers `d,m1` and `m2`; the two
message directories exist. -/
def commaIdHome : Home :=
  { index := some "ab12,cd34,,d,m1\nab12,cd34,,m2\n".toList,
    messages := fun id => if id = "d,m1".toList ∨ id = "m2".toList then some {} else none }

end sample

/-! ## Theorems -/

namespace message

theorem writeOrderedValues_eq (msg : Message) (names : List Str) (buffer : Str) :
    writeOrderedValues msg names buffer =
      match concatValues msg (names.filterMap EnvelopeField.named) with
      | some vs => .ok (buffer ++ vs)
      | none => .panic := by
  induction names generalizing buffer with
  | nil => simp [writeOrderedValues, concatValues]
  | cons h rest ih =>
    simp only [writeOrderedValues, List.filterMap_cons, EnvelopeField.named]
    split_ifs <;> simp only [ih, concatValues, EnvelopeField.value]
    all_goals first
      | (cases concatValues msg (List.filterMap EnvelopeField.named rest) <;> simp; done)
      | (cases msg.PayloadCipher
         · simp
         · cases concatValues msg (List.filterMap EnvelopeField.named rest) <;> simp)

theorem VerifyEnvelopeAuthenticity_of_values (P : Prim) (msg : Message) :
    VerifyEnvelopeAuthenticity P msg =
      if msg.EnvelopeHeadersOrder = [] ∨ msg.EnvelopeHeadersChecksum = [] ∨ msg.EnvelopeHeadersSignature = [] then
        .ok false
      else match declaredValues msg with
        | none => .panic
        | some values =>
          .ok (decide (msg.EnvelopeHeadersChecksum = P.sha256Hex values) &&
            crypto.VerifySignature P msg.Author.PublicSigningKey msg.EnvelopeHeadersSignature (P.sha256Raw values)) := by
  unfold VerifyEnvelopeAuthenticity
  split_ifs with h
  · rfl
  · rw [writeOrderedValues_eq]
    unfold declaredValues declaredFields
    cases concatValues msg (List.filterMap EnvelopeField.named (strings.Split msg.EnvelopeHeadersOrder [':'])) with
    | none => rfl
    | some vs =>
      simp only [List.nil_append, crypto.Checksum, crypto.Sha256Hash]
      by_cases hc : msg.EnvelopeHeadersChecksum = P.sha256Hex vs
      · by_cases hv : crypto.VerifySignature P msg.Author.PublicSigningKey msg.EnvelopeHeadersSignature
            (P.sha256Raw vs) = true
        · simp [hc, hv]
        · simp [hc, hv]
      · simp [hc]

/-- When `VerifyEnvelopeAuthenticity` returns true, the three attributes are non-empty and
the checksum is the digest of the declared values. -/
theorem VerifyEnvelopeAuthenticity_true_inv (P : Prim) (msg : Message)
    (h : VerifyEnvelopeAuthenticity P msg = .ok true) :
    ¬ (msg.EnvelopeHeadersOrder = [] ∨ msg.EnvelopeHeadersChecksum = [] ∨ msg.EnvelopeHeadersSignature = []) ∧
    ∃ values, declaredValues msg = some values ∧ msg.EnvelopeHeadersChecksum = P.sha256Hex values ∧
      crypto.VerifySignature P msg.Author.PublicSigningKey msg.EnvelopeHeadersSignature
        (P.sha256Raw values) = true := by
  rw [VerifyEnvelopeAuthenticity_of_values] at h
  split_ifs at h with hne
  · simp at h
  · refine ⟨hne, ?_⟩
    cases hv : declaredValues msg with
    | none => simp [hv] at h
    | some values =>
      simp only [hv, Outcome.ok.injEq, Bool.and_eq_true, decide_eq_true_eq] at h
      exact ⟨values, rfl, h.1, h.2⟩

/-- What `crypto.VerifySignature` tests: the signature decodes from base64 and opens
under the public key as a signed message whose content is the data. -/
theorem VerifySignature_iff (P : Prim) (publicKey signatureStr origData : Str) :
    crypto.VerifySignature P publicKey signatureStr origData = true ↔
      ∃ signature, P.base64Decode signatureStr = some signature ∧
        P.signOpen signature publicKey = some origData := by
  unfold crypto.VerifySignature
  cases hd : P.base64Decode signatureStr with
  | none => simp
  | some signature =>
    cases ho : P.signOpen signature publicKey with
    | none => simp [ho]
    | some verifiedMessage =>
      simp only [beq_iff_eq, Option.some.injEq, exists_eq_left', ho]
      exact ⟨fun h => h.symm, fun h => h.symm⟩

theorem replace_value_length (msg : Message) (f : EnvelopeField) (v w : Str)
    (hv : f.value msg = some v) :
    f.value (f.replace msg w) = some w := by
  cases f <;> simp_all [EnvelopeField.value, EnvelopeField.replace]
  obtain ⟨ci, hci, _⟩ := hv
  exact ⟨ci, hci⟩

theorem replace_value_other (msg : Message) (f g : EnvelopeField) (w : Str) (hfg : g ≠ f) :
    g.value (f.replace msg w) = g.value msg := by
  cases f <;> cases g <;> simp_all [EnvelopeField.value, EnvelopeField.replace]

/-- Replacing the value of a field by another of the same length changes the
concatenation of any list of fields that contains it. -/
theorem concatValues_replace_ne (msg : Message) (f : EnvelopeField) (v w : Str)
    (hv : f.value msg = some v) (hlen : w.length = v.length) (hne : w ≠ v) :
    ∀ (fields : List EnvelopeField) (b : Str), concatValues msg fields = some b →
      ∃ b', concatValues (f.replace msg w) fields = some b' ∧ b'.length = b.length ∧
        (f ∈ fields → b' ≠ b) := by
  intro fields
  induction fields with
  | nil =>
    intro b hb
    exact ⟨[], rfl, by simp [concatValues] at hb; simp [hb], by simp⟩
  | cons g rest ih =>
    intro b hb
    simp only [concatValues] at hb
    cases hg : g.value msg with
    | none => simp [hg] at hb
    | some x =>
      cases hr : concatValues msg rest with
      | none => simp [hg, hr] at hb
      | some r =>
        simp only [hg, hr, Option.some.injEq] at hb
        obtain ⟨r', hr', hlen', hdiff⟩ := ih r hr
        by_cases hgf : g = f
        · subst hgf
          rw [hv] at hg
          simp only [Option.some.injEq] at hg
          subst hg
          refine ⟨w ++ r', ?_, ?_, ?_⟩
          · simp [concatValues, replace_value_length msg g v w hv, hr']
          · simp [← hb, hlen, hlen']
          · intro _ heq
            rw [← hb] at heq
            exact hne (List.append_inj_left heq hlen)
        · refine ⟨x ++ r', ?_, ?_, ?_⟩
          · simp [concatValues, replace_value_other msg f g w hgf, hg, hr']
          · simp [← hb, hlen']
          · intro hmem heq
            rw [← hb] at heq
            have hin : f ∈ rest := by
              rcases List.mem_cons.mp hmem with h | h
              · exact absurd h.symm hgf
              · exact h
            exact hdiff hin (List.append_cancel_left heq)

theorem declaredFields_replace (msg : Message) (f : EnvelopeField) (w : Str) :
    declaredFields (f.replace msg w) = declaredFields msg := by
  cases f <;> rfl

/-- C2. On a parsed envelope that `VerifyEnvelopeAuthenticity` accepts, replacing one byte
of the value of a field named in the declared order makes it return false, when SHA-256
does not collide on the two concatenations. -/
theorem VerifyEnvelopeAuthenticity_byte_replaced (P : Prim) (msg : Message) (f : EnvelopeField)
    (v : Str) (i : Nat) (c : Char)
    (hverify : VerifyEnvelopeAuthenticity P msg = .ok true)
    (hnamed : f ∈ declaredFields msg)
    (hvalue : f.value msg = some v)
    (hi : i < v.length) (hc : v[i] ≠ c)
    (hcoll : ∀ b b', declaredValues msg = some b → declaredValues (f.replace msg (v.set i c)) = some b' →
      b ≠ b' → P.sha256Hex b ≠ P.sha256Hex b') :
    VerifyEnvelopeAuthenticity P (f.replace msg (v.set i c)) = .ok false := by
  obtain ⟨hno, values, hvals, hsum, _⟩ := VerifyEnvelopeAuthenticity_true_inv P msg hverify
  have hne : v.set i c ≠ v := by
    intro h
    have := congrArg (fun l => l[i]?) h
    simp [List.getElem?_set, hi] at this
    exact hc this.symm
  obtain ⟨b', hb', _, hdiff⟩ :=
    concatValues_replace_ne msg f v (v.set i c) hvalue (by simp) hne (declaredFields msg) values hvals
  have hvals' : declaredValues (f.replace msg (v.set i c)) = some b' := by
    unfold declaredValues
    rw [declaredFields_replace]
    exact hb'
  have hsumne : P.sha256Hex values ≠ P.sha256Hex b' :=
    hcoll values b' hvals hvals' (fun h => hdiff hnamed h.symm)
  have hfix : (f.replace msg (v.set i c)).EnvelopeHeadersOrder = msg.EnvelopeHeadersOrder ∧
      (f.replace msg (v.set i c)).EnvelopeHeadersChecksum = msg.EnvelopeHeadersChecksum ∧
      (f.replace msg (v.set i c)).EnvelopeHeadersSignature = msg.EnvelopeHeadersSignature := by
    cases f <;> exact ⟨rfl, rfl, rfl⟩
  rw [VerifyEnvelopeAuthenticity_of_values, hvals', hfix.1, hfix.2.1, hfix.2.2]
  simp [hno, hsum, hsumne]

/-- C2, at a concrete envelope: the identifier `m1` becomes `m2`. -/
theorem VerifyEnvelopeAuthenticity_byte_replaced_witness :
    VerifyEnvelopeAuthenticity sample.prim sample.signedMessage = .ok true ∧
    VerifyEnvelopeAuthenticity sample.prim
      { sample.signedMessage with ID := "m2".toList } = .ok false := by
  have hverify : VerifyEnvelopeAuthenticity sample.prim sample.signedMessage = .ok true := by decide
  refine ⟨hverify, ?_⟩
  have h := VerifyEnvelopeAuthenticity_byte_replaced sample.prim sample.signedMessage .id
    "m1".toList 1 '2' hverify (by decide) (by decide) (by decide) (by decide)
    (by
      intro b b' hb hb' _
      have e1 : declaredValues sample.signedMessage = some "m1seal=none; data=".toList := by decide
      have e2 : declaredValues (EnvelopeField.replace sample.signedMessage ("m1".toList.set 1 '2') .id) =
          some "m2seal=none; data=".toList := by decide
      rw [e1] at hb
      rw [e2] at hb'
      cases hb
      cases hb'
      decide)
  exact h

end message

namespace message

/-- C1, evaluated on a broadcast message: the envelope `SealEnvelope` writes carries the
checksum and the signature in attributes named `value`, and `ParseEnvelopeData` reads
them from `sum` and `data`: the parsed checksum and signature are empty and
`VerifyEnvelopeAuthenticity` returns false. -/
theorem sealed_envelope_loses_checksum :
    SealEnvelope sample.prim sample.broadcast = .ok
      ("message-id: m1\nmessage-headers: algorithm=none; value=".toList ++
        sample.hexEncode (EmbedContentHeaders sample.prim sample.broadcast) ++
        ("\nmessage-checksum: algorithm=sha256; order=message-id:message-headers; value=14a87f69" ++
         "\nmessage-signature: algorithm=ed25519; value=").toList ++
        sample.hexEncode sample.publicKey ++ "14a87f69\n".toList) ∧
    ((SealEnvelope sample.prim sample.broadcast).bind fun text =>
      (ParseEnvelopeData text).bind fun m =>
        .ok (m.EnvelopeHeadersOrder, m.EnvelopeHeadersChecksum, m.EnvelopeHeadersSignature,
          VerifyEnvelopeAuthenticity sample.prim { m with Author := sample.author })) =
      .ok ("message-id:message-headers".toList, [], [], .ok false) := by
  set_option maxRecDepth 100000 in
  decide

theorem retrieveAccessKeyTrace_spec (P : Prim) (link : Str) (readerUser : user.Reader)
    (readers : List user.Reader) :
    (∀ pre r post, readers = pre ++ r :: post →
      (∀ x ∈ pre, ¬ (x.Link = link ∧
        x.User.PublicEncryptionKeyFingerprint = readerUser.User.PublicEncryptionKeyFingerprint)) →
      (r.Link = link ∧ r.User.PublicEncryptionKeyFingerprint = readerUser.User.PublicEncryptionKeyFingerprint) →
      retrieveAccessKeyTrace P link readerUser readers =
        (crypto.DecryptAnonymous P readerUser.User.PrivateEncryptionKey readerUser.User.PublicEncryptionKey
          r.SealedKey, [r.SealedKey])) ∧
    ((∀ x ∈ readers, ¬ (x.Link = link ∧
        x.User.PublicEncryptionKeyFingerprint = readerUser.User.PublicEncryptionKeyFingerprint)) →
      retrieveAccessKeyTrace P link readerUser readers =
        (.error "non-designated reader or public key mismatch", [])) := by
  induction readers with
  | nil =>
    refine ⟨?_, fun _ => rfl⟩
    intro pre r post h
    simp at h
  | cons x rest ih =>
    constructor
    · intro pre r post h hpre hr
      cases pre with
      | nil =>
        simp only [List.nil_append, List.cons.injEq] at h
        obtain ⟨rfl, rfl⟩ := h
        simp [retrieveAccessKeyTrace, hr.1, hr.2]
      | cons y pre' =>
        simp only [List.cons_append, List.cons.injEq] at h
        obtain ⟨rfl, hrest⟩ := h
        have hx := hpre x (List.mem_cons_self _ _)
        simp only [retrieveAccessKeyTrace, hx, if_false]
        exact ih.1 pre' r post hrest (fun z hz => hpre z (List.mem_cons_of_mem _ hz)) hr
    · intro hall
      have hx := hall x (List.mem_cons_self _ _)
      simp only [retrieveAccessKeyTrace, hx, if_false]
      exact ih.2 (fun z hz => hall z (List.mem_cons_of_mem _ hz))

end message

namespace message

theorem CopyFile_written (P : Prim) (source dest : Option Str) (fileInfo : crypto.IOInfo)
    (h : (crypto.CopyFile P source dest).1 = .ok fileInfo) :
    ∃ w, (crypto.CopyFile P source dest).2 = some w ∧ source = some w ∧
      fileInfo.OutputChecksum = P.sha256Hex w := by
  unfold crypto.CopyFile at h ⊢
  cases source with
  | none => simp at h
  | some data =>
    simp only [Outcome.ok.injEq] at h ⊢
    exact ⟨data, rfl, rfl, by rw [← h]⟩

theorem Xchacha20Poly1305DecryptFile_written (P : Prim) (source dest : Option Str) (key : Str)
    (fileInfo : crypto.IOInfo)
    (h : (crypto.Xchacha20Poly1305DecryptFile P source dest key).1 = .ok fileInfo) :
    ∃ w, (crypto.Xchacha20Poly1305DecryptFile P source dest key).2 = some w ∧
      fileInfo.OutputChecksum = P.sha256Hex w := by
  unfold crypto.Xchacha20Poly1305DecryptFile at h ⊢
  cases source with
  | none => simp at h
  | some data =>
    simp only at h ⊢
    cases hdec : crypto.Xchacha20Poly1305Decrypt P data key with
    | ok decrypted =>
      simp only [hdec, Outcome.ok.injEq] at h ⊢
      exact ⟨decrypted, rfl, by rw [← h]⟩
    | error e => simp [hdec] at h
    | panic => simp [hdec] at h

theorem SecretStreamDecryptFile_written (P : Prim) (source dest : Option Str) (key : Str)
    (chunkSize : Int) (fileInfo : crypto.IOInfo)
    (h : (crypto.SecretStreamXchacha20Poly1305DecryptFile P source dest key chunkSize).1 = .ok fileInfo) :
    ∃ w, (crypto.SecretStreamXchacha20Poly1305DecryptFile P source dest key chunkSize).2 = some w ∧
      fileInfo.OutputChecksum = P.sha256Hex w := by
  unfold crypto.SecretStreamXchacha20Poly1305DecryptFile at h ⊢
  cases source with
  | none => simp at h
  | some data =>
    simp only at h ⊢
    by_cases hd : data = []
    · simp [hd] at h
    · simp only [hd, if_false] at h ⊢
      cases hinit : P.streamInit (crypto.toArray P.streamHeaderBytes (List.take P.streamHeaderBytes data)) key with
      | none => simp [hinit] at h
      | some decryptor =>
        simp only [hinit] at h ⊢
        by_cases hneg : chunkSize + (P.streamAdditionalBytes : Int) < 0
        · simp [hneg] at h
        · simp only [hneg, if_false] at h ⊢
          revert h
          generalize crypto.pullChunks P decryptor _ [] [] = res
          rcases res with ⟨_ | _ | _, written⟩
          · rename_i cw
            intro h
            simp only [Outcome.ok.injEq] at h
            exact ⟨cw.2, rfl, by rw [← h]⟩
          · intro h
            simp at h
          · intro h
            simp at h

theorem openPayload_written (P : Prim) (message : Message) (dir dir' : MessageDir) (fileInfo : crypto.IOInfo)
    (h : openPayload P message dir = (.ok fileInfo, dir')) :
    ∃ written, openedPayload message dir' = some written ∧ fileInfo.OutputChecksum = P.sha256Hex written := by
  have key : ∀ (res : Outcome crypto.IOInfo × Option Str),
      (res.1 = .ok fileInfo → ∃ w, res.2 = some w ∧ fileInfo.OutputChecksum = P.sha256Hex w) →
      (res.1, if message.IsFile then { dir with file := res.2 } else { dir with body := res.2 }) =
        (Outcome.ok fileInfo, dir') →
      ∃ written, openedPayload message dir' = some written ∧ fileInfo.OutputChecksum = P.sha256Hex written := by
    intro res hres heq
    simp only [Prod.mk.injEq] at heq
    obtain ⟨w, hw, hsum⟩ := hres heq.1
    refine ⟨w, ?_, hsum⟩
    rw [← heq.2]
    unfold openedPayload
    split_ifs <;> simp [hw]
  unfold openPayload at h
  refine key _ ?_ h
  by_cases hb : message.IsBroadcast = true
  · simp only [hb, if_true]
    intro hok
    obtain ⟨w, hw, _, hsum⟩ := CopyFile_written P _ _ fileInfo hok
    exact ⟨w, hw, hsum⟩
  · simp only [hb, if_false]
    cases hc : message.PayloadCipher with
    | none => simp
    | some ci =>
      simp only
      by_cases hs : ci.Stream = true
      · simp only [hs, if_true]
        exact SecretStreamDecryptFile_written P _ _ _ _ fileInfo
      · simp only [hs, if_false]
        exact Xchacha20Poly1305DecryptFile_written P _ _ _ fileInfo

end message

namespace message

theorem openEnvelopeFile_payload (P : Prim) (dir : MessageDir) (payload : Option Str)
    (authorUser : user.User) (readerUser : user.Reader) :
    openEnvelopeFile P { dir with payload := payload } authorUser readerUser =
      openEnvelopeFile P dir authorUser readerUser := rfl

/-- What a successful `Open` went through. -/
theorem Open_ok_inv (P : Prim) (dir dirAfter : MessageDir) (authorUser : user.User) (readerUser : user.Reader)
    (message : Message) (h : Open P dir authorUser readerUser = (.ok message, dirAfter)) :
    dir.headers.isSome = false ∧ openEnvelopeFile P dir authorUser readerUser = .ok message ∧
    ∃ fileInfo dir',
      openPayload P message { dir with headers := some (message.ContentHeadersBytes ++ ['\n']) } =
        (.ok fileInfo, dir') ∧
      message.Content.Checksum = fileInfo.OutputChecksum := by
  unfold Open at h
  by_cases hh : dir.headers.isSome = true
  · simp [hh] at h
  · simp only [hh] at h
    refine ⟨by simpa using hh, ?_⟩
    cases he : openEnvelopeFile P dir authorUser readerUser with
    | ok m =>
      simp only [he] at h
      rcases hp : openPayload P m { dir with headers := some (m.ContentHeadersBytes ++ ['\n']) } with ⟨res, d1⟩
      rw [hp] at h
      cases res with
      | ok fi =>
        simp only at h
        by_cases hck : m.Content.Checksum = fi.OutputChecksum
        · simp only [hck, ne_eq, not_true_eq_false, if_false, Prod.mk.injEq, Outcome.ok.injEq] at h
          obtain ⟨rfl, _⟩ := h
          exact ⟨rfl, fi, d1, hp, hck⟩
        · simp [hck] at h
      | error e => simp at h
      | panic => simp at h
    | error e => simp [he] at h
    | panic => simp [he] at h

/-- C5. When the hexadecimal SHA-256 of the bytes `Open` wrote as the opened payload
differs from the checksum carried in the content headers, `Open` returns the error
`Content checksum failure: seal broken` and no message. In particular, when a broadcast
message opens, the same message with one byte of the payload changed fails with that
error, SHA-256 not colliding on the two payloads. -/
theorem Open_content_checksum_failure (P : Prim) (dir : MessageDir) (authorUser : user.User)
    (readerUser : user.Reader) :
    (∀ message fileInfo dir' written,
      dir.headers = none →
      openEnvelopeFile P dir authorUser readerUser = .ok message →
      openPayload P message { dir with headers := some (message.ContentHeadersBytes ++ ['\n']) } =
        (.ok fileInfo, dir') →
      openedPayload message dir' = some written →
      message.Content.Checksum ≠ P.sha256Hex written →
      Open P dir authorUser readerUser = (.error "Content checksum failure: seal broken", dir')) ∧
    (∀ message dirAfter payload (i : Nat) (c : Char) (hi : i < payload.length),
      Open P dir authorUser readerUser = (.ok message, dirAfter) →
      message.IsBroadcast = true →
      dir.payload = some payload →
      payload[i] ≠ c →
      P.sha256Hex (payload.set i c) ≠ P.sha256Hex payload →
      (Open P { dir with payload := some (payload.set i c) } authorUser readerUser).1 =
        .error "Content checksum failure: seal broken") := by
  constructor
  · intro message fileInfo dir' written hh he hp hw hne
    obtain ⟨w, hw', hsum⟩ := openPayload_written P message _ dir' fileInfo hp
    rw [hw] at hw'
    simp only [Option.some.injEq] at hw'
    subst hw'
    unfold Open
    simp [hh, he, hp, hsum, hne]
  · intro message dirAfter payload i c hi hopen hb hpay _ hcoll
    obtain ⟨hh, he, fileInfo, dir', hp, hck⟩ := Open_ok_inv P dir dirAfter authorUser readerUser message hopen
    have hsum : fileInfo.OutputChecksum = P.sha256Hex payload := by
      unfold openPayload at hp
      simp only [hb, if_true, Prod.mk.injEq] at hp
      obtain ⟨w, _, hsrc, hsum⟩ := CopyFile_written P _ _ fileInfo hp.1
      simp only [hpay, Option.some.injEq] at hsrc
      rw [hsum, hsrc]
    unfold Open
    simp only [hh, Bool.false_eq_true, if_false, openEnvelopeFile_payload, he]
    unfold openPayload
    simp only [hb, if_true, crypto.CopyFile]
    simp [hck, hsum, Ne.symm hcoll]

/-- C5, on a directory with the payload `hello`: it opens, and with the payload `jello`
`Open` fails at the comparison of the content checksum. -/
theorem Open_content_checksum_failure_witness :
    (Open sample.prim sample.sealedDir sample.author {}).1 = .ok sample.openedMessage ∧
    (Open sample.prim { sample.sealedDir with payload := some "jello".toList } sample.author {}).1 =
      .error "Content checksum failure: seal broken" ∧
    Open sample.prim { sample.sealedDir with payload := some "jello".toList } sample.author {} =
      (.error "Content checksum failure: seal broken",
        { sample.sealedDir with
          payload := some "jello".toList,
          headers := some (sample.contentHeaders "m1".toList ++ ['\n']),
          body := some "jello".toList }) := by
  have hopen : Open sample.prim sample.sealedDir sample.author {} =
      (.ok sample.openedMessage, (Open sample.prim sample.sealedDir sample.author {}).2) := by
    set_option maxRecDepth 100000 in
    decide
  refine ⟨by rw [hopen], ?_, ?_⟩
  · exact (Open_content_checksum_failure sample.prim sample.sealedDir sample.author {}).2
      sample.openedMessage _ "hello".toList 0 'j' (by decide) hopen
      (by set_option maxRecDepth 100000 in decide) rfl (by decide) (by decide)
  · exact (Open_content_checksum_failure sample.prim
        { sample.sealedDir with payload := some "jello".toList } sample.author {}).1
      sample.openedMessage
      { InputSize := 5, InputChecksum := sample.hexEncode (sample.digest "jello".toList),
        OutputSize := 5, OutputChecksum := sample.hexEncode (sample.digest "jello".toList) }
      _ "jello".toList rfl
      (by set_option maxRecDepth 100000 in decide)
      (by set_option maxRecDepth 100000 in decide)
      (by set_option maxRecDepth 100000 in decide)
      (by set_option maxRecDepth 100000 in decide)

end message

namespace message

/-- C6, evaluated on an envelope with `Message-ID: m1` whose signed content headers carry
`id: m9`: `openEnvelopeFile` returns the message, with both identifiers in it, and `Open`
returns it as well. -/
theorem openEnvelopeFile_accepts_foreign_id :
    ((openEnvelopeFile sample.prim sample.foreignIdDir sample.author {}).bind fun m =>
      .ok (m.ID, m.Content.ID)) = .ok ("m1".toList, "m9".toList) ∧
    ((Open sample.prim sample.foreignIdDir sample.author {}).1.bind fun m =>
      .ok (m.ID, m.Content.ID)) = .ok ("m1".toList, "m9".toList) := by
  set_option maxRecDepth 100000 in
  decide

end message

namespace nonce

/-- C9, evaluated: `FromHeader` fails at run time, with an index out of range, on the empty
header that the middleware passes when the request carries no token, on a header without
the scheme `SOTN`, and on an attribute without `=`. -/
theorem FromHeader_fails_at_run_time (P : Prim) (now : Int) :
    FromHeader P now [] = .panic ∧
    FromHeader P now "Bearer abc".toList = .panic ∧
    FromHeader P now "SOTN nonce".toList = .panic := by
  refine ⟨rfl, ?_, ?_⟩
  · have h : strings.SplitN2 "Bearer abc".toList NONCE_SCHEME = ["Bearer abc".toList] := by decide
    unfold FromHeader
    rw [h]
  · have h : strings.SplitN2 "SOTN nonce".toList NONCE_SCHEME = [[], " nonce".toList] := by decide
    have h2 : strings.Split (strings.RemoveAll (strings.RemoveAll (strings.TrimSpace " nonce".toList) '\t') '\n')
        [','] = ["nonce".toList] := by decide
    have h3 : strings.SplitN2 (strings.TrimSpace "nonce".toList) ['='] = ["nonce".toList] := by decide
    unfold FromHeader
    rw [h]
    simp only
    rw [h2]
    unfold headerAttributes
    rw [h3]

end nonce

namespace bufio

theorem utf8Len_append (a b : Str) : utf8Len (a ++ b) = utf8Len a + utf8Len b := by
  simp [utf8Len]

theorem utf8Len_cons (c : Char) (s : Str) : utf8Len (c :: s) = c.utf8Size + utf8Len s := by
  simp [utf8Len]

theorem rawLines_eq_nil (s : Str) : rawLines s = [] ↔ s = [] := by
  cases s with
  | nil => simp [rawLines]
  | cons c cs =>
    simp only [rawLines, reduceCtorEq, iff_false]
    split_ifs
    · simp
    · cases rawLines cs <;> simp

theorem rawLines_append (F G : Str) (hF : F = [] ∨ F.getLast? = some '\n') :
    rawLines (F ++ G) = rawLines F ++ rawLines G := by
  induction F with
  | nil => simp [rawLines]
  | cons c cs ih =>
    have hcs : cs ≠ [] → cs.getLast? = some '\n' := by
      intro hne
      rcases hF with h | h
      · simp at h
      · cases cs with
        | nil => exact absurd rfl hne
        | cons d ds =>
          rw [List.getLast?_cons_cons] at h
          exact h
    by_cases hc : c = '\n'
    · have ih' : rawLines (cs ++ G) = rawLines cs ++ rawLines G := by
        by_cases hne : cs = []
        · exact ih (Or.inl hne)
        · exact ih (Or.inr (hcs hne))
      simp [rawLines, hc, ih']
    · have hne : cs ≠ [] := by
        intro h
        rcases hF with h' | h'
        · simp at h'
        · subst h
          simp at h'
          exact hc h'
      have ih' := ih (Or.inr (hcs hne))
      have hr : rawLines cs ≠ [] := fun h => hne ((rawLines_eq_nil cs).mp h)
      cases hl : rawLines cs with
      | nil => exact absurd hl hr
      | cons l ls =>
        have e : (c :: cs) ++ G = c :: (cs ++ G) := rfl
        rw [e, rawLines, rawLines, if_neg hc, if_neg hc, ih', hl]
        rfl

theorem rawLines_head_size (s l : Str) (ls : List Str) (h : rawLines s = l :: ls) :
    utf8Len l ≤ utf8Len s ∧ ('\n' ∈ s → utf8Len l + 1 ≤ utf8Len s) := by
  induction s generalizing l ls with
  | nil => simp [rawLines] at h
  | cons c cs ih =>
    simp only [rawLines] at h
    by_cases hc : c = '\n'
    · simp only [hc, if_true, List.cons.injEq] at h
      subst hc
      rw [← h.1]
      have h1 : Char.utf8Size '\n' = 1 := by decide
      simp [utf8Len_cons, utf8Len, h1]
    · simp only [hc, if_false] at h
      cases hr : rawLines cs with
      | nil =>
        simp only [hr, List.cons.injEq] at h
        have hcs : cs = [] := (rawLines_eq_nil cs).mp hr
        subst hcs
        rw [← h.1]
        refine ⟨le_refl _, ?_⟩
        intro hmem
        simp at hmem
        exact absurd hmem.symm hc
      | cons l' ls' =>
        simp only [hr, List.cons.injEq] at h
        obtain ⟨h1, h2⟩ := ih l' ls' hr
        rw [← h.1]
        simp only [utf8Len_cons]
        refine ⟨by omega, ?_⟩
        intro hmem
        have : '\n' ∈ cs := by
          rcases List.mem_cons.mp hmem with h' | h'
          · exact absurd h'.symm hc
          · exact h'
        have := h2 this
        omega

/-- The first line of a text that begins with a value free of line feeds and a comma. -/
theorem rawLines_value_line (v rest : Str) (hv : '\n' ∉ v) :
    ∃ l ls, rawLines (v ++ ',' :: rest) = (v ++ ',' :: l) :: ls ∧
      utf8Len l ≤ utf8Len rest ∧ ('\n' ∈ rest → utf8Len l + 1 ≤ utf8Len rest) := by
  induction v with
  | nil =>
    have hc : ¬ (',' = '\n') := by decide
    simp only [List.nil_append, rawLines, hc, if_false]
    cases hr : rawLines rest with
    | nil =>
      have : rest = [] := (rawLines_eq_nil rest).mp hr
      subst this
      exact ⟨[], [], rfl, le_refl _, by simp⟩
    | cons l' ls' =>
      obtain ⟨h1, h2⟩ := rawLines_head_size rest l' ls' hr
      exact ⟨l', ls', rfl, h1, h2⟩
  | cons c v' ih =>
    have hc : ¬ (c = '\n') := by
      intro h
      exact hv (by simp [h])
    have hv' : '\n' ∉ v' := fun h => hv (List.mem_cons_of_mem _ h)
    obtain ⟨l, ls, hl, h1, h2⟩ := ih hv'
    refine ⟨l, ls, ?_, h1, h2⟩
    have e : (c :: v') ++ ',' :: rest = c :: (v' ++ ',' :: rest) := rfl
    rw [e, rawLines, if_neg hc, hl]
    rfl

theorem dropCR_value_line (v l : Str) : ∃ l', dropCR (v ++ ',' :: l) = v ++ ',' :: l' := by
  rcases List.eq_nil_or_concat l with h | ⟨L, b, h⟩
  · subst h
    refine ⟨[], ?_⟩
    have hc : (',' : Char) ≠ '\r' := by decide
    simp [dropCR, hc]
  · rw [List.concat_eq_append] at h
    subst h
    have e : v ++ ',' :: (L ++ [b]) = (v ++ ',' :: L) ++ [b] := by simp
    by_cases hb : b = '\r'
    · refine ⟨L, ?_⟩
      unfold dropCR
      rw [e, List.getLast?_concat, List.dropLast_concat, if_pos (by rw [hb])]
    · refine ⟨L ++ [b], ?_⟩
      unfold dropCR
      rw [e, List.getLast?_concat, if_neg (by simpa using hb)]

theorem scanTokens_append (A B : List Str) (hA : (scanTokens A).2 = false) :
    scanTokens (A ++ B) = ((scanTokens A).1 ++ (scanTokens B).1, (scanTokens B).2) := by
  induction A with
  | nil => simp [scanTokens]
  | cons l ls ih =>
    simp only [scanTokens] at hA
    by_cases hl : utf8Len l < MaxScanTokenSize
    · simp only [hl, if_true] at hA
      simp [scanTokens, hl, ih hA]
    · simp [hl] at hA

end bufio

namespace strings

theorem rdropWhile_keep (p : Char → Bool) (u : Str) (x : Char) (l : Str) (hx : p x = false) :
    List.rdropWhile p (u ++ x :: l) = u ++ x :: List.rdropWhile p l := by
  induction l using List.reverseRecOn with
  | nil =>
    have : u ++ [x] = u ++ [x] := rfl
    rw [List.rdropWhile_concat_neg _ _ _ (by simp [hx])]
    simp
  | append_singleton L y ih =>
    have hassoc : u ++ x :: (L ++ [y]) = (u ++ x :: L) ++ [y] := by simp
    rw [hassoc]
    by_cases hy : p y = true
    · rw [List.rdropWhile_concat_pos _ _ _ hy, List.rdropWhile_concat_pos _ _ _ hy, ih]
    · rw [List.rdropWhile_concat_neg _ _ _ hy, List.rdropWhile_concat_neg _ _ _ hy]
      simp

theorem TrimSpace_value_line (v l : Str) (hlead : ∀ c, v.head? = some c → isSpace c = false) :
    HasPrefix (TrimSpace (v ++ ',' :: l)) v = true := by
  unfold HasPrefix
  rw [List.isPrefixOf_iff_prefix]
  cases v with
  | nil => exact List.nil_prefix
  | cons c v' =>
    have hc : isSpace c = false := hlead c rfl
    have hcomma : isSpace ',' = false := by decide
    have h1 : List.dropWhile isSpace (c :: v' ++ ',' :: l) = c :: v' ++ ',' :: l := by
      simp [List.dropWhile, hc]
    have h2 : TrimSpace (c :: v' ++ ',' :: l) = List.rdropWhile isSpace (c :: v' ++ ',' :: l) := by
      unfold TrimSpace
      rw [h1]
      rfl
    rw [h2, rdropWhile_keep isSpace (c :: v') ',' l hcomma]
    exact List.prefix_append _ _

end strings

namespace utils

theorem prefixInLines_append (target : Str) (A B : List Str) :
    prefixInLines target (A ++ B) = (prefixInLines target A || prefixInLines target B) := by
  induction A with
  | nil => simp [prefixInLines]
  | cons l ls ih =>
    simp only [List.cons_append, prefixInLines, ih]
    split_ifs <;> simp [ih]

end utils

namespace nonce

/-- The value is found in a text that ends with a line beginning `value,`. -/
theorem prefixInLines_value_line (value date rest old : Str)
    (hlead : noLeadingSpace value) (hline : '\n' ∉ value)
    (hlen : bufio.utf8Len (value ++ NONCES_COLUMN_SEPARATOR ++ date) < bufio.MaxScanTokenSize)
    (hscan : (bufio.scanLines old).2 = false) (hend : old = [] ∨ old.getLast? = some '\n')
    (hrest : rest = date ∨ rest = date ++ ['\n']) :
    utils.prefixInLines value (bufio.scanLines (old ++ (value ++ ',' :: rest))).1 = true := by
  have h1 : Char.utf8Size ',' = 1 := by decide
  have hn : Char.utf8Size '\n' = 1 := by decide
  have hsize : bufio.utf8Len value + 1 + bufio.utf8Len date < bufio.MaxScanTokenSize := by
    have : bufio.utf8Len (value ++ NONCES_COLUMN_SEPARATOR ++ date) =
        bufio.utf8Len value + 1 + bufio.utf8Len date := by
      rw [bufio.utf8Len_append, bufio.utf8Len_append]
      simp [NONCES_COLUMN_SEPARATOR, bufio.utf8Len, h1]
    omega
  obtain ⟨l, ls, hl, hl1, hl2⟩ := bufio.rawLines_value_line value rest hline
  have hshort : bufio.utf8Len (value ++ ',' :: l) < bufio.MaxScanTokenSize := by
    rw [bufio.utf8Len_append, bufio.utf8Len_cons, h1]
    rcases hrest with h | h
    · rw [h] at hl1
      omega
    · have h3 := hl2 (by rw [h]; simp)
      have h4 : bufio.utf8Len rest = bufio.utf8Len date + 1 := by
        rw [h, bufio.utf8Len_append]
        simp [bufio.utf8Len, hn]
      omega
  obtain ⟨l', hdrop⟩ := bufio.dropCR_value_line value l
  unfold bufio.scanLines at hscan ⊢
  rw [bufio.rawLines_append old _ hend, bufio.scanTokens_append _ _ hscan, hl]
  simp only [utils.prefixInLines_append, bufio.scanTokens, hshort, if_true, utils.prefixInLines, hdrop,
    strings.TrimSpace_value_line value l' hlead, Bool.or_true]

/-- After the line `value,date` is appended to a well-formed nonce file, the value is found
as a prefix of a line. -/
theorem PrefixExistsInFile_appended (value date : Str) (file : Option Str)
    (hlead : noLeadingSpace value) (hline : '\n' ∉ value)
    (hlen : bufio.utf8Len (value ++ NONCES_COLUMN_SEPARATOR ++ date) < bufio.MaxScanTokenSize)
    (hfile : wellFormedFile file) :
    utils.PrefixExistsInFile value
      (some (utils.AppendStringToFile (value ++ NONCES_COLUMN_SEPARATOR ++ date) file)) = .ok true := by
  have hcore : ∀ old : Str, (bufio.scanLines old).2 = false → (old = [] ∨ old.getLast? = some '\n') →
      utils.prefixInLines value (bufio.scanLines
        (if strings.HasSuffix (value ++ NONCES_COLUMN_SEPARATOR ++ date) ['\n'] = true then
          old ++ (value ++ NONCES_COLUMN_SEPARATOR ++ date)
        else old ++ (value ++ NONCES_COLUMN_SEPARATOR ++ date ++ ['\n']))).1 = true := by
    intro old hscan hend
    have e1 : value ++ NONCES_COLUMN_SEPARATOR ++ date = value ++ ',' :: date := by
      simp [NONCES_COLUMN_SEPARATOR]
    have e2 : value ++ NONCES_COLUMN_SEPARATOR ++ date ++ ['\n'] = value ++ ',' :: (date ++ ['\n']) := by
      simp [NONCES_COLUMN_SEPARATOR]
    split_ifs
    · rw [e1]
      exact prefixInLines_value_line value date date old hlead hline hlen hscan hend (Or.inl rfl)
    · rw [e2]
      exact prefixInLines_value_line value date _ old hlead hline hlen hscan hend (Or.inr rfl)
  unfold utils.PrefixExistsInFile utils.AppendStringToFile
  cases file with
  | none =>
    have := hcore [] rfl (Or.inl rfl)
    simp only [this, if_true]
  | some data =>
    have := hcore data (hfile data rfl).1 (hfile data rfl).2
    simp only [this, if_true]

/-- A well-formed nonce file is scanned without error. -/
theorem PrefixExistsInFile_returns (value : Str) (file : Option Str) (hfile : wellFormedFile file) :
    utils.PrefixExistsInFile value file = .ok true ∨ utils.PrefixExistsInFile value file = .ok false := by
  unfold utils.PrefixExistsInFile
  cases file with
  | none => exact Or.inr rfl
  | some data =>
    by_cases hp : utils.prefixInLines value (bufio.scanLines data).1 = true
    · simp [hp]
    · simp [hp, (hfile data rfl).1]

theorem dayOf_mono (a b : Int) (h : a ≤ b) : dayOf a ≤ dayOf b :=
  Int.ediv_le_ediv (by decide) h

/-- `IsUnique` rejects when the file of the day, or else the file of the day before, holds
the value and the file of the day is scanned without error. -/
theorem IsUnique_replay (home : Home) (n : Nonce) (t : Int)
    (h : utils.PrefixExistsInFile n.Value (home.nonces (dayOf t)) = .ok true ∨
      ((utils.PrefixExistsInFile n.Value (home.nonces (dayOf t)) = .ok true ∨
        utils.PrefixExistsInFile n.Value (home.nonces (dayOf t)) = .ok false) ∧
        utils.PrefixExistsInFile n.Value (home.nonces (dayOf t - 1)) = .ok true)) :
    IsUnique home n t = .error ErrorNonceReplay := by
  unfold IsUnique
  rcases h with h | ⟨h | h, h'⟩
  · simp [h]
  · simp [h]
  · simp [h, h']

end nonce

namespace nonce

/-- A home whose file of day `D` ends with the line of the nonce, and whose other nonce
files are well formed, rejects the value on day `D` and on day `D + 1`. -/
theorem IsUnique_of_recorded (home home2 : Home) (n n' : Nonce) (D t : Int)
    (hvalue : n'.Value = n.Value)
    (hday : dayOf t = D ∨ dayOf t = D + 1)
    (hlead : noLeadingSpace n.Value) (hline : '\n' ∉ n.Value)
    (hlen : bufio.utf8Len (n.Value ++ NONCES_COLUMN_SEPARATOR ++ n.Date) < bufio.MaxScanTokenSize)
    (hfile : wellFormedFile (home.nonces D))
    (hD : home2.nonces D =
      some (utils.AppendStringToFile (n.Value ++ NONCES_COLUMN_SEPARATOR ++ n.Date) (home.nonces D)))
    (hother : ∀ d, d ≠ D → wellFormedFile (home2.nonces d)) :
    IsUnique home2 n' t = .error ErrorNonceReplay := by
  have hfound : utils.PrefixExistsInFile n'.Value (home2.nonces D) = .ok true := by
    rw [hD, hvalue]
    exact PrefixExistsInFile_appended n.Value n.Date _ hlead hline hlen hfile
  apply IsUnique_replay
  rcases hday with h | h
  · left
    rw [h]
    exact hfound
  · right
    rw [h]
    refine ⟨PrefixExistsInFile_returns _ _ (hother (D + 1) (by omega)), ?_⟩
    have e : D + 1 - 1 = D := by omega
    rw [e]
    exact hfound

/-- C8, as the code has it. A nonce whose value has no leading white space and no line
feed, recorded by `Record` at time `H`, is rejected by `IsUnique` with `ErrorNonceReplay`
at every later time `t` of the same calendar day or of the next one, also when the
clean-up has run in between; the nonce files of the account are well formed and the
recorded line fits the scanner's buffer. -/
theorem IsUnique_rejects_recorded (home : Home) (n n' : Nonce) (H t : Int)
    (hvalue : n'.Value = n.Value)
    (hlater : H ≤ t)
    (hday : dayOf t ≤ dayOf H + 1)
    (hlead : noLeadingSpace n.Value) (hline : '\n' ∉ n.Value)
    (hlen : bufio.utf8Len (n.Value ++ NONCES_COLUMN_SEPARATOR ++ n.Date) < bufio.MaxScanTokenSize)
    (hfiles : ∀ d, wellFormedFile (home.nonces d)) :
    IsUnique (Record home n H) n' t = .error ErrorNonceReplay ∧
    ∀ c, H ≤ c → c ≤ t → IsUnique (Cleanup (Record home n H) c) n' t = .error ErrorNonceReplay := by
  have hD : dayOf t = dayOf H ∨ dayOf t = dayOf H + 1 := by
    have := dayOf_mono H t hlater
    omega
  constructor
  · refine IsUnique_of_recorded home _ n n' (dayOf H) t hvalue hD hlead hline hlen (hfiles _) ?_ ?_
    · simp [Record]
    · intro d hd
      simp only [Record, hd, if_false]
      exact hfiles d
  · intro c hHc hct
    have h1 := dayOf_mono H c hHc
    have h2 := dayOf_mono c t hct
    refine IsUnique_of_recorded home _ n n' (dayOf H) t hvalue hD hlead hline hlen (hfiles _) ?_ ?_
    · have hkeep : dayOf H = dayOf c ∨ dayOf H = dayOf c - 1 := by omega
      simp [Cleanup, Record, hkeep]
    · intro d hd
      simp only [Cleanup, Record, hd, if_false]
      split_ifs
      · exact hfiles d
      · intro data hdata
        simp at hdata

/-- C8, at a concrete time: a nonce recorded at 23:00 of day 0 is rejected at 23:59:59 of
day 1. -/
theorem IsUnique_rejects_recorded_witness :
    IsUnique (Record {} sample.recordedNonce 82800) { Value := "abc".toList } 172799 =
      .error ErrorNonceReplay :=
  (IsUnique_rejects_recorded {} sample.recordedNonce { Value := "abc".toList } 82800 172799
    rfl (by decide) (by decide) (by decide) (by decide) (by decide)
    (fun d data h => by simp at h)).1

/-- C8 as stated fails: a nonce recorded at 23:00 of day 0 is accepted as new at 00:01 of
day 2, 25 hours and one minute later. -/
theorem IsUnique_accepts_within_48_hours :
    (172860 : Int) - 82800 < 48 * 3600 ∧
    IsUnique (Record {} sample.recordedNonce 82800) { Value := "abc".toList } 172860 = .ok () := by
  decide

/-- C7, evaluated: the value ` abc`, which `FromHeader` reads from the header
`SOTN nonce= abc, ...`, is recorded as the line ` abc,<date>`; `IsUnique` trims the line
before it tests the prefix and does not find the value, a minute later on the same day. -/
theorem IsUnique_accepts_recorded_spaced_value :
    ((FromHeader sample.prim 0 (sample.nonceHeader " abc".toList)).bind fun n => .ok n.Value) =
      .ok " abc".toList ∧
    (Record {} sample.spacedNonce 0).nonces 0 = some " abc,1970-01-01T00:00:00Z\n".toList ∧
    IsUnique (Record {} sample.spacedNonce 0) sample.spacedNonce 60 = .ok () ∧
    (server.authenticatePrivate sample.prim (sample.application sample.profileWithKey)
      (sample.request (sample.nonceHeader " abc".toList)) 0).1 = .ok (.next "x.test".toList "a".toList) ∧
    (server.authenticatePrivate sample.prim
      (server.authenticatePrivate sample.prim (sample.application sample.profileWithKey)
        (sample.request (sample.nonceHeader " abc".toList)) 0).2
      (sample.request (sample.nonceHeader " abc".toList)) 60).1 = .ok (.next "x.test".toList "a".toList) := by
  set_option maxRecDepth 100000 in
  decide

end nonce

namespace server

/-- C10, as the code has it. `authenticatePrivate` passes a request on to the handler only
if the fingerprint of the nonce's signing key equals the current signing-key fingerprint
of the account's profile, or its `Last-Signing-Key` fingerprint, or the profile has no
current signing-key fingerprint; when the profile has one, a request that reaches the
comparison with any other fingerprint is answered 401. -/
theorem authenticatePrivate_fingerprint (P : Prim) (app : Application) (r : Request) (now : Int) :
    (∀ domain usr app', authenticatePrivate P app r now = (.ok (.next domain usr), app') →
      ∃ n home localProfile,
        nonce.FromHeader P now r.nonceHeader = .ok n ∧
        app.homes domain usr = some home ∧
        profile.GetLocalProfile P (nonce.Record home n now) domain usr = .ok localProfile ∧
        (n.SigningKeyFingerprint = localProfile.User.PublicSigningKeyFingerprint ∨
          n.SigningKeyFingerprint = localProfile.LastSigningKeyFingerprint ∨
          localProfile.User.PublicSigningKeyFingerprint = [])) ∧
    (∀ n home localProfile,
      nonce.FromHeader P now r.nonceHeader = .ok n →
      nonce.VerifySignature P n = none →
      strings.ToLower r.domain ≠ [] → strings.ToLower r.user ≠ [] →
      app.homes (strings.ToLower r.domain) (strings.ToLower r.user) = some home →
      nonce.IsUnique home n now = .ok () →
      profile.GetLocalProfile P (nonce.Record home n now) (strings.ToLower r.domain) (strings.ToLower r.user) =
        .ok localProfile →
      localProfile.User.PublicSigningKeyFingerprint ≠ [] →
      n.SigningKeyFingerprint ≠ localProfile.User.PublicSigningKeyFingerprint →
      n.SigningKeyFingerprint ≠ localProfile.LastSigningKeyFingerprint →
      (authenticatePrivate P app r now).1 = .ok (.status StatusUnauthorized)) := by
  constructor
  · intro domain usr app' h
    unfold authenticatePrivate at h
    cases hn : nonce.FromHeader P now r.nonceHeader with
    | ok n =>
      simp only [hn] at h
      cases hv : nonce.VerifySignature P n with
      | some e => simp [hv] at h
      | none =>
        simp only [hv] at h
        by_cases hempty : strings.ToLower r.domain = [] ∨ strings.ToLower r.user = []
        · simp [hempty] at h
        · simp only [hempty, if_false] at h
          cases hh : app.homes (strings.ToLower r.domain) (strings.ToLower r.user) with
          | none => simp [hh] at h
          | some home =>
            simp only [hh] at h
            cases hu : nonce.IsUnique home n now with
            | ok u =>
              simp only [hu] at h
              cases hp : profile.GetLocalProfile P (nonce.Record home n now) (strings.ToLower r.domain)
                  (strings.ToLower r.user) with
              | ok localProfile =>
                simp only [hp] at h
                split_ifs at h with hfp
                · simp at h
                · simp only [Prod.mk.injEq, Outcome.ok.injEq, Response.next.injEq] at h
                  obtain ⟨⟨hd, hus⟩, _⟩ := h
                  subst hd hus
                  refine ⟨n, home, localProfile, rfl, hh, hp, ?_⟩
                  by_contra hcon
                  simp only [not_or] at hcon
                  exact hfp ⟨hcon.1, hcon.2.2, hcon.2.1⟩
              | error e => simp [hp] at h
              | panic => simp [hp] at h
            | error e =>
              simp only [hu] at h
              split_ifs at h <;> simp at h
            | panic => simp [hu] at h
    | error e => simp [hn] at h
    | panic => simp [hn] at h
  · intro n home localProfile hn hv hd hu hh huniq hp hkey h1 h2
    unfold authenticatePrivate
    simp [hn, hv, hd, hu, hh, huniq, hp, hkey, h1, h2]

/-- C10, at concrete requests to an account whose profile carries a signing key: the request
signed with that key is passed on, the request signed with another key is answered 401. -/
theorem authenticatePrivate_fingerprint_witness :
    (∃ n home localProfile,
      nonce.FromHeader sample.prim 0 (sample.request (sample.nonceHeader "abc".toList)).nonceHeader = .ok n ∧
      (sample.application sample.profileWithKey).homes "x.test".toList "a".toList = some home ∧
      profile.GetLocalProfile sample.prim (nonce.Record home n 0) "x.test".toList "a".toList =
        .ok localProfile ∧
      (n.SigningKeyFingerprint = localProfile.User.PublicSigningKeyFingerprint ∨
        n.SigningKeyFingerprint = localProfile.LastSigningKeyFingerprint ∨
        localProfile.User.PublicSigningKeyFingerprint = [])) ∧
    (authenticatePrivate sample.prim (sample.application sample.profileWithKey)
      (sample.request sample.strangerHeader) 0).1 = .ok (.status StatusUnauthorized) := by
  constructor
  · have h1 : (authenticatePrivate sample.prim (sample.application sample.profileWithKey)
        (sample.request (sample.nonceHeader "abc".toList)) 0).1 =
        .ok (.next "x.test".toList "a".toList) := by
      set_option maxRecDepth 100000 in decide
    have h2 : authenticatePrivate sample.prim (sample.application sample.profileWithKey)
        (sample.request (sample.nonceHeader "abc".toList)) 0 =
        (.ok (.next "x.test".toList "a".toList),
          (authenticatePrivate sample.prim (sample.application sample.profileWithKey)
            (sample.request (sample.nonceHeader "abc".toList)) 0).2) := by
      rw [← h1]
    exact (authenticatePrivate_fingerprint sample.prim (sample.application sample.profileWithKey)
      (sample.request (sample.nonceHeader "abc".toList)) 0).1 "x.test".toList "a".toList _ h2
  · have hn : nonce.FromHeader sample.prim 0 (sample.request sample.strangerHeader).nonceHeader =
        .ok { Value := "abc".toList, Signature := sample.hexEncode (sample.strangerKey ++ "abc".toList),
              SigningKey := sample.strangerKey, Date := "0".toList,
              SigningKeyBase64 := sample.hexEncode sample.strangerKey,
              SigningKeyFingerprint := sample.hexEncode (sample.digest sample.strangerKey),
              SigningAlgorithm := "ed25519".toList } := by
      set_option maxRecDepth 100000 in decide
    exact (authenticatePrivate_fingerprint sample.prim (sample.application sample.profileWithKey)
      (sample.request sample.strangerHeader) 0).2 _ { profileData := some sample.profileWithKey }
      { User := { Address := "a@x.test".toList, Domain := "x.test".toList, LocalPart := "a".toList,
                  PublicSigningKeyBase64 := sample.hexEncode sample.publicKey,
                  PublicSigningKeyFingerprint := sample.hexEncode (sample.digest sample.publicKey) },
        Name := "A".toList, PublicAccess := true, RemoteBody := some sample.profileWithKey }
      hn
      (by set_option maxRecDepth 100000 in decide)
      (by decide) (by decide)
      (by set_option maxRecDepth 100000 in rfl)
      (by set_option maxRecDepth 100000 in decide)
      (by set_option maxRecDepth 100000 in decide)
      (by set_option maxRecDepth 100000 in decide)
      (by set_option maxRecDepth 100000 in decide)
      (by set_option maxRecDepth 100000 in decide)

/-- C10 as stated fails: for an account whose stored profile has no `Signing-Key` field, a
request signed with any key is passed on to the handler, the fingerprint of that key being
neither the current nor the last signing-key fingerprint of the profile. -/
theorem authenticatePrivate_passes_any_key :
    (authenticatePrivate sample.prim (sample.application sample.profileWithoutKey)
      (sample.request sample.strangerHeader) 0).1 = .ok (.next "x.test".toList "a".toList) ∧
    ((nonce.FromHeader sample.prim 0 sample.strangerHeader).bind fun n =>
      (profile.GetLocalProfile sample.prim { profileData := some sample.profileWithoutKey }
        "x.test".toList "a".toList).bind fun p =>
        .ok (n.SigningKeyFingerprint, p.User.PublicSigningKeyFingerprint, p.LastSigningKeyFingerprint)) =
      .ok ("99905977".toList, [], []) := by
  set_option maxRecDepth 100000 in
  decide

end server

/-! ### Links: the order of strings, lowering and trimming -/

namespace links

theorem toNat_inj (a b : Char) (h : a.toNat = b.toNat) : a = b := by
  apply Char.ext
  apply UInt32.ext
  exact h

theorem strLess_irrefl (a : Str) : strLess a a = false := by
  induction a with
  | nil => rfl
  | cons c cs ih => simp [strLess, ih]

theorem strLess_asymm (a b : Str) (h : strLess a b = true) : strLess b a = false := by
  induction a generalizing b with
  | nil => cases b <;> simp [strLess] at h ⊢
  | cons c cs ih =>
    cases b with
    | nil => simp [strLess] at h
    | cons d ds =>
      simp only [strLess] at h ⊢
      by_cases h1 : c.toNat < d.toNat
      · have h2 : ¬ d.toNat < c.toNat := by omega
        simp [h1, h2]
      · by_cases h2 : d.toNat < c.toNat
        · simp [h1, h2] at h
        · simp only [h1, h2, if_false] at h ⊢
          exact ih ds h

theorem strLess_connex (a b : Str) (h1 : strLess a b = false) (h2 : strLess b a = false) : a = b := by
  induction a generalizing b with
  | nil => cases b with
    | nil => rfl
    | cons d ds => simp [strLess] at h1
  | cons c cs ih =>
    cases b with
    | nil => simp [strLess] at h2
    | cons d ds =>
      simp only [strLess] at h1 h2
      by_cases g1 : c.toNat < d.toNat
      · simp [g1] at h1
      · by_cases g2 : d.toNat < c.toNat
        · simp [g2] at h2
        · simp only [g1, g2, if_false] at h1 h2
          have hcd : c = d := toNat_inj c d (by omega)
          rw [hcd, ih ds h1 h2]

theorem strLess_le_trans (a b c : Str) (h1 : strLess b a = false) (h2 : strLess c b = false) :
    strLess c a = false := by
  induction a generalizing b c with
  | nil => cases c <;> rfl
  | cons x xs ih =>
    cases b with
    | nil => simp [strLess] at h1
    | cons y ys =>
      cases c with
      | nil => simp [strLess] at h2
      | cons z zs =>
        simp only [strLess] at h1 h2 ⊢
        by_cases g1 : y.toNat < x.toNat
        · simp [g1] at h1
        · by_cases g2 : z.toNat < y.toNat
          · simp [g2] at h2
          · have g5 : ¬ z.toNat < x.toNat := by omega
            by_cases g6 : x.toNat < z.toNat
            · simp [g5, g6]
            · have g3 : ¬ x.toNat < y.toNat := by omega
              have g4 : ¬ y.toNat < z.toNat := by omega
              simp only [g1, g2, g3, g4, if_false] at h1 h2
              simp only [g5, g6, if_false]
              exact ih ys zs h1 h2

end links
namespace strings

theorem toLower_cases (c : Char) : c.toLower = c ∨ (65 ≤ c.toNat ∧ c.toNat ≤ 90 ∧ c.toLower = Char.ofNat (c.toNat + 32)) := by
  unfold Char.toLower
  by_cases h : c.toNat ≥ 65 ∧ c.toNat ≤ 90
  · right; simp only [h, and_self, if_true]
  · left; simp only [h, if_false]

theorem isSpace_toLower (c : Char) : isSpace c.toLower = isSpace c := by
  rcases toLower_cases c with h | ⟨h1, h2, h3⟩
  · rw [h]
  · rw [h3]
    obtain ⟨n, hn⟩ : ∃ n, c.toNat = n := ⟨_, rfl⟩
    rw [hn] at h1 h2 ⊢
    have hc : isSpace c = false := by
      simp only [isSpace, hn]
      interval_cases n <;> decide
    rw [hc]
    interval_cases n <;> decide

theorem toLower_toLower (c : Char) : c.toLower.toLower = c.toLower := by
  rcases toLower_cases c with h | ⟨h1, h2, h3⟩
  · rw [h, h]
  · rw [h3]
    obtain ⟨n, hn⟩ : ∃ n, c.toNat = n := ⟨_, rfl⟩
    rw [hn] at h1 h2 ⊢
    interval_cases n <;> decide

end strings

namespace unicode

theorem rangesOK_true : rangesOK = true := by
  set_option maxRecDepth 10000000 in
  decide

theorem lowerIn_some (rs : List (Nat × Nat × Nat × Nat)) (n l : Nat) (h : lowerIn rs n = some l) :
    ∃ r ∈ rs, r.1 ≤ n ∧ n ≤ r.2.1 ∧ (n - r.1) % r.2.2.1 = 0 ∧ l = r.2.2.2 + (n - r.1) := by
  induction rs with
  | nil => simp [lowerIn] at h
  | cons r rest ih =>
    obtain ⟨lo, hi, stride, lower⟩ := r
    simp only [lowerIn] at h
    split_ifs at h with hc
    · simp only [Option.some.injEq] at h
      exact ⟨_, List.mem_cons_self _ _, hc.1, hc.2.1, hc.2.2, h.symm⟩
    · obtain ⟨r, hr, hrest⟩ := ih h
      exact ⟨r, List.mem_cons_of_mem _ hr, hrest⟩

theorem lowerIn_none (rs : List (Nat × Nat × Nat × Nat)) (m : Nat)
    (h : ∀ q ∈ rs, ¬ (q.1 ≤ m ∧ m ≤ q.2.1 ∧ (m - q.1) % q.2.2.1 = 0)) : lowerIn rs m = none := by
  induction rs with
  | nil => rfl
  | cons q rest ih =>
    obtain ⟨lo, hi, stride, lower⟩ := q
    simp only [lowerIn]
    rw [if_neg (h _ (List.mem_cons_self _ _))]
    exact ih (fun q hq => h q (List.mem_cons_of_mem _ hq))

/-- What the check of the table says of a code point in a range and its lower-case
letter. -/
theorem lower_facts (n l : Nat) (h : lowerIn lowerRanges n = some l) :
    lowerIn lowerRanges l = none ∧ ¬ (65 ≤ l ∧ l ≤ 90) ∧
      (l < 55296 ∨ (57343 < l ∧ l < 1114112)) ∧ l ∉ spaces ∧ n ∉ spaces := by
  obtain ⟨r, hr, h1, h2, h3, h4⟩ := lowerIn_some lowerRanges n l h
  have hall := rangesOK_true
  simp only [rangesOK, List.all_eq_true, Bool.and_eq_true] at hall
  obtain ⟨hok, hapart⟩ := hall r hr
  simp only [rangeOK, Bool.and_eq_true, Bool.or_eq_true, Nat.ble_eq, Nat.blt_eq, List.all_eq_true] at hok
  obtain ⟨⟨⟨⟨h128, hstride⟩, hcap⟩, hvalid⟩, hspace⟩ := hok
  have hle : n - r.1 ≤ r.2.1 - r.1 := Nat.sub_le_sub_right h2 _
  refine ⟨?_, ?_, ?_, ?_, ?_⟩
  · apply lowerIn_none
    intro q hq hin
    have ha := hapart q hq
    simp only [apart, Bool.and_eq_true, Bool.or_eq_true, Nat.blt_eq, Nat.beq_eq] at ha
    obtain ⟨q1, q2, q3⟩ := hin
    rcases ha with (ha | ha) | ⟨⟨ha1, ha2⟩, ha3⟩
    · omega
    · omega
    · rw [ha2] at q3
      rcases ha1 with ha1 | ha1
      · rw [ha1] at h3
        omega
      · omega
  · omega
  · omega
  · intro hmem
    have := hspace l hmem
    omega
  · intro hmem
    have := hspace n hmem
    omega

end unicode

namespace strings

theorem isSpace_mem (c : Char) (h : isSpace c = true) : c.toNat ∈ unicode.spaces := by
  simp only [isSpace, Bool.or_eq_true, Bool.and_eq_true, decide_eq_true_eq, beq_iff_eq] at h
  simp only [unicode.spaces, List.mem_cons, List.mem_singleton, List.not_mem_nil, or_false]
  omega

theorem isSpace_of_mem (c : Char) (h : c.toNat ∈ unicode.spaces) : isSpace c = true := by
  simp only [unicode.spaces, List.mem_cons, List.mem_singleton, List.not_mem_nil, or_false] at h
  simp only [isSpace, Bool.or_eq_true, Bool.and_eq_true, decide_eq_true_eq, beq_iff_eq]
  omega

end strings

namespace unicode

theorem toNat_ofNat (l : Nat) (h : l < 55296 ∨ (57343 < l ∧ l < 1114112)) : (Char.ofNat l).toNat = l := by
  have hv : l.isValidChar := h
  simp only [Char.ofNat, hv, dif_pos, Char.toNat, Char.ofNatAux]
  rfl

theorem toLower_ascii (c : Char) (h : c.toNat < 128) : c.toLower.toNat < 128 := by
  rcases strings.toLower_cases c with e | ⟨h1, h2, e⟩
  · rw [e]; exact h
  · rw [e, toNat_ofNat _ (by omega)]
    omega

/-- Lowering a lower-case letter leaves it as it is. -/
theorem ToLower_idem (c : Char) : ToLower (ToLower c) = ToLower c := by
  by_cases h : c.toNat < 128
  · have e : ToLower c = c.toLower := by simp [ToLower, h]
    rw [e]
    simp only [ToLower, toLower_ascii c h, if_true, strings.toLower_toLower]
  · cases hl : lowerIn lowerRanges c.toNat with
    | none =>
      have e : ToLower c = c := by simp [ToLower, h, hl]
      rw [e, e]
    | some l =>
      have e : ToLower c = Char.ofNat l := by simp [ToLower, h, hl]
      obtain ⟨f1, f2, f3, _, _⟩ := lower_facts c.toNat l hl
      have hn := toNat_ofNat l f3
      rw [e]
      by_cases h2 : l < 128
      · simp only [ToLower, hn, h2, if_true]
        rcases strings.toLower_cases (Char.ofNat l) with e2 | ⟨a, b, _⟩
        · exact e2
        · rw [hn] at a b
          exact absurd ⟨a, b⟩ f2
      · simp only [ToLower, hn, h2, if_false, f1]

/-- Lowering keeps white space white space and turns nothing else into white space. -/
theorem ToLower_keeps_space (c : Char) : strings.isSpace (ToLower c) = strings.isSpace c := by
  by_cases h : c.toNat < 128
  · have e : ToLower c = c.toLower := by simp [ToLower, h]
    rw [e, strings.isSpace_toLower]
  · cases hl : lowerIn lowerRanges c.toNat with
    | none =>
      have e : ToLower c = c := by simp [ToLower, h, hl]
      rw [e]
    | some l =>
      have e : ToLower c = Char.ofNat l := by simp [ToLower, h, hl]
      obtain ⟨_, _, f3, f4, f5⟩ := lower_facts c.toNat l hl
      have hn := toNat_ofNat l f3
      have s1 : strings.isSpace c = false := by
        cases hs : strings.isSpace c with
        | false => rfl
        | true => exact absurd (strings.isSpace_mem c hs) f5
      have s2 : strings.isSpace (Char.ofNat l) = false := by
        cases hs : strings.isSpace (Char.ofNat l) with
        | false => rfl
        | true =>
          have := strings.isSpace_mem _ hs
          rw [hn] at this
          exact absurd this f4
      rw [e, s1, s2]

end unicode

namespace strings

theorem ToLower_ToLower (s : Str) : ToLower (ToLower s) = ToLower s := by
  simp [ToLower, List.map_map, Function.comp_def, unicode.ToLower_idem]

theorem dropWhile_isSpace_ToLower (s : Str) :
    (ToLower s).dropWhile isSpace = ToLower (s.dropWhile isSpace) := by
  induction s with
  | nil => rfl
  | cons c cs ih =>
    simp only [ToLower, List.map_cons, List.dropWhile_cons, unicode.ToLower_keeps_space] at ih ⊢
    by_cases h : isSpace c = true
    · simp only [h, if_true]; exact ih
    · simp only [h, if_false]; rfl

theorem TrimSpace_ToLower (s : Str) : TrimSpace (ToLower s) = ToLower (TrimSpace s) := by
  unfold TrimSpace
  rw [dropWhile_isSpace_ToLower]
  have e : ∀ t : Str, (ToLower t).reverse = ToLower t.reverse := by
    intro t; simp [ToLower, List.map_reverse]
  rw [e, dropWhile_isSpace_ToLower, e]

end strings

namespace links

end links

/-! ### Lines, columns and the scanner -/

namespace utils

theorem alnum_bounds (c : Char)
    (h : (('a' ≤ c && c ≤ 'z') || ('A' ≤ c && c ≤ 'Z') || ('0' ≤ c && c ≤ '9')) = true) :
    (97 ≤ c.toNat ∧ c.toNat ≤ 122) ∨ (65 ≤ c.toNat ∧ c.toNat ≤ 90) ∨ (48 ≤ c.toNat ∧ c.toNat ≤ 57) := by
  simp only [Bool.or_eq_true, Bool.and_eq_true, decide_eq_true_eq] at h
  rcases h with (⟨h1, h2⟩ | ⟨h1, h2⟩) | ⟨h1, h2⟩
  · exact Or.inl ⟨h1, h2⟩
  · exact Or.inr (Or.inl ⟨h1, h2⟩)
  · exact Or.inr (Or.inr ⟨h1, h2⟩)

theorem StringIsAlphaNumeric_mem (s : Str) (h : StringIsAlphaNumeric s = true) (c : Char) (hc : c ∈ s) :
    (97 ≤ c.toNat ∧ c.toNat ≤ 122) ∨ (65 ≤ c.toNat ∧ c.toNat ≤ 90) ∨ (48 ≤ c.toNat ∧ c.toNat ≤ 57) := by
  unfold StringIsAlphaNumeric at h
  simp only [Bool.and_eq_true, List.all_eq_true] at h
  exact alnum_bounds c (h.2 c hc)

end utils

namespace strings

theorem prefix_sep (c : Char) (a a' x y : Str) (ha : c ∉ a) (ha' : c ∉ a') :
    (a ++ c :: x) <+: (a' ++ c :: y) ↔ a = a' ∧ x <+: y := by
  induction a generalizing a' with
  | nil =>
    cases a' with
    | nil => simp [List.cons_prefix_cons]
    | cons d ds =>
      have hd : c ≠ d := fun h => ha' (by simp [h])
      simp [List.cons_prefix_cons, hd]
  | cons b bs ih =>
    have hb : b ≠ c := fun h => ha (by simp [h])
    cases a' with
    | nil => simp [List.cons_prefix_cons, hb]
    | cons d ds =>
      have hbs : c ∉ bs := fun h => ha (List.mem_cons_of_mem _ h)
      have hds : c ∉ ds := fun h => ha' (List.mem_cons_of_mem _ h)
      simp only [List.cons_append, List.cons_prefix_cons, ih ds hbs hds, List.cons.injEq]
      tauto

theorem TrimSpace_eq_rdropWhile (s : Str) : TrimSpace s = List.rdropWhile isSpace (s.dropWhile isSpace) := rfl

theorem TrimSpace_eq_self (s : Str) (h1 : ∀ c, s.head? = some c → isSpace c = false)
    (h2 : ∀ c, s.getLast? = some c → isSpace c = false) : TrimSpace s = s := by
  rw [TrimSpace_eq_rdropWhile]
  have e1 : s.dropWhile isSpace = s := by
    cases s with
    | nil => rfl
    | cons c t => simp [List.dropWhile_cons, h1 c rfl]
  rw [e1]
  rcases List.eq_nil_or_concat s with h | ⟨u, z, h⟩
  · rw [h]; rfl
  · subst h
    have hz : isSpace z = false := h2 z (by simp)
    rw [List.concat_eq_append, List.rdropWhile_concat_neg]
    simp [hz]

theorem TrimSpace_last (s : Str) (c : Char) (h : (TrimSpace s).getLast? = some c) : isSpace c = false := by
  rw [TrimSpace_eq_rdropWhile] at h
  have hne : List.rdropWhile isSpace (s.dropWhile isSpace) ≠ [] := by
    intro e; rw [e] at h; simp at h
  have := List.rdropWhile_last_not isSpace (s.dropWhile isSpace) hne
  rw [List.getLast?_eq_getLast _ hne] at h
  simp only [Option.some.injEq] at h
  rw [h] at this
  simpa using this

end strings

namespace bufio

theorem dropCR_of_trimmed (s : Str) (h : strings.TrimSpace s = s) : dropCR s = s := by
  unfold dropCR
  by_cases hl : s.getLast? = some '\r'
  · have := strings.TrimSpace_last s '\r' (by rw [h]; exact hl)
    exact absurd this (by decide)
  · simp [hl]

theorem dropCR_of_not_mem (s : Str) (h : '\r' ∉ s) : dropCR s = s := by
  unfold dropCR
  by_cases hl : s.getLast? = some '\r'
  · exact absurd (List.mem_of_getLast?_eq_some hl) h
  · simp [hl]

theorem rawLines_line (l rest : Str) (hl : '\n' ∉ l) : rawLines (l ++ '\n' :: rest) = l :: rawLines rest := by
  induction l with
  | nil => simp [rawLines]
  | cons c cs ih =>
    have hc : c ≠ '\n' := fun h => hl (by simp [h])
    have hcs : '\n' ∉ cs := fun h => hl (List.mem_cons_of_mem _ h)
    have e : (c :: cs) ++ '\n' :: rest = c :: (cs ++ '\n' :: rest) := rfl
    rw [e, rawLines, if_neg hc, ih hcs]

theorem scanTokens_short (ls : List Str) (h : ∀ l ∈ ls, utf8Len l < MaxScanTokenSize) :
    scanTokens ls = (ls.map dropCR, false) := by
  induction ls with
  | nil => rfl
  | cons l ls ih =>
    have h1 := h l (List.mem_cons_self _ _)
    have h2 := ih (fun x hx => h x (List.mem_cons_of_mem _ hx))
    simp [scanTokens, h1, h2]

theorem scanTokens_ok (ls : List Str) (h : (scanTokens ls).2 = false) :
    ∀ l ∈ ls, utf8Len l < MaxScanTokenSize := by
  induction ls with
  | nil => intro l hl; cases hl
  | cons a ls ih =>
    by_cases ha : utf8Len a < MaxScanTokenSize
    · simp only [scanTokens, ha, if_true] at h
      intro l hl
      rcases List.mem_cons.mp hl with e | e
      · rw [e]; exact ha
      · exact ih h l e
    · simp [scanTokens, ha] at h

end bufio

namespace storage

theorem writeLines_cons (l : Str) (ls : List Str) : writeLines (l :: ls) = l ++ '\n' :: writeLines ls := by
  simp [writeLines]

theorem writeLines_append (A B : List Str) : writeLines (A ++ B) = writeLines A ++ writeLines B := by
  simp [writeLines]

theorem rawLines_writeLines_append (ls : List Str) (rest : Str) (h : ∀ l ∈ ls, '\n' ∉ l) :
    bufio.rawLines (writeLines ls ++ rest) = ls ++ bufio.rawLines rest := by
  induction ls with
  | nil => simp [writeLines]
  | cons l ls ih =>
    rw [writeLines_cons, List.append_assoc, List.cons_append, bufio.rawLines_line _ _ (h l (List.mem_cons_self _ _)),
      ih (fun x hx => h x (List.mem_cons_of_mem _ hx))]
    rfl

theorem rawLines_writeLines (ls : List Str) (h : ∀ l ∈ ls, '\n' ∉ l) :
    bufio.rawLines (writeLines ls) = ls := by
  have := rawLines_writeLines_append ls [] h
  simpa [bufio.rawLines] using this

end storage

/-! ### Links -/

namespace links

/-- C17. For all address strings `a` and `b`, `Make(a, b) = Make(b, a)`, and
`Make(a, b) = Make(lower(a), lower(b))`. -/
theorem Make_symm_lower (P : Prim) (a b : Str) :
    Make P a b = Make P b a ∧ Make P a b = Make P (strings.ToLower a) (strings.ToLower b) := by
  constructor
  · unfold Make
    by_cases h : strLess (strings.ToLower (strings.TrimSpace b)) (strings.ToLower (strings.TrimSpace a)) = true
    · have h' := strLess_asymm _ _ h
      simp [h, h']
    · by_cases g : strLess (strings.ToLower (strings.TrimSpace a)) (strings.ToLower (strings.TrimSpace b)) = true
      · simp [h, g]
      · have e := strLess_connex _ _ (by simpa using g) (by simpa using h)
        simp [h, g, e]
  · unfold Make
    rw [strings.TrimSpace_ToLower, strings.TrimSpace_ToLower, strings.ToLower_ToLower, strings.ToLower_ToLower]

/-- C18, as amended. For all address strings `a` and `b`, `Make(a, b)` is the hexadecimal
SHA-256 of `lower(trim(a))` and `lower(trim(b))` concatenated without separator, the
smaller in byte-wise order first; and `SelfLink(user, domain)` is `Make` applied to
`user@domain` twice. -/
theorem Make_hashes_sorted_trimmed (P : Prim) (a b usr domain : Str) :
    (∃ lo hi : Str,
      ((lo = strings.ToLower (strings.TrimSpace a) ∧ hi = strings.ToLower (strings.TrimSpace b)) ∨
        (lo = strings.ToLower (strings.TrimSpace b) ∧ hi = strings.ToLower (strings.TrimSpace a))) ∧
      strLess hi lo = false ∧ Make P a b = P.sha256Hex (lo ++ hi)) ∧
    user.SelfLink P usr domain = Make P (usr ++ ['@'] ++ domain) (usr ++ ['@'] ++ domain) := by
  refine ⟨?_, rfl⟩
  unfold Make
  by_cases h : strLess (strings.ToLower (strings.TrimSpace b)) (strings.ToLower (strings.TrimSpace a)) = true
  · refine ⟨_, _, Or.inr ⟨rfl, rfl⟩, strLess_asymm _ _ h, ?_⟩
    simp [h, strings.Join]
  · refine ⟨_, _, Or.inl ⟨rfl, rfl⟩, by simpa using h, ?_⟩
    simp [h, strings.Join]

/-- C18, counterexample. For the addresses ` a` (with a leading blank) and `b`, `Make`
hashes `ab` under every choice of the primitives; with the sample digest this is the
hash of neither ` ab` nor `b a`, the two concatenations of `lower(a)` and `lower(b)`. -/
theorem Make_drops_surrounding_space :
    (∀ P : Prim, Make P " a".toList "b".toList = P.sha256Hex "ab".toList) ∧
    ¬ ∃ lo hi : Str,
      ((lo = strings.ToLower " a".toList ∧ hi = strings.ToLower "b".toList) ∨
        (lo = strings.ToLower "b".toList ∧ hi = strings.ToLower " a".toList)) ∧
      Make sample.prim " a".toList "b".toList = sample.prim.sha256Hex (lo ++ hi) := by
  constructor
  · intro P; rfl
  · rintro ⟨lo, hi, (⟨rfl, rfl⟩ | ⟨rfl, rfl⟩), h⟩
    · revert h; decide
    · revert h; decide

end links

/-! ### Sealing: the access list and the readers header -/

namespace strings

theorem Join_append_singleton (hs : List Str) (x sep : Str) (h : hs ≠ []) :
    Join (hs ++ [x]) sep = Join hs sep ++ sep ++ x := by
  induction hs with
  | nil => exact absurd rfl h
  | cons a rest ih =>
    cases rest with
    | nil => simp [Join]
    | cons b rest' =>
      have := ih (by simp)
      simp only [List.cons_append] at this ⊢
      rw [Join, this]
      simp [Join, List.append_assoc]

theorem Join_newline (ls : List Str) (h : ls ≠ []) :
    Join ls ['\n'] ++ ['\n'] = storage.writeLines ls := by
  induction ls with
  | nil => exact absurd rfl h
  | cons a rest ih =>
    cases rest with
    | nil => simp [Join, storage.writeLines]
    | cons b rest' =>
      have := ih (by simp)
      rw [Join, List.append_assoc, List.append_assoc, this]
      simp [storage.writeLines]

theorem Join_newline_mem (ls : List Str) (x : Str) (hx : x ∈ ls) :
    ∃ before after, Join ls ['\n'] ++ ['\n'] = before ++ x ++ '\n' :: after ∧
      (before = [] ∨ before.getLast? = some '\n') := by
  have hne : ls ≠ [] := List.ne_nil_of_mem hx
  rw [Join_newline ls hne]
  obtain ⟨A, B, rfl⟩ := List.append_of_mem hx
  refine ⟨storage.writeLines A, storage.writeLines B, ?_, ?_⟩
  · rw [storage.writeLines_append, storage.writeLines_cons]; simp
  · rcases List.eq_nil_or_concat A with h | ⟨u, z, h⟩
    · left; rw [h]; rfl
    · right
      rw [h, List.concat_eq_append, storage.writeLines_append]
      simp [storage.writeLines]

end strings

namespace message

theorem sealedAccessLines_ok (P : Prim) (accessKey : Str) (rs : List user.Reader) (lines : List Str)
    (h : sealedAccessLines P accessKey rs = .ok lines) :
    ∃ entries : List user.Reader, lines = entries.map envelopeAccessLine ∧
      entries.map (fun r => (r.Link, r.User)) = rs.map (fun r => (r.Link, r.User)) := by
  induction rs generalizing lines with
  | nil =>
    simp only [sealedAccessLines, Outcome.ok.injEq] at h
    exact ⟨[], by simp [← h], rfl⟩
  | cons r rest ih =>
    simp only [sealedAccessLines] at h
    cases he : crypto.EncryptAnonymous P r.User.PublicEncryptionKey accessKey with
    | ok sealedKey =>
      rw [he] at h
      cases hr : sealedAccessLines P accessKey rest with
      | ok ls =>
        rw [hr] at h
        simp only [Outcome.ok.injEq] at h
        obtain ⟨entries, e1, e2⟩ := ih ls hr
        refine ⟨{ r with SealedKey := sealedKey } :: entries, ?_, ?_⟩
        · simp [← h, e1]
        · simp [e2]
      | error e => rw [hr] at h; simp at h
      | panic => rw [hr] at h; simp at h
    | error e => rw [he] at h; simp at h
    | panic => rw [he] at h; simp at h

theorem sortReaders_links_sorted (rs : List user.Reader) :
    ((sortReaders rs).map (fun r => r.Link)).Pairwise (fun x y => links.strLess y x = false) := by
  haveI : IsTotal user.Reader linkOrder :=
    ⟨fun a b => by
      unfold linkOrder
      by_cases h : links.strLess b.Link a.Link = true
      · exact Or.inr (links.strLess_asymm _ _ h)
      · exact Or.inl (by simpa using h)⟩
  haveI : IsTrans user.Reader linkOrder :=
    ⟨fun a b c hab hbc => links.strLess_le_trans a.Link b.Link c.Link hab hbc⟩
  have hs : List.Sorted linkOrder (sortReaders rs) := List.sorted_insertionSort linkOrder rs
  rw [List.pairwise_map]
  exact hs

theorem SealedAccessList_ok (P : Prim) (msg : Message) (accessList : Str)
    (h : SealedAccessList P msg = .ok accessList) :
    ∃ entries : List user.Reader,
      accessList = strings.Join (entries.map envelopeAccessLine) (HEADER_ACCESS_LIST_SEPARATOR ++ " ".toList) ∧
      entries.map (fun r => (r.Link, r.User)) = (sortReaders msg.Readers).map (fun r => (r.Link, r.User)) := by
  unfold SealedAccessList at h
  cases hl : sealedAccessLines P msg.AccessKey (sortReaders msg.Readers) with
  | ok lines =>
    rw [hl] at h
    simp only [Outcome.ok.injEq] at h
    obtain ⟨entries, e1, e2⟩ := sealedAccessLines_ok P _ _ _ hl
    exact ⟨entries, by rw [← h, e1], e2⟩
  | error e => rw [hl] at h; simp at h
  | panic => rw [hl] at h; simp at h

theorem map_link_of_pairs (entries rs : List user.Reader)
    (h : entries.map (fun r => (r.Link, r.User)) = rs.map (fun r => (r.Link, r.User))) :
    entries.map (fun r => r.Link) = rs.map (fun r => r.Link) := by
  have := congrArg (List.map Prod.fst) h
  simpa [List.map_map, Function.comp_def] using this

/-- C19. For every message, the string returned by `SealedAccessList` is made of the
access lines of a list of entries that has one entry for each reader of the message (the
same links and users, up to order) and whose links are in non-decreasing byte-wise
order, whatever the order in which the message holds its readers. -/
theorem SealedAccessList_sorted_entries (P : Prim) (msg : Message) (accessList : Str)
    (h : SealedAccessList P msg = .ok accessList) :
    ∃ entries : List user.Reader,
      accessList = strings.Join (entries.map envelopeAccessLine) (HEADER_ACCESS_LIST_SEPARATOR ++ " ".toList) ∧
      entries.length = msg.Readers.length ∧
      (entries.map (fun r => (r.Link, r.User))).Perm (msg.Readers.map (fun r => (r.Link, r.User))) ∧
      (entries.map (fun r => r.Link)).Pairwise (fun x y => links.strLess y x = false) := by
  obtain ⟨entries, e1, e2⟩ := SealedAccessList_ok P msg accessList h
  have hp : (sortReaders msg.Readers).Perm msg.Readers := List.perm_insertionSort linkOrder msg.Readers
  refine ⟨entries, e1, ?_, ?_, ?_⟩
  · have := congrArg List.length e2
    simpa [hp.length_eq] using this
  · rw [e2]; exact hp.map _
  · rw [map_link_of_pairs _ _ e2]; exact sortReaders_links_sorted msg.Readers

end message
namespace message

theorem EmbedContentHeaders_private (P : Prim) (msg : Message) (h : msg.IsBroadcast = false) :
    ∃ head : Str, EmbedContentHeaders P msg =
      head ++ '\n' :: HeaderLine HEADER_CONTENT_READERS
        (strings.Join (msg.Readers.map (fun reader => reader.User.Address))
          (HEADER_CONTENT_READERS_ADDRESS_SEPARATOR ++ " ".toList)) := by
  unfold EmbedContentHeaders
  simp only [h, Bool.not_false, if_true]
  by_cases hf : msg.IsFile = true
  · simp only [hf, if_true]
    rw [strings.Join_append_singleton _ _ _ (by simp)]
    exact ⟨_, List.append_assoc _ _ _⟩
  · simp only [hf]
    rw [strings.Join_append_singleton _ _ _ (by simp)]
    exact ⟨_, List.append_assoc _ _ _⟩

theorem sealedHeaderPairs_private (P : Prim) (msg : Message) (headers : List (Str × Str))
    (hprivate : msg.IsBroadcast = false) (h : sealedHeaderPairs P msg = .ok headers) :
    ∃ accessList encryptedHeaders : Str,
      SealedAccessList P msg = .ok accessList ∧
      crypto.Xchacha20Poly1305Encrypt P (EmbedContentHeaders P msg) msg.AccessKey = .ok encryptedHeaders ∧
      (HEADER_MESSAGE_ACCESS, accessList) ∈ headers ∧
      (HEADER_MESSAGE_CONTENT_HEADERS,
        "algorithm=".toList ++ crypto.SYMMETRIC_CIPHER ++ "; ".toList ++ "value=".toList ++
          P.base64Encode encryptedHeaders) ∈ headers := by
  unfold sealedHeaderPairs at h
  simp only [hprivate] at h
  cases hc : msg.PayloadCipher with
  | none => rw [hc] at h; simp at h
  | some ci =>
    rw [hc] at h
    cases ha : SealedAccessList P msg with
    | ok accessList =>
      rw [ha] at h
      cases he : crypto.Xchacha20Poly1305Encrypt P (EmbedContentHeaders P msg) msg.AccessKey with
      | ok encryptedHeaders =>
        rw [he] at h
        simp only [Bool.false_eq_true, if_false, Outcome.ok.injEq] at h
        refine ⟨accessList, encryptedHeaders, rfl, rfl, ?_, ?_⟩
        · rw [← h]; simp
        · rw [← h]; simp
      | error e => rw [he] at h; simp at h
      | panic => rw [he] at h; simp at h
    | error e => rw [ha] at h; simp at h
    | panic => rw [ha] at h; simp at h

theorem SealEnvelope_line (P : Prim) (msg : Message) (text : Str) (h : SealEnvelope P msg = .ok text) :
    ∃ headers, sealedHeaderPairs P msg = .ok headers ∧
      ∀ pair ∈ headers, ∃ before after, text = before ++ HeaderLine pair.1 pair.2 ++ '\n' :: after ∧
        (before = [] ∨ before.getLast? = some '\n') := by
  unfold SealEnvelope at h
  cases hp : sealedHeaderPairs P msg with
  | ok headers =>
    rw [hp] at h
    simp only [Outcome.ok.injEq] at h
    refine ⟨headers, rfl, ?_⟩
    intro pair hpair
    rw [← h]
    apply strings.Join_newline_mem
    apply List.mem_append_left
    exact List.mem_map.mpr ⟨pair, hpair, rfl⟩
  | error e => rw [hp] at h; simp at h
  | panic => rw [hp] at h; simp at h

/-- C20, as amended. In every private envelope written by `SealEnvelope` for a message
that holds its readers in non-decreasing order of link, the `message-access` line and
the `readers` content header, which is sealed into the `message-headers` line, list the
same readers in the same order: the i-th address is the address of the reader of the
i-th entry. -/
theorem SealEnvelope_readers_follow_access_list (P : Prim) (msg : Message) (text : Str)
    (hprivate : msg.IsBroadcast = false)
    (hsorted : msg.Readers.Pairwise linkOrder)
    (h : SealEnvelope P msg = .ok text) :
    ∃ entries : List user.Reader, ∃ contentHead encryptedHeaders before after before2 after2 : Str,
      entries.map (fun r => (r.Link, r.User)) = msg.Readers.map (fun r => (r.Link, r.User)) ∧
      text = before ++ HeaderLine HEADER_MESSAGE_ACCESS
        (strings.Join (entries.map envelopeAccessLine) (HEADER_ACCESS_LIST_SEPARATOR ++ " ".toList)) ++
          '\n' :: after ∧
      (before = [] ∨ before.getLast? = some '\n') ∧
      text = before2 ++ HeaderLine HEADER_MESSAGE_CONTENT_HEADERS
        ("algorithm=".toList ++ crypto.SYMMETRIC_CIPHER ++ "; ".toList ++ "value=".toList ++
          P.base64Encode encryptedHeaders) ++ '\n' :: after2 ∧
      (before2 = [] ∨ before2.getLast? = some '\n') ∧
      crypto.Xchacha20Poly1305Encrypt P
        (contentHead ++ '\n' :: HeaderLine HEADER_CONTENT_READERS
          (strings.Join (entries.map (fun r => r.User.Address))
            (HEADER_CONTENT_READERS_ADDRESS_SEPARATOR ++ " ".toList)))
        msg.AccessKey = .ok encryptedHeaders := by
  obtain ⟨headers, hp, hlines⟩ := SealEnvelope_line P msg text h
  obtain ⟨accessList, encryptedHeaders, ha, he, m1, m2⟩ := sealedHeaderPairs_private P msg headers hprivate hp
  obtain ⟨entries, e1, e2⟩ := SealedAccessList_ok P msg accessList ha
  have hs : sortReaders msg.Readers = msg.Readers := List.Sorted.insertionSort_eq hsorted
  rw [hs] at e2
  obtain ⟨head, hhead⟩ := EmbedContentHeaders_private P msg hprivate
  obtain ⟨before, after, t1, b1⟩ := hlines _ m1
  obtain ⟨before2, after2, t2, b2⟩ := hlines _ m2
  have haddr : entries.map (fun r => r.User.Address) = msg.Readers.map (fun r => r.User.Address) := by
    have := congrArg (List.map (fun p : Str × user.User => p.2.Address)) e2
    simpa [List.map_map, Function.comp_def] using this
  refine ⟨entries, head, encryptedHeaders, before, after, before2, after2, e2, ?_, b1, t2, b2, ?_⟩
  · rw [← e1]; exact t1
  · rw [haddr, ← hhead]; exact he

theorem SealEnvelope_returns (P : Prim) (msg : Message) (headers : List (Str × Str))
    (h : sealedHeaderPairs P msg = .ok headers) :
    ∃ text, SealEnvelope P msg = .ok text ∧
      ∀ pair ∈ headers, ∃ before after, text = before ++ HeaderLine pair.1 pair.2 ++ '\n' :: after ∧
        (before = [] ∨ before.getLast? = some '\n') := by
  have e : ∃ text, SealEnvelope P msg = .ok text := by
    unfold SealEnvelope
    rw [h]
    exact ⟨_, rfl⟩
  obtain ⟨text, ht⟩ := e
  obtain ⟨headers2, h2, hl⟩ := SealEnvelope_line P msg text ht
  rw [h] at h2
  simp only [Outcome.ok.injEq] at h2
  subst h2
  exact ⟨text, ht, hl⟩

/-- C20, counterexample. The message `letter` holds the author `a@x.test` (link
`a3f9ea9d`) before the reader `b@y.test` (link `16efb901`). Its envelope has a
`message-access` line whose first entry carries the link of `b@y.test`, and a
`message-headers` line that seals the content header `readers: a@x.test, b@y.test`. -/
theorem SealEnvelope_readers_out_of_order :
    sample.letter.Readers.map (fun r => (r.Link, r.User.Address)) =
      [("a3f9ea9d".toList, "a@x.test".toList), ("16efb901".toList, "b@y.test".toList)] ∧
    ∃ text before after before2 after2 : Str,
      SealEnvelope sample.prim sample.letter = .ok text ∧
      text = before ++ ("message-access: ".toList ++ sample.letterAccessList) ++ '\n' :: after ∧
      (before = [] ∨ before.getLast? = some '\n') ∧
      text = before2 ++ ("message-headers: ".toList ++ sample.letterHeaders "a@x.test, b@y.test".toList) ++
        '\n' :: after2 ∧
      (before2 = [] ∨ before2.getLast? = some '\n') := by
  refine ⟨by decide, ?_⟩
  have hp : sealedHeaderPairs sample.prim sample.letter = .ok (sample.letterPairs "a@x.test, b@y.test".toList) := by
    set_option maxRecDepth 100000 in
    decide
  obtain ⟨text, ht, hl⟩ := SealEnvelope_returns _ _ _ hp
  obtain ⟨before, after, t1, b1⟩ := hl (HEADER_MESSAGE_ACCESS, sample.letterAccessList) (by simp [sample.letterPairs])
  obtain ⟨before2, after2, t2, b2⟩ := hl (HEADER_MESSAGE_CONTENT_HEADERS, sample.letterHeaders "a@x.test, b@y.test".toList)
    (by simp [sample.letterPairs])
  exact ⟨text, before, after, before2, after2, ht, t1, b1, t2, b2⟩

/-- C20, as amended, at the message `sortedLetter`. -/
theorem SealEnvelope_readers_follow_access_list_witness :
    ∃ text, SealEnvelope sample.prim sample.sortedLetter = .ok text ∧
      sample.sortedLetter.IsBroadcast = false ∧ sample.sortedLetter.Readers.Pairwise linkOrder ∧
      ∃ entries : List user.Reader, ∃ contentHead encryptedHeaders before after before2 after2 : Str,
      entries.map (fun r => (r.Link, r.User)) = sample.sortedLetter.Readers.map (fun r => (r.Link, r.User)) ∧
      text = before ++ HeaderLine HEADER_MESSAGE_ACCESS
        (strings.Join (entries.map envelopeAccessLine) (HEADER_ACCESS_LIST_SEPARATOR ++ " ".toList)) ++
          '\n' :: after ∧
      (before = [] ∨ before.getLast? = some '\n') ∧
      text = before2 ++ HeaderLine HEADER_MESSAGE_CONTENT_HEADERS
        ("algorithm=".toList ++ crypto.SYMMETRIC_CIPHER ++ "; ".toList ++ "value=".toList ++
          sample.prim.base64Encode encryptedHeaders) ++ '\n' :: after2 ∧
      (before2 = [] ∨ before2.getLast? = some '\n') ∧
      crypto.Xchacha20Poly1305Encrypt sample.prim
        (contentHead ++ '\n' :: HeaderLine HEADER_CONTENT_READERS
          (strings.Join (entries.map (fun r => r.User.Address))
            (HEADER_CONTENT_READERS_ADDRESS_SEPARATOR ++ " ".toList)))
        sample.sortedLetter.AccessKey = .ok encryptedHeaders := by
  have hp : sealedHeaderPairs sample.prim sample.sortedLetter = .ok (sample.letterPairs "b@y.test, a@x.test".toList) := by
    set_option maxRecDepth 100000 in
    decide
  obtain ⟨text, ht, _⟩ := SealEnvelope_returns _ _ _ hp
  exact ⟨text, ht, rfl, by decide,
    SealEnvelope_readers_follow_access_list sample.prim sample.sortedLetter text rfl (by decide) ht⟩

/-- C19 at the message `letter`. -/
theorem SealedAccessList_sorted_entries_witness :
    SealedAccessList sample.prim sample.letter = .ok sample.letterAccessList ∧
    ∃ entries : List user.Reader,
      sample.letterAccessList =
        strings.Join (entries.map envelopeAccessLine) (HEADER_ACCESS_LIST_SEPARATOR ++ " ".toList) ∧
      entries.length = sample.letter.Readers.length ∧
      (entries.map (fun r => (r.Link, r.User))).Perm (sample.letter.Readers.map (fun r => (r.Link, r.User))) ∧
      (entries.map (fun r => r.Link)).Pairwise (fun x y => links.strLess y x = false) := by
  have h : SealedAccessList sample.prim sample.letter = .ok sample.letterAccessList := by
    set_option maxRecDepth 100000 in
    decide
  exact ⟨h, SealedAccessList_sorted_entries sample.prim sample.letter sample.letterAccessList h⟩

end message

/-! ### Serving messages -/

namespace server

/-- C13, evaluated. The envelope the server stores for the private message `m7` starts
with the line `Message-Id: m7`, which is shorter than `message-access:`; for a caller
whose link and fingerprint are not in the access list, `LinkFingerprintExistsInAccessList`
fails at run time on that line and so does `getLinkMessage`, instead of answering 401.
An access list with an entry sealed under another algorithm fails at run time too, at
the nil reader. -/
theorem LinkFingerprintExistsInAccessList_fails_at_run_time :
    message.LinkFingerprintExistsInAccessList "0000".toList "ffff".toList sample.storedPrivateEnvelope = .panic ∧
    (getLinkMessage sample.prim
      (sample.storeOf "m7".toList sample.storedPrivateEnvelope "secret".toList)
      "ffff".toList "x.test".toList "a".toList "0000".toList "m7".toList 0).1 = .panic ∧
    message.LinkFingerprintExistsInAccessList "0000".toList "ffff".toList sample.foreignSealEnvelope = .panic := by
  set_option maxRecDepth 100000 in
  decide

/-- C14, evaluated. For the request headers of the private message `m7` the server writes
an envelope with the line `Message-Access: ...`; `ParseEnvelopeData` classifies it as
not broadcast; `getBroadcastMessage` does not answer 404 but serves the envelope headers
and the payload. -/
theorem getBroadcastMessage_serves_private_message :
    ((message.MessageFromHeadersData sample.privateRequestHeaders).bind fun m => .ok (envelopeDump m)) =
      .ok sample.storedPrivateEnvelope ∧
    ((message.ParseEnvelopeData sample.storedPrivateEnvelope).bind fun m => .ok m.IsBroadcast) = .ok false ∧
    getBroadcastMessage (sample.storeOf "m7".toList sample.storedPrivateEnvelope "secret".toList)
      "x.test".toList "a".toList "m7".toList = .ok (.content sample.servedHeaders "secret".toList) := by
  set_option maxRecDepth 100000 in
  decide

end server

/-! ### The message index -/

namespace storage

theorem line_eq (e : IndexEntry) :
    e.line = e.link ++ ',' :: (e.fingerprint ++ ',' :: (e.stream ++ ',' :: e.messageID)) := by
  simp [IndexEntry.line, strings.Join, MESSAGES_INDEX_COLUMN_SEPARATOR]

theorem line_eq_snoc (e : IndexEntry) :
    e.line = (e.link ++ ',' :: (e.fingerprint ++ ',' :: e.stream)) ++ ',' :: e.messageID := by
  rw [line_eq]; simp

theorem not_mem_line (e : IndexEntry) (c : Char) (hc : c ≠ ',') (h1 : c ∉ e.link) (h2 : c ∉ e.fingerprint)
    (h3 : c ∉ e.stream) (h4 : c ∉ e.messageID) : c ∉ e.line := by
  rw [line_eq]
  simp [h1, h2, h3, h4, hc]

theorem wellFormed_line (e : IndexEntry) (h : e.wellFormed) : '\n' ∉ e.line ∧ '\r' ∉ e.line := by
  obtain ⟨⟨_, a1, a2⟩, ⟨_, b1, b2⟩, ⟨_, c1, c2⟩, ⟨_, d1, d2⟩⟩ := h
  exact ⟨not_mem_line e _ (by decide) a1 b1 c1 d1, not_mem_line e _ (by decide) a2 b2 c2 d2⟩

theorem scanLines_indexOf (entries : List IndexEntry) (h : ∀ e ∈ entries, '\n' ∉ e.line) :
    bufio.scanLines (indexOf entries) = bufio.scanTokens (entries.map IndexEntry.line) := by
  unfold bufio.scanLines indexOf
  rw [rawLines_writeLines]
  intro l hl
  obtain ⟨e, he, rfl⟩ := List.mem_map.mp hl
  exact h e he

theorem map_dropCR_lines (entries : List IndexEntry) (h : ∀ e ∈ entries, '\r' ∉ e.line) :
    (entries.map IndexEntry.line).map bufio.dropCR = entries.map IndexEntry.line := by
  rw [List.map_map]
  apply List.map_congr_left
  intro e he
  exact bufio.dropCR_of_not_mem _ (h e he)

/-- What the scanner reads of an index of entries: the lines of the entries when they all
fit the buffer, an error otherwise. -/
theorem scanLines_entries (entries : List IndexEntry)
    (h : ∀ e ∈ entries, '\n' ∉ e.line ∧ '\r' ∉ e.line) :
    ((bufio.scanLines (indexOf entries)).2 = false ∧
      (bufio.scanLines (indexOf entries)).1 = entries.map IndexEntry.line ∧
      ∀ e ∈ entries, bufio.utf8Len e.line < bufio.MaxScanTokenSize) ∨
    ((bufio.scanLines (indexOf entries)).2 = true ∧
      ¬ ∀ e ∈ entries, bufio.utf8Len e.line < bufio.MaxScanTokenSize) := by
  rw [scanLines_indexOf entries (fun e he => (h e he).1)]
  by_cases hs : ∀ e ∈ entries, bufio.utf8Len e.line < bufio.MaxScanTokenSize
  · left
    have hs' : ∀ l ∈ entries.map IndexEntry.line, bufio.utf8Len l < bufio.MaxScanTokenSize := by
      intro l hl
      obtain ⟨e, he, rfl⟩ := List.mem_map.mp hl
      exact hs e he
    rw [bufio.scanTokens_short _ hs', map_dropCR_lines entries (fun e he => (h e he).2)]
    exact ⟨rfl, rfl, hs⟩
  · right
    refine ⟨?_, hs⟩
    cases hb : (bufio.scanTokens (entries.map IndexEntry.line)).2 with
    | true => rfl
    | false =>
      exfalso
      apply hs
      intro e he
      exact bufio.scanTokens_ok _ hb _ (List.mem_map.mpr ⟨e, he, rfl⟩)

theorem HasSuffix_line (e : IndexEntry) (id : Str) (h1 : ',' ∉ e.messageID) (h2 : ',' ∉ id) :
    strings.HasSuffix e.line (MESSAGES_INDEX_COLUMN_SEPARATOR ++ id) = decide (e.messageID = id) := by
  have e1 : (MESSAGES_INDEX_COLUMN_SEPARATOR ++ id).reverse = id.reverse ++ ',' :: [] := by
    simp [MESSAGES_INDEX_COLUMN_SEPARATOR]
  have e2 : e.line.reverse =
      e.messageID.reverse ++ ',' :: (e.link ++ ',' :: (e.fingerprint ++ ',' :: e.stream)).reverse := by
    rw [line_eq_snoc]; simp
  rw [Bool.eq_iff_iff]
  unfold strings.HasSuffix
  rw [List.isPrefixOf_iff_prefix, e1, e2,
    strings.prefix_sep ',' _ _ _ _ (by simpa using h2) (by simpa using h1)]
  simp only [List.nil_prefix, and_true, List.reverse_inj, decide_eq_true_eq]
  exact eq_comm

theorem keptIndexLines_entries (entries : List IndexEntry) (id : Str)
    (h : ∀ e ∈ entries, ',' ∉ e.messageID) (hid : ',' ∉ id) :
    keptIndexLines id (entries.map IndexEntry.line) =
      (entries.filter (fun e => e.messageID ≠ id)).map IndexEntry.line := by
  unfold keptIndexLines
  rw [List.filter_map]
  congr 1
  apply List.filter_congr
  intro e he
  simp [Function.comp_def, HasSuffix_line e id (h e he) hid]

end storage

namespace utils

theorem StringIsAlphaNumeric_not_mem (s : Str) (h : StringIsAlphaNumeric s = true) (c : Char)
    (hc : c.toNat < 48 ∨ (57 < c.toNat ∧ c.toNat < 65) ∨ (90 < c.toNat ∧ c.toNat < 97) ∨ 122 < c.toNat) :
    c ∉ s := by
  intro hm
  have := StringIsAlphaNumeric_mem s h c hm
  omega

end utils

namespace storage

theorem alphaNumeric_columnText (s : Str) (h : utils.StringIsAlphaNumeric s = true) : columnText s :=
  ⟨utils.StringIsAlphaNumeric_not_mem s h ',' (by decide),
   utils.StringIsAlphaNumeric_not_mem s h '\n' (by decide),
   utils.StringIsAlphaNumeric_not_mem s h '\r' (by decide)⟩

/-- C16, amended. For an index made of four-column lines whose columns hold neither the
separator nor a line end, and an alphanumeric message identifier: when
`RemoveMessageFromIndex(home, id)` succeeds, the index holds the lines of the entries
whose message-id column differs from `id`, unchanged and in their order, and no other
line; and it succeeds when every line fits the scanner's buffer. -/
theorem RemoveMessageFromIndex_removes_exactly (home : Home) (entries : List IndexEntry) (messageID : Str)
    (hindex : home.index = some (indexOf entries))
    (hwf : ∀ e ∈ entries, e.wellFormed)
    (hid : utils.StringIsAlphaNumeric messageID = true) :
    (∀ home2, RemoveMessageFromIndex home messageID = (.ok (), home2) →
      home2.index = some (indexOf (entries.filter (fun e => e.messageID ≠ messageID)))) ∧
    ((∀ e ∈ entries, bufio.utf8Len e.line < bufio.MaxScanTokenSize) →
      (RemoveMessageFromIndex home messageID).1 = .ok ()) := by
  have hl : ∀ e ∈ entries, '\n' ∉ e.line ∧ '\r' ∉ e.line := fun e he => wellFormed_line e (hwf e he)
  have hc : ∀ e ∈ entries, ',' ∉ e.messageID := fun e he => (hwf e he).2.2.2.1
  have hidc : ',' ∉ messageID := (alphaNumeric_columnText messageID hid).1
  unfold RemoveMessageFromIndex
  rw [hindex]
  rcases scanLines_entries entries hl with ⟨h2, h1, hs⟩ | ⟨h2, hs⟩
  · simp only [h2, h1, Bool.false_eq_true, if_false]
    refine ⟨?_, fun _ => trivial⟩
    intro home2 h
    simp only [Prod.mk.injEq, true_and] at h
    rw [← h, keptIndexLines_entries entries messageID hc hidc]
    rfl
  · simp only [h2, if_true]
    refine ⟨?_, fun h => absurd h hs⟩
    intro home2 h
    simp at h

end storage

namespace strings

theorem isSpace_toNat (c : Char) (h : isSpace c = true) : c.toNat ≤ 32 ∨ 133 ≤ c.toNat := by
  simp only [isSpace, Bool.or_eq_true, Bool.and_eq_true, decide_eq_true_eq, beq_iff_eq] at h
  omega

theorem TrimSpace_of_noSpace (s : Str) (h : ∀ c ∈ s, isSpace c = false) : TrimSpace s = s := by
  apply TrimSpace_eq_self
  · intro c hc
    exact h c (List.mem_of_mem_head? hc)
  · intro c hc
    exact h c (List.mem_of_getLast?_eq_some hc)

end strings

namespace storage

theorem alphaNumeric_noSpace (s : Str) (h : utils.StringIsAlphaNumeric s = true) :
    ∀ c ∈ s, strings.isSpace c = false := by
  intro c hc
  have hb := utils.StringIsAlphaNumeric_mem s h c hc
  cases hsp : strings.isSpace c with
  | false => rfl
  | true =>
    have := strings.isSpace_toNat c hsp
    omega

theorem plainColumn_noSpace (s : Str) (h : plainColumn s) : ∀ c ∈ s, strings.isSpace c = false := by
  rcases h with h | h
  · rw [h]; intro c hc; cases hc
  · exact alphaNumeric_noSpace s h

theorem plainColumn_columnText (s : Str) (h : plainColumn s) : columnText s := by
  rcases h with h | h
  · rw [h]; simp [columnText]
  · exact alphaNumeric_columnText s h

theorem plain_wellFormed (e : IndexEntry) (h : e.plain) : e.wellFormed :=
  ⟨plainColumn_columnText _ h.1, plainColumn_columnText _ h.2.1, plainColumn_columnText _ h.2.2.1,
   alphaNumeric_columnText _ h.2.2.2⟩

theorem noSpace_line (e : IndexEntry) (h1 : ∀ c ∈ e.link, strings.isSpace c = false)
    (h2 : ∀ c ∈ e.fingerprint, strings.isSpace c = false) (h3 : ∀ c ∈ e.stream, strings.isSpace c = false)
    (h4 : ∀ c ∈ e.messageID, strings.isSpace c = false) : ∀ c ∈ e.line, strings.isSpace c = false := by
  intro c hc
  rw [line_eq] at hc
  simp only [List.mem_append, List.mem_cons] at hc
  rcases hc with hc | hc | hc | hc | hc | hc | hc
  · exact h1 c hc
  · rw [hc]; decide
  · exact h2 c hc
  · rw [hc]; decide
  · exact h3 c hc
  · rw [hc]; decide
  · exact h4 c hc

theorem target_eq (link fp stream : Str) :
    strings.Join [link, fp, stream, []] MESSAGES_INDEX_COLUMN_SEPARATOR =
      link ++ ',' :: (fp ++ ',' :: (stream ++ ',' :: [])) := by
  simp [strings.Join, MESSAGES_INDEX_COLUMN_SEPARATOR]

theorem HasPrefix_line (e : IndexEntry) (link fp stream : Str)
    (h1 : ',' ∉ e.link) (h2 : ',' ∉ e.fingerprint) (h3 : ',' ∉ e.stream)
    (g1 : ',' ∉ link) (g2 : ',' ∉ fp) (g3 : ',' ∉ stream) :
    strings.HasPrefix e.line (strings.Join [link, fp, stream, []] MESSAGES_INDEX_COLUMN_SEPARATOR) =
      decide (e.link = link ∧ e.fingerprint = fp ∧ e.stream = stream) := by
  rw [Bool.eq_iff_iff]
  unfold strings.HasPrefix
  rw [List.isPrefixOf_iff_prefix, target_eq, line_eq, strings.prefix_sep ',' _ _ _ _ g1 h1,
    strings.prefix_sep ',' _ _ _ _ g2 h2, strings.prefix_sep ',' _ _ _ _ g3 h3]
  simp only [List.nil_prefix, and_true, decide_eq_true_eq]
  constructor
  · rintro ⟨a, b, c⟩; exact ⟨a.symm, b.symm, c.symm⟩
  · rintro ⟨a, b, c⟩; exact ⟨a.symm, b.symm, c.symm⟩

theorem drop_target (e : IndexEntry) :
    e.line.drop (strings.Join [e.link, e.fingerprint, e.stream, []] MESSAGES_INDEX_COLUMN_SEPARATOR).length =
      e.messageID := by
  have : e.line = strings.Join [e.link, e.fingerprint, e.stream, []] MESSAGES_INDEX_COLUMN_SEPARATOR ++ e.messageID := by
    rw [target_eq, line_eq]; simp
  rw [this, List.drop_left]

theorem filterLines_entries (entries : List IndexEntry) (link fp stream : Str)
    (hplain : ∀ e ∈ entries, e.plain)
    (hl : plainColumn link) (hf : plainColumn fp) (hs : plainColumn stream) :
    utils.filterLines (strings.Join [link, fp, stream, []] MESSAGES_INDEX_COLUMN_SEPARATOR)
        (entries.map IndexEntry.line) =
      (entries.filter (fun e => e.link = link ∧ e.fingerprint = fp ∧ e.stream = stream)).map
        (fun e => e.messageID) := by
  induction entries with
  | nil => rfl
  | cons e rest ih =>
    have hp := hplain e (List.mem_cons_self _ _)
    have ih' := ih (fun x hx => hplain x (List.mem_cons_of_mem _ hx))
    have htrim : strings.TrimSpace e.line = e.line :=
      strings.TrimSpace_of_noSpace _ (noSpace_line e (plainColumn_noSpace _ hp.1) (plainColumn_noSpace _ hp.2.1)
        (plainColumn_noSpace _ hp.2.2.1) (alphaNumeric_noSpace _ hp.2.2.2))
    have hpre := HasPrefix_line e link fp stream (plainColumn_columnText _ hp.1).1
      (plainColumn_columnText _ hp.2.1).1 (plainColumn_columnText _ hp.2.2.1).1
      (plainColumn_columnText _ hl).1 (plainColumn_columnText _ hf).1 (plainColumn_columnText _ hs).1
    simp only [List.map_cons, utils.filterLines, htrim, hpre, ih']
    by_cases hm : e.link = link ∧ e.fingerprint = fp ∧ e.stream = stream
    · have hid : strings.TrimSpace e.messageID = e.messageID :=
        strings.TrimSpace_of_noSpace _ (alphaNumeric_noSpace _ hp.2.2.2)
      have hne : e.messageID ≠ [] := by
        intro h0
        have := hp.2.2.2
        rw [h0] at this
        exact absurd this (by decide)
      have hd := drop_target e
      rw [hm.1, hm.2.1, hm.2.2] at hd
      simp only [hm, and_self, decide_True, if_true, hd, hid, hne, if_false, List.filter_cons_of_pos,
        List.map_cons]
    · simp [hm]

theorem target_trimmed (link fp stream : Str)
    (hl : plainColumn link) (hf : plainColumn fp) (hs : plainColumn stream) :
    strings.TrimSpace (strings.Join [link, fp, stream, []] MESSAGES_INDEX_COLUMN_SEPARATOR) =
      strings.Join [link, fp, stream, []] MESSAGES_INDEX_COLUMN_SEPARATOR ∧
    strings.Join [link, fp, stream, []] MESSAGES_INDEX_COLUMN_SEPARATOR ≠ [] := by
  have e : strings.Join [link, fp, stream, []] MESSAGES_INDEX_COLUMN_SEPARATOR =
      IndexEntry.line { link := link, fingerprint := fp, stream := stream, messageID := [] } := rfl
  constructor
  · rw [e]
    apply strings.TrimSpace_of_noSpace
    apply noSpace_line
    · exact plainColumn_noSpace _ hl
    · exact plainColumn_noSpace _ hf
    · exact plainColumn_noSpace _ hs
    · intro c hc; cases hc
  · rw [target_eq]; simp

/-- What `FilterMessagesIndex` returns for an index of plain entries. -/
theorem FilterMessagesIndex_entries (home : Home) (entries : List IndexEntry) (link fp stream : Str)
    (hindex : home.index = some (indexOf entries))
    (hplain : ∀ e ∈ entries, e.plain)
    (hl : plainColumn link) (hf : plainColumn fp) (hs : plainColumn stream) :
    ((∀ e ∈ entries, bufio.utf8Len e.line < bufio.MaxScanTokenSize) →
      FilterMessagesIndex home link fp stream = .ok
        ((entries.filter (fun e => e.link = link ∧ e.fingerprint = fp ∧ e.stream = stream ∧
          MessageExists home e.messageID = true)).map (fun e => e.messageID))) ∧
    ((¬ ∀ e ∈ entries, bufio.utf8Len e.line < bufio.MaxScanTokenSize) →
      FilterMessagesIndex home link fp stream = .error "bufio.Scanner: token too long") := by
  have hlines : ∀ e ∈ entries, '\n' ∉ e.line ∧ '\r' ∉ e.line :=
    fun e he => wellFormed_line e (plain_wellFormed e (hplain e he))
  obtain ⟨ht, hne⟩ := target_trimmed link fp stream hl hf hs
  have hfilter : FilterMessagesIndex home link fp stream =
      match (if (bufio.scanLines (indexOf entries)).2 then Outcome.error "bufio.Scanner: token too long"
        else Outcome.ok (utils.filterLines (strings.Join [link, fp, stream, []] MESSAGES_INDEX_COLUMN_SEPARATOR)
          (bufio.scanLines (indexOf entries)).1)) with
      | .ok messageIDs => .ok (messageIDs.filter (fun messageID => MessageExists home messageID))
      | .error e => .error e
      | .panic => .panic := by
    unfold FilterMessagesIndex utils.FilterFileByPrefix
    simp only [ht, hne, if_false, hindex]
  rw [hfilter]
  rcases scanLines_entries entries hlines with ⟨h2, h1, hshort⟩ | ⟨h2, hlong⟩
  · refine ⟨fun _ => ?_, fun h => absurd hshort h⟩
    simp only [h2, h1, Bool.false_eq_true, if_false, filterLines_entries entries link fp stream hplain hl hf hs]
    congr 1
    rw [List.filter_map, List.filter_filter]
    congr 1
    apply List.filter_congr
    intro e _
    simp only [Function.comp_def, Bool.decide_and, Bool.decide_eq_true]
    cases MessageExists home e.messageID <;> cases decide (e.link = link) <;>
      cases decide (e.fingerprint = fp) <;> cases decide (e.stream = stream) <;> rfl
  · refine ⟨fun h => absurd h hlong, fun _ => ?_⟩
    simp only [h2, if_true]

end storage
namespace storage

/-- C11. For an index of entries with plain columns (hexadecimal links and fingerprints,
alphanumeric or empty streams) and alphanumeric identifiers, and plain filters: every
identifier that `FilterMessagesIndex(home, link, fp, stream)` returns is the message-id
column of an entry whose link column equals `link`, whose fingerprint column equals `fp`
and, when `stream` is not empty, whose stream column equals `stream`; an identifier that
only entries of another link or another fingerprint carry is not returned. -/
theorem FilterMessagesIndex_sound (home : Home) (entries : List IndexEntry) (link fp stream : Str)
    (ids : List Str)
    (hindex : home.index = some (indexOf entries))
    (hplain : ∀ e ∈ entries, e.plain)
    (hl : plainColumn link) (hf : plainColumn fp) (hs : plainColumn stream)
    (h : FilterMessagesIndex home link fp stream = .ok ids) :
    (∀ id ∈ ids, ∃ e ∈ entries, e.messageID = id ∧ e.link = link ∧ e.fingerprint = fp ∧
      (stream ≠ [] → e.stream = stream)) ∧
    (∀ id, (∀ e ∈ entries, e.messageID = id → e.link ≠ link ∨ e.fingerprint ≠ fp) → id ∉ ids) := by
  obtain ⟨h1, h2⟩ := FilterMessagesIndex_entries home entries link fp stream hindex hplain hl hf hs
  have key : ∀ id ∈ ids, ∃ e ∈ entries, e.messageID = id ∧ e.link = link ∧ e.fingerprint = fp ∧
      e.stream = stream := by
    by_cases hshort : ∀ e ∈ entries, bufio.utf8Len e.line < bufio.MaxScanTokenSize
    · rw [h1 hshort] at h
      simp only [Outcome.ok.injEq] at h
      intro id hid
      rw [← h] at hid
      obtain ⟨e, he, rfl⟩ := List.mem_map.mp hid
      rw [List.mem_filter] at he
      obtain ⟨hmem, hcond⟩ := he
      simp only [decide_eq_true_eq] at hcond
      exact ⟨e, hmem, rfl, hcond.1, hcond.2.1, hcond.2.2.1⟩
    · rw [h2 hshort] at h
      simp at h
  constructor
  · intro id hid
    obtain ⟨e, he, a, b, c, d⟩ := key id hid
    exact ⟨e, he, a, b, c, fun _ => d⟩
  · intro id hno hid
    obtain ⟨e, he, a, b, c, _⟩ := key id hid
    rcases hno e he a with g | g
    · exact g b
    · exact g c

/-- C11 at the index of `indexedHome`, filtered by `ab12`, `cd34` and `news`. -/
theorem FilterMessagesIndex_sound_witness :
    FilterMessagesIndex sample.indexedHome "ab12".toList "cd34".toList "news".toList = .ok ["m1".toList] ∧
    (∀ id ∈ ["m1".toList], ∃ e ∈ sample.indexEntries, e.messageID = id ∧ e.link = "ab12".toList ∧
      e.fingerprint = "cd34".toList ∧ ("news".toList ≠ [] → e.stream = "news".toList)) ∧
    (∀ id, (∀ e ∈ sample.indexEntries, e.messageID = id → e.link ≠ "ab12".toList ∨
      e.fingerprint ≠ "cd34".toList) → id ∉ ["m1".toList]) := by
  have h : FilterMessagesIndex sample.indexedHome "ab12".toList "cd34".toList "news".toList =
      .ok ["m1".toList] := by
    set_option maxRecDepth 100000 in
    decide
  exact ⟨h, FilterMessagesIndex_sound sample.indexedHome sample.indexEntries "ab12".toList "cd34".toList
    "news".toList ["m1".toList] rfl (by decide) (by decide) (by decide) (by decide) h⟩

/-- C12, as amended. For an index of plain entries whose lines fit the scanner's buffer,
`FilterMessagesIndex(home, link, fp, stream)` returns, in the order of the index, the
identifiers of the entries whose link, fingerprint and stream columns equal `link`, `fp`
and `stream` and whose message directory exists. This holds for the empty stream filter
as well: it selects the entries whose stream column is empty, and no entry of a stream. -/
theorem FilterMessagesIndex_matches_stream_column (home : Home) (entries : List IndexEntry)
    (link fp stream : Str)
    (hindex : home.index = some (indexOf entries))
    (hplain : ∀ e ∈ entries, e.plain)
    (hl : plainColumn link) (hf : plainColumn fp) (hs : plainColumn stream)
    (hshort : ∀ e ∈ entries, bufio.utf8Len e.line < bufio.MaxScanTokenSize) :
    FilterMessagesIndex home link fp stream = .ok
      ((entries.filter (fun e => e.link = link ∧ e.fingerprint = fp ∧ e.stream = stream ∧
        MessageExists home e.messageID = true)).map (fun e => e.messageID)) :=
  (FilterMessagesIndex_entries home entries link fp stream hindex hplain hl hf hs).1 hshort

/-- C12, as amended, at the index of `indexedHome` and the empty stream filter. -/
theorem FilterMessagesIndex_matches_stream_column_witness :
    FilterMessagesIndex sample.indexedHome "ab12".toList "cd34".toList [] = .ok
      ((sample.indexEntries.filter (fun e => e.link = "ab12".toList ∧ e.fingerprint = "cd34".toList ∧
        e.stream = [] ∧ MessageExists sample.indexedHome e.messageID = true)).map (fun e => e.messageID)) :=
  FilterMessagesIndex_matches_stream_column sample.indexedHome sample.indexEntries "ab12".toList
    "cd34".toList [] rfl (by decide) (by decide) (by decide) (by decide) (by decide)

/-- C12, counterexample. The index holds `ab12,cd34,news,m1` and `ab12,cd34,,m2` and both
message directories exist; the empty stream filter returns `m2` only, in
`FilterMessagesIndex` and in `listLinkMessages`, and the filter `news` returns `m1`. -/
theorem FilterMessagesIndex_empty_stream_is_a_column :
    sample.indexedHome.index = some "ab12,cd34,news,m1\nab12,cd34,,m2\nab12,ee56,news,m3\n".toList ∧
    MessageExists sample.indexedHome "m1".toList = true ∧
    MessageExists sample.indexedHome "m2".toList = true ∧
    FilterMessagesIndex sample.indexedHome "ab12".toList "cd34".toList [] = .ok ["m2".toList] ∧
    FilterMessagesIndex sample.indexedHome "ab12".toList "cd34".toList "news".toList = .ok ["m1".toList] ∧
    server.listLinkMessages (sample.storeOfHome sample.indexedHome) "cd34".toList "x.test".toList "a".toList
      "ab12".toList [] = .ok ["m2".toList] := by
  set_option maxRecDepth 100000 in
  decide

/-- C16, amended, at the index of `indexedHome` and the identifier `m1`. -/
theorem RemoveMessageFromIndex_removes_exactly_witness :
    (RemoveMessageFromIndex sample.indexedHome "m1".toList).1 = .ok () ∧
    (RemoveMessageFromIndex sample.indexedHome "m1".toList).2.index =
      some (indexOf (sample.indexEntries.filter (fun e => e.messageID ≠ "m1".toList))) := by
  have h := RemoveMessageFromIndex_removes_exactly sample.indexedHome sample.indexEntries "m1".toList rfl
    (by decide) (by decide)
  have h1 := h.2 (by decide)
  exact ⟨h1, h.1 _ (Prod.ext h1 rfl)⟩

end storage

/-! ### Writing the index -/

namespace utils

theorem prefixInLines_of_mem (target l : Str) (ls : List Str) (hl : l ∈ ls)
    (h : strings.HasPrefix (strings.TrimSpace l) target = true) : prefixInLines target ls = true := by
  induction ls with
  | nil => cases hl
  | cons a rest ih =>
    rcases List.mem_cons.mp hl with e | e
    · subst e; simp [prefixInLines, h]
    · simp only [prefixInLines]
      by_cases ha : strings.HasPrefix (strings.TrimSpace a) target = true
      · simp [ha]
      · simp only [ha]; exact ih e

theorem AppendStringToFile_line (line : Str) (file : Option Str) (h : '\n' ∉ line) :
    AppendStringToFile line file = file.getD [] ++ (line ++ ['\n']) := by
  have hs : strings.HasSuffix line ['\n'] = false := by
    cases hb : strings.HasSuffix line ['\n'] with
    | false => rfl
    | true =>
      exfalso
      unfold strings.HasSuffix at hb
      rw [List.isPrefixOf_iff_prefix] at hb
      obtain ⟨t, ht⟩ := hb
      apply h
      have : '\n' ∈ line.reverse := by rw [← ht]; simp
      simpa using this
  unfold AppendStringToFile
  cases file <;> simp [hs]

theorem PrefixExistsInFile_false_inv (target : Str) (file : Option Str)
    (h : PrefixExistsInFile target file = .ok false) :
    prefixInLines target (bufio.scanLines (file.getD [])).1 = false ∧
      (bufio.scanLines (file.getD [])).2 = false := by
  cases file with
  | none => exact ⟨rfl, rfl⟩
  | some data =>
    simp only [PrefixExistsInFile, Option.getD_some] at h ⊢
    by_cases h1 : prefixInLines target (bufio.scanLines data).1 = true
    · simp [h1] at h
    · by_cases h2 : (bufio.scanLines data).2 = true
      · simp [h1, h2] at h
      · exact ⟨by simpa using h1, by simpa using h2⟩

/-- After a trimmed line was appended to a file of complete lines in which no line started
with it, `PrefixExistsInFile` finds it, or stops at a line that does not fit the buffer. -/
theorem PrefixExistsInFile_after_append (line : Str) (file : Option Str)
    (hcomplete : file.getD [] = [] ∨ (file.getD []).getLast? = some '\n')
    (htrim : strings.TrimSpace line = line) (hfeed : '\n' ∉ line)
    (h : PrefixExistsInFile line file = .ok false) :
    PrefixExistsInFile line (some (AppendStringToFile line file)) ≠ .ok false := by
  obtain ⟨h1, h2⟩ := PrefixExistsInFile_false_inv line file h
  rw [AppendStringToFile_line line file hfeed]
  have hraw : bufio.rawLines (file.getD [] ++ (line ++ ['\n'])) = bufio.rawLines (file.getD []) ++ [line] := by
    rw [bufio.rawLines_append _ _ hcomplete]
    have := bufio.rawLines_line line [] hfeed
    simp only [bufio.rawLines] at this
    rw [this]
  have hscan : bufio.scanLines (file.getD [] ++ (line ++ ['\n'])) =
      ((bufio.scanLines (file.getD [])).1 ++ (bufio.scanTokens [line]).1, (bufio.scanTokens [line]).2) := by
    unfold bufio.scanLines
    rw [hraw]
    exact bufio.scanTokens_append _ _ h2
  unfold PrefixExistsInFile
  simp only [hscan]
  by_cases hshort : bufio.utf8Len line < bufio.MaxScanTokenSize
  · have ht : bufio.scanTokens [line] = ([line], false) := by
      simp [bufio.scanTokens, hshort, bufio.dropCR_of_trimmed line htrim]
    rw [ht, prefixInLines_append]
    have : prefixInLines line [line] = true := by
      simp [prefixInLines, htrim, strings.HasPrefix]
    simp [this]
  · have ht : bufio.scanTokens [line] = ([], true) := by
      simp [bufio.scanTokens, hshort]
    rw [ht]
    simp [h1]

end utils

namespace storage

theorem WriteMessageIndex_eq (home : Home) (e : IndexEntry) :
    WriteMessageIndex home e.link e.fingerprint e.stream e.messageID =
      match utils.PrefixExistsInFile e.line home.index with
      | .ok true => (.ok (), home)
      | .ok false => (.ok (), { home with index := some (utils.AppendStringToFile e.line home.index) })
      | .error err => (.error err, home)
      | .panic => (.panic, home) := rfl

theorem PrefixExistsInFile_ne_panic (target : Str) (file : Option Str) :
    utils.PrefixExistsInFile target file ≠ .panic := by
  unfold utils.PrefixExistsInFile
  cases file with
  | none => simp
  | some data => simp only; split_ifs <;> simp

theorem WriteMessageIndex_twice (home : Home) (e : IndexEntry)
    (hcomplete : completeLines home.index) (he : e.trimmed) :
    (WriteMessageIndex (WriteMessageIndex home e.link e.fingerprint e.stream e.messageID).2
        e.link e.fingerprint e.stream e.messageID).2 =
      (WriteMessageIndex home e.link e.fingerprint e.stream e.messageID).2 := by
  have hc : home.index.getD [] = [] ∨ (home.index.getD []).getLast? = some '\n' := by
    cases hi : home.index with
    | none => left; rfl
    | some data => exact hcomplete data hi
  cases hr : utils.PrefixExistsInFile e.line home.index with
  | ok b =>
    cases b with
    | true =>
      have e1 : WriteMessageIndex home e.link e.fingerprint e.stream e.messageID = (.ok (), home) := by
        rw [WriteMessageIndex_eq, hr]
      rw [e1]
      simp only
      rw [e1]
    | false =>
      have e1 : WriteMessageIndex home e.link e.fingerprint e.stream e.messageID =
          (.ok (), { home with index := some (utils.AppendStringToFile e.line home.index) }) := by
        rw [WriteMessageIndex_eq, hr]
      rw [e1]
      simp only
      have hne := utils.PrefixExistsInFile_after_append e.line home.index hc he.1 he.2 hr
      rw [WriteMessageIndex_eq]
      simp only
      cases hr2 : utils.PrefixExistsInFile e.line (some (utils.AppendStringToFile e.line home.index)) with
      | ok b2 =>
        cases b2 with
        | true => rfl
        | false => exact absurd hr2 hne
      | error err => rfl
      | panic => rfl
  | error err =>
    have e1 : WriteMessageIndex home e.link e.fingerprint e.stream e.messageID = (.error err, home) := by
      rw [WriteMessageIndex_eq, hr]
    rw [e1]
    simp only
    rw [e1]
  | panic =>
    have e1 : WriteMessageIndex home e.link e.fingerprint e.stream e.messageID = (.panic, home) := by
      rw [WriteMessageIndex_eq, hr]
    rw [e1]
    simp only
    rw [e1]


/-- The index holds complete lines without repetition, each of them trimmed. -/
theorem WriteMessageIndex_keeps_distinct (home : Home) (e : IndexEntry) (ls : List Str)
    (hls : home.index.getD [] = writeLines ls) (hnodup : ls.Nodup)
    (htrim : ∀ l ∈ ls, strings.TrimSpace l = l ∧ '\n' ∉ l) (he : e.trimmed) :
    ∃ ls2 : List Str,
      (WriteMessageIndex home e.link e.fingerprint e.stream e.messageID).2.index.getD [] = writeLines ls2 ∧
      ls2.Nodup ∧ ∀ l ∈ ls2, strings.TrimSpace l = l ∧ '\n' ∉ l := by
  rw [WriteMessageIndex_eq]
  cases hr : utils.PrefixExistsInFile e.line home.index with
  | ok b =>
    cases b with
    | true => exact ⟨ls, hls, hnodup, htrim⟩
    | false =>
      refine ⟨ls ++ [e.line], ?_, ?_, ?_⟩
      · simp only [Option.getD_some]
        rw [utils.AppendStringToFile_line e.line home.index he.2, hls, writeLines_append]
        simp [writeLines]
      · rw [List.nodup_append]
        refine ⟨hnodup, List.nodup_singleton _, ?_⟩
        intro l hl hl2
        rw [List.mem_singleton] at hl2
        subst hl2
        obtain ⟨h1, h2⟩ := utils.PrefixExistsInFile_false_inv _ _ hr
        rw [hls] at h1 h2
        unfold bufio.scanLines at h1 h2
        rw [rawLines_writeLines ls (fun x hx => (htrim x hx).2)] at h1 h2
        have hshort := bufio.scanTokens_ok ls h2
        rw [bufio.scanTokens_short ls hshort] at h1
        have hmap : ls.map bufio.dropCR = ls := by
          conv => rhs; rw [← List.map_id ls]
          apply List.map_congr_left
          intro x hx
          exact bufio.dropCR_of_trimmed x (htrim x hx).1
        simp only [hmap] at h1
        have := utils.prefixInLines_of_mem e.line e.line ls hl (by simp [he.1, strings.HasPrefix])
        rw [this] at h1
        exact absurd h1 (by decide)
      · intro l hl
        rcases List.mem_append.mp hl with h | h
        · exact htrim l h
        · rw [List.mem_singleton] at h; subst h; exact he
  | error err => exact ⟨ls, hls, hnodup, htrim⟩
  | panic => exact ⟨ls, hls, hnodup, htrim⟩

theorem writeAll_keeps_distinct (entries : List IndexEntry) (home : Home) (ls : List Str)
    (hls : home.index.getD [] = writeLines ls) (hnodup : ls.Nodup)
    (htrim : ∀ l ∈ ls, strings.TrimSpace l = l ∧ '\n' ∉ l) (hall : ∀ e ∈ entries, e.trimmed) :
    ∃ ls2 : List Str, (writeAll entries home).index.getD [] = writeLines ls2 ∧ ls2.Nodup ∧
      ∀ l ∈ ls2, strings.TrimSpace l = l ∧ '\n' ∉ l := by
  induction entries generalizing home ls with
  | nil => exact ⟨ls, hls, hnodup, htrim⟩
  | cons e rest ih =>
    obtain ⟨ls2, a, b, c⟩ := WriteMessageIndex_keeps_distinct home e ls hls hnodup htrim
      (hall e (List.mem_cons_self _ _))
    exact ih _ ls2 a b c (fun x hx => hall x (List.mem_cons_of_mem _ hx))

/-- C15, as amended. For every index made of complete lines and every tuple whose line
`link,fingerprint,stream,message-id` has no white space at either end and no line feed,
a second call of `WriteMessageIndex` with the same tuple leaves the home, and so the
index file, as the first call left it; and an index built from the empty file by calls
of `WriteMessageIndex` with such tuples holds no two equal lines. -/
theorem WriteMessageIndex_idempotent (home start : Home) (e : IndexEntry) (entries : List IndexEntry)
    (hcomplete : completeLines home.index) (he : e.trimmed)
    (hstart : start.index = none ∨ start.index = some [])
    (hall : ∀ x ∈ entries, x.trimmed) :
    (WriteMessageIndex (WriteMessageIndex home e.link e.fingerprint e.stream e.messageID).2
        e.link e.fingerprint e.stream e.messageID).2 =
      (WriteMessageIndex home e.link e.fingerprint e.stream e.messageID).2 ∧
    (bufio.rawLines ((writeAll entries start).index.getD [])).Nodup := by
  refine ⟨WriteMessageIndex_twice home e hcomplete he, ?_⟩
  have h0 : start.index.getD [] = writeLines [] := by
    rcases hstart with h | h <;> rw [h] <;> rfl
  obtain ⟨ls2, a, b, c⟩ := writeAll_keeps_distinct entries start [] h0 List.nodup_nil
    (fun l hl => by cases hl) hall
  rw [a, rawLines_writeLines ls2 (fun x hx => (c x hx).2)]
  exact b

/-- C15, as amended, at the index of `indexedHome` and the tuple `(ab12, cd34, no stream,
m9)`, and for the calls with `plainEntry`, `newsEntry` and `plainEntry` again, which
build the index `ab12,cd34,,m9` and `ab12,cd34,news,m8`. -/
theorem WriteMessageIndex_idempotent_witness :
    (writeAll [sample.plainEntry, sample.newsEntry, sample.plainEntry] {}).index =
      some "ab12,cd34,,m9\nab12,cd34,news,m8\n".toList ∧
    (WriteMessageIndex (WriteMessageIndex sample.indexedHome sample.plainEntry.link
        sample.plainEntry.fingerprint sample.plainEntry.stream sample.plainEntry.messageID).2
        sample.plainEntry.link sample.plainEntry.fingerprint sample.plainEntry.stream
        sample.plainEntry.messageID).2 =
      (WriteMessageIndex sample.indexedHome sample.plainEntry.link sample.plainEntry.fingerprint
        sample.plainEntry.stream sample.plainEntry.messageID).2 ∧
    (bufio.rawLines ((writeAll [sample.plainEntry, sample.newsEntry, sample.plainEntry]
      {}).index.getD [])).Nodup := by
  refine ⟨?_, WriteMessageIndex_idempotent sample.indexedHome {} sample.plainEntry
    [sample.plainEntry, sample.newsEntry, sample.plainEntry] (by decide) (by decide) (Or.inl rfl)
    (by decide)⟩
  set_option maxRecDepth 100000 in
  decide

/-- C15, counterexample. A tuple whose message identifier ends with a blank is written
again by the second call, because the scanned lines are trimmed and the searched line is
not: the index then holds two equal lines. The same happens for a tuple that holds a
line feed, and for a plain tuple when the index ends with an incomplete line. -/
theorem WriteMessageIndex_repeats_line :
    (writeAll [sample.blankEntry] {}).index = some "ab12,cd34,,m9 \n".toList ∧
    (writeAll [sample.blankEntry, sample.blankEntry] {}).index =
      some "ab12,cd34,,m9 \nab12,cd34,,m9 \n".toList ∧
    (writeAll [sample.feedEntry] {}).index = some "ab12,cd34,,m9\nzz\n".toList ∧
    (writeAll [sample.feedEntry, sample.feedEntry] {}).index =
      some "ab12,cd34,,m9\nzz\nab12,cd34,,m9\nzz\n".toList ∧
    (writeAll [sample.plainEntry] { index := some "x".toList }).index = some "xab12,cd34,,m9\n".toList ∧
    (writeAll [sample.plainEntry, sample.plainEntry] { index := some "x".toList }).index =
      some "xab12,cd34,,m9\nab12,cd34,,m9\n".toList := by
  set_option maxRecDepth 100000 in
  decide

end storage

/-! ### Authoring a message -/

namespace strings

theorem Join_mem (ls : List Str) (x sep : Str) (hx : x ∈ ls) :
    ∃ before after, Join ls sep = before ++ x ++ after := by
  induction ls with
  | nil => cases hx
  | cons a rest ih =>
    cases rest with
    | nil =>
      rcases List.mem_cons.mp hx with e | e
      · exact ⟨[], [], by simp [Join, e]⟩
      · cases e
    | cons b rest' =>
      rcases List.mem_cons.mp hx with e | e
      · exact ⟨[], sep ++ Join (b :: rest') sep, by simp [Join, e]⟩
      · obtain ⟨before, after, h⟩ := ih e
        exact ⟨a ++ sep ++ before, after, by rw [Join, h]; simp⟩

end strings

namespace message

theorem NewMessage_ok (P : Prim) (keyring : keys.Keyring) (authorEmailAddress : Str) (msg : Message)
    (h : NewMessage P keyring authorEmailAddress = .ok msg) :
    msg.Readers = [user.AsReader P msg.Author] ∧ msg.IsBroadcast = true ∧ msg.PayloadCipher = none := by
  unfold NewMessage at h
  cases hp : address.ParseEmailAddress authorEmailAddress with
  | ok parsed =>
    obtain ⟨addr, domain, localPart⟩ := parsed
    rw [hp] at h
    simp only at h
    cases hu : user.LocalUser P keyring addr with
    | ok author =>
      rw [hu] at h
      simp only at h
      cases hi : utils.NewMessageID P domain localPart with
      | ok messageId =>
        rw [hi] at h
        simp only [Outcome.ok.injEq] at h
        rw [← h]
        exact ⟨rfl, rfl, rfl⟩
      | error e => rw [hi] at h; simp at h
      | panic => rw [hi] at h; simp at h
    | error e => rw [hu] at h; simp at h
    | panic => rw [hu] at h; simp at h
  | error e => rw [hp] at h; simp at h
  | panic => rw [hp] at h; simp at h

theorem AddReader_ok (P : Prim) (keyring : keys.Keyring) (msg msg2 : Message) (addr : Str)
    (h : AddReader P keyring msg addr = .ok msg2) :
    msg2.Author = msg.Author ∧ ∃ r, msg2.Readers = msg.Readers ++ [r] := by
  unfold AddReader at h
  simp only at h
  split at h
  · rename_i m2 hk
    have hm : m2.Author = msg.Author ∧ m2.Readers = msg.Readers := by
      split at hk
      · split at hk
        · simp only [Outcome.ok.injEq] at hk
          rw [← hk]
          cases msg.PayloadCipher <;> exact ⟨rfl, rfl⟩
        · simp at hk
        · simp at hk
      · simp only [Outcome.ok.injEq] at hk
        rw [← hk]
        cases msg.PayloadCipher <;> exact ⟨rfl, rfl⟩
    split at h
    · simp only [Outcome.ok.injEq] at h
      rw [← h]
      exact ⟨hm.1, _, by rw [hm.2]⟩
    · simp at h
    · simp at h
  · simp at h
  · simp at h

theorem addReaders_ok (P : Prim) (keyring : keys.Keyring) (readers : List Str) (msg msg2 : Message)
    (h : addReaders P keyring msg readers = .ok msg2) :
    msg2.Author = msg.Author ∧ ∃ extra, msg2.Readers = msg.Readers ++ extra := by
  induction readers generalizing msg with
  | nil =>
    simp only [addReaders, Outcome.ok.injEq] at h
    rw [← h]
    exact ⟨rfl, [], by simp⟩
  | cons addr rest ih =>
    simp only [addReaders] at h
    cases ha : AddReader P keyring msg addr with
    | ok m1 =>
      rw [ha] at h
      obtain ⟨a1, r, b1⟩ := AddReader_ok P keyring msg m1 addr ha
      obtain ⟨a2, extra, b2⟩ := ih m1 h
      exact ⟨a2.trans a1, [r] ++ extra, by rw [b2, b1]; simp⟩
    | error e => rw [ha] at h; simp at h
    | panic => rw [ha] at h; simp at h

/-- The text of an access line. -/
theorem envelopeAccessLine_text (r : user.Reader) :
    envelopeAccessLine r =
      "link=".toList ++ (r.Link ++ ("; access-key=".toList ++ (r.User.PublicSigningKeyFingerprint ++
        ("; value=".toList ++ (r.SealedKey ++ ("; algorithm=curve25519xsalsa20poly1305; key=".toList ++
          r.User.PublicEncryptionKeyFingerprint)))))) := by
  simp [envelopeAccessLine, strings.Join, ACCESS_LINE_ATTRIBUTE_LINK,
    ACCESS_LINE_ATTRIBUTE_NONCE_KEY_FINGERPRINT, ACCESS_LINE_ATTRIBUTE_DATA, ACCESS_LINE_ATTRIBUTE_ALGORITHM,
    ACCESS_LINE_ATTRIBUTE_FINGERPRINT, crypto.ANONYMOUS_ENCRYPTION_CIPHER]

/-- Every reader has a line among the sealed access lines: the line of the reader with
the access key sealed for their public encryption key. -/
theorem sealedAccessLines_mem (P : Prim) (accessKey : Str) (rs : List user.Reader) (lines : List Str)
    (h : sealedAccessLines P accessKey rs = .ok lines) (r : user.Reader) (hr : r ∈ rs) :
    ∃ box, P.boxSealAnonymous accessKey r.User.PublicEncryptionKey = some box ∧
      envelopeAccessLine { r with SealedKey := P.base64Encode box } ∈ lines := by
  induction rs generalizing lines with
  | nil => cases hr
  | cons x rest ih =>
    simp only [sealedAccessLines] at h
    cases he : crypto.EncryptAnonymous P x.User.PublicEncryptionKey accessKey with
    | ok sealedKey =>
      rw [he] at h
      cases hrest : sealedAccessLines P accessKey rest with
      | ok ls =>
        rw [hrest] at h
        simp only [Outcome.ok.injEq] at h
        rcases List.mem_cons.mp hr with e | e
        · subst e
          unfold crypto.EncryptAnonymous at he
          cases hb : P.boxSealAnonymous accessKey r.User.PublicEncryptionKey with
          | none => simp [hb] at he
          | some box =>
            simp only [hb, Outcome.ok.injEq] at he
            exact ⟨box, rfl, by rw [← h, he]; exact List.mem_cons_self _ _⟩
        · obtain ⟨box, hb, hmem⟩ := ih ls hrest e
          exact ⟨box, hb, by rw [← h]; exact List.mem_cons_of_mem _ hmem⟩
      | error e => rw [hrest] at h; simp at h
      | panic => rw [hrest] at h; simp at h
    | error e => rw [he] at h; simp at h
    | panic => rw [he] at h; simp at h

/-- C21. Every message built by `NewMessage` followed by any sequence of `AddReader`
calls that return nil holds the author among its readers, with the link
`Make(author, author)`; and every access list that `SealedAccessList` returns for it
contains the entry of the author: the text `link=` with this link, then `access-key=` with
the author's signing-key fingerprint, `value=` with the access key sealed for the author's
public encryption key, in base64, the algorithm, and `key=` with the author's
encryption-key fingerprint. -/
theorem author_among_readers (P : Prim) (keyring : keys.Keyring) (authorEmailAddress : Str)
    (readers : List Str) (built msg : Message)
    (hnew : NewMessage P keyring authorEmailAddress = .ok built)
    (hadd : addReaders P keyring built readers = .ok msg) :
    (∃ r ∈ msg.Readers, r.User = msg.Author ∧
      r.Link = links.Make P msg.Author.Address msg.Author.Address) ∧
    ∀ accessList, SealedAccessList P msg = .ok accessList →
      ∃ (box before after : Str),
        P.boxSealAnonymous msg.AccessKey msg.Author.PublicEncryptionKey = some box ∧
        accessList = before ++
          ("link=".toList ++ (links.Make P msg.Author.Address msg.Author.Address ++
            ("; access-key=".toList ++ (msg.Author.PublicSigningKeyFingerprint ++
              ("; value=".toList ++ (P.base64Encode box ++
                ("; algorithm=curve25519xsalsa20poly1305; key=".toList ++
                  msg.Author.PublicEncryptionKeyFingerprint))))))) ++ after := by
  obtain ⟨hr, _, _⟩ := NewMessage_ok P keyring authorEmailAddress built hnew
  obtain ⟨ha, extra, he⟩ := addReaders_ok P keyring readers built msg hadd
  have hmem : user.AsReader P msg.Author ∈ msg.Readers := by
    rw [he, hr, ha]; simp
  refine ⟨⟨_, hmem, rfl, rfl⟩, ?_⟩
  intro accessList hs
  have hsorted : user.AsReader P msg.Author ∈ sortReaders msg.Readers :=
    (List.perm_insertionSort linkOrder msg.Readers).mem_iff.mpr hmem
  unfold SealedAccessList at hs
  cases hl : sealedAccessLines P msg.AccessKey (sortReaders msg.Readers) with
  | ok lines =>
    rw [hl] at hs
    simp only [Outcome.ok.injEq] at hs
    obtain ⟨box, hb, hline⟩ := sealedAccessLines_mem P _ _ _ hl _ hsorted
    obtain ⟨before, after, hj⟩ := strings.Join_mem lines _ (HEADER_ACCESS_LIST_SEPARATOR ++ " ".toList) hline
    refine ⟨box, before, after, hb, ?_⟩
    rw [← hs, hj, envelopeAccessLine_text]
    rfl
  | error e => rw [hl] at hs; simp at hs
  | panic => rw [hl] at hs; simp at hs

/-- C24, the failure. For every message that `NewMessage` returns, to which no reader has
been added, and every body, `SetPlainContent` fails at run time: `msg.PayloadCipher` is
nil and the assignment to `msg.PayloadCipher.Stream` dereferences it. -/
theorem SetPlainContent_fails_on_broadcast (P : Prim) (keyring : keys.Keyring)
    (authorEmailAddress body : Str) (now : Int) (msg : Message)
    (hnew : NewMessage P keyring authorEmailAddress = .ok msg) :
    SetPlainContent P msg body now = .panic := by
  obtain ⟨_, _, hc⟩ := NewMessage_ok P keyring authorEmailAddress msg hnew
  unfold SetPlainContent
  rw [hc]

end message
namespace message

/-- C21 at the message that `NewMessage` builds for `a@x.test`, with the reader
`b@y.test` added: the access list `SealedAccessList` returns for it, in full; its second
entry is that of the author, with the self-link `a3f9ea9d`. -/
theorem author_among_readers_witness :
    NewMessage sample.prim sample.keyring "a@x.test".toList = .ok sample.newMessage ∧
    addReaders sample.prim sample.keyring sample.newMessage ["b@y.test".toList] = .ok sample.newLetter ∧
    sample.newLetter.Readers.map (fun r => (r.Link, r.User.Address)) =
      [("a3f9ea9d".toList, "a@x.test".toList), ("16efb901".toList, "b@y.test".toList)] ∧
    links.Make sample.prim "a@x.test".toList "a@x.test".toList = "a3f9ea9d".toList ∧
    SealedAccessList sample.prim sample.newLetter = .ok
      ("link=16efb901; access-key=99905977; value=".toList ++
        sample.hexEncode (List.replicate 32 'B' ++ List.replicate 32 'n') ++
        "; algorithm=curve25519xsalsa20poly1305; key=fa3af70e, ".toList ++
        "link=a3f9ea9d; access-key=b5fafbf6; value=".toList ++
        sample.hexEncode (List.replicate 32 'A' ++ List.replicate 32 'n') ++
        "; algorithm=curve25519xsalsa20poly1305; key=c8ecbda0".toList) ∧
    (∃ r ∈ sample.newLetter.Readers, r.User = sample.newLetter.Author ∧
      r.Link = links.Make sample.prim sample.newLetter.Author.Address sample.newLetter.Author.Address) ∧
    ∀ accessList, SealedAccessList sample.prim sample.newLetter = .ok accessList →
      ∃ (box before after : Str),
        sample.prim.boxSealAnonymous sample.newLetter.AccessKey
          sample.newLetter.Author.PublicEncryptionKey = some box ∧
        accessList = before ++
          ("link=".toList ++ (links.Make sample.prim sample.newLetter.Author.Address
              sample.newLetter.Author.Address ++
            ("; access-key=".toList ++ (sample.newLetter.Author.PublicSigningKeyFingerprint ++
              ("; value=".toList ++ (sample.prim.base64Encode box ++
                ("; algorithm=curve25519xsalsa20poly1305; key=".toList ++
                  sample.newLetter.Author.PublicEncryptionKeyFingerprint))))))) ++ after := by
  have h1 : NewMessage sample.prim sample.keyring "a@x.test".toList = .ok sample.newMessage := by
    set_option maxRecDepth 100000 in
    decide
  have h2 : addReaders sample.prim sample.keyring sample.newMessage ["b@y.test".toList] =
      .ok sample.newLetter := by
    set_option maxRecDepth 100000 in
    decide
  have h3 : sample.newLetter.Readers.map (fun r => (r.Link, r.User.Address)) =
      [("a3f9ea9d".toList, "a@x.test".toList), ("16efb901".toList, "b@y.test".toList)] := by
    set_option maxRecDepth 100000 in
    decide
  have h4 : links.Make sample.prim "a@x.test".toList "a@x.test".toList = "a3f9ea9d".toList := by
    set_option maxRecDepth 100000 in
    decide
  have h5 : SealedAccessList sample.prim sample.newLetter = .ok
      ("link=16efb901; access-key=99905977; value=".toList ++
        sample.hexEncode (List.replicate 32 'B' ++ List.replicate 32 'n') ++
        "; algorithm=curve25519xsalsa20poly1305; key=fa3af70e, ".toList ++
        "link=a3f9ea9d; access-key=b5fafbf6; value=".toList ++
        sample.hexEncode (List.replicate 32 'A' ++ List.replicate 32 'n') ++
        "; algorithm=curve25519xsalsa20poly1305; key=c8ecbda0".toList) := by
    set_option maxRecDepth 100000 in
    decide
  exact ⟨h1, h2, h3, h4, h5, author_among_readers sample.prim sample.keyring "a@x.test".toList
    ["b@y.test".toList] sample.newMessage sample.newLetter h1 h2⟩

/-- C24 at the broadcast message that `NewMessage` builds for `a@x.test` and the body
`hello`. -/
theorem SetPlainContent_fails_on_broadcast_witness :
    NewMessage sample.prim sample.keyring "a@x.test".toList = .ok sample.newMessage ∧
    sample.newMessage.IsBroadcast = true ∧
    SetPlainContent sample.prim sample.newMessage "hello".toList 0 = .panic := by
  have h1 : NewMessage sample.prim sample.keyring "a@x.test".toList = .ok sample.newMessage := by
    set_option maxRecDepth 100000 in
    decide
  exact ⟨h1, by set_option maxRecDepth 100000 in decide,
    SetPlainContent_fails_on_broadcast sample.prim sample.keyring "a@x.test".toList "hello".toList 0
      sample.newMessage h1⟩

end message

/-! ### Failure paths of decryption and of Open -/

namespace crypto

/-- C27, the failure. With a key that is not 32 bytes long `Xchacha20Poly1305Decrypt`
returns no plaintext and no error, whatever the ciphertext, also one shorter than the
nonce; `Xchacha20Poly1305DecryptFile` then writes an empty file and reports success. -/
theorem Xchacha20Poly1305Decrypt_bad_key_no_error (P : Prim) (ciphertext key : Str)
    (hkey : key.length ≠ KeySize) :
    Xchacha20Poly1305Decrypt P ciphertext key = .ok [] ∧
    ∀ dest, (Xchacha20Poly1305DecryptFile P (some ciphertext) dest key).2 = some [] ∧
      ∃ info, (Xchacha20Poly1305DecryptFile P (some ciphertext) dest key).1 = .ok info ∧
        info.OutputSize = 0 := by
  have h : Xchacha20Poly1305Decrypt P ciphertext key = .ok [] := by
    unfold Xchacha20Poly1305Decrypt
    rw [if_pos hkey]
  refine ⟨h, fun dest => ?_⟩
  unfold Xchacha20Poly1305DecryptFile
  simp only [h]
  exact ⟨trivial, _, rfl, rfl⟩

/-- C27 at a key of 16 bytes and the ciphertext `abc`, which is shorter than the nonce. -/
theorem Xchacha20Poly1305Decrypt_bad_key_no_error_witness :
    Xchacha20Poly1305Decrypt sample.prim "abc".toList (List.replicate 16 'k') = .ok [] ∧
    ∀ dest, (Xchacha20Poly1305DecryptFile sample.prim (some "abc".toList) dest (List.replicate 16 'k')).2 =
        some [] ∧
      ∃ info, (Xchacha20Poly1305DecryptFile sample.prim (some "abc".toList) dest
          (List.replicate 16 'k')).1 = .ok info ∧ info.OutputSize = 0 :=
  Xchacha20Poly1305Decrypt_bad_key_no_error sample.prim "abc".toList (List.replicate 16 'k') (by decide)

end crypto

namespace message

/-- The payload step of `Open` leaves the `headers` file as it is. -/
theorem openPayload_headers (P : Prim) (message : Message) (dir : MessageDir) :
    (openPayload P message dir).2.headers = dir.headers := by
  unfold openPayload
  simp only
  split <;> rfl

/-- C30, the failure. When the content checksum does not match, `Open` returns the error
`Content checksum failure: seal broken` and leaves the `headers` file it wrote in the
directory: a second `Open` answers `Message is already opened.`, and
`OpenFromUnsealedHeaders` reads the content headers of the message whose seal is broken. -/
theorem Open_checksum_failure_keeps_headers (P : Prim) (dir dir' : MessageDir)
    (authorUser : user.User) (readerUser : user.Reader) (message : Message) (fileInfo : crypto.IOInfo)
    (hh : dir.headers = none)
    (he : openEnvelopeFile P dir authorUser readerUser = .ok message)
    (hp : openPayload P message { dir with headers := some (message.ContentHeadersBytes ++ ['\n']) } =
      (.ok fileInfo, dir'))
    (hne : message.Content.Checksum ≠ fileInfo.OutputChecksum) :
    Open P dir authorUser readerUser = (.error "Content checksum failure: seal broken", dir') ∧
    dir'.headers = some (message.ContentHeadersBytes ++ ['\n']) ∧
    (Open P dir' authorUser readerUser).1 = .error "Message is already opened." ∧
    OpenFromUnsealedHeaders P dir' = parseContentHeaders P {} (message.ContentHeadersBytes ++ ['\n']) := by
  have hd : dir'.headers = some (message.ContentHeadersBytes ++ ['\n']) := by
    have := openPayload_headers P message { dir with headers := some (message.ContentHeadersBytes ++ ['\n']) }
    rw [hp] at this
    exact this
  refine ⟨?_, hd, ?_, ?_⟩
  · unfold Open
    simp [hh, he, hp, hne]
  · unfold Open
    simp [hd]
  · unfold OpenFromUnsealedHeaders
    simp [hd]

/-- C30 on the directory of the message `m1` whose payload was changed to `jello`: the
failed `Open` leaves the `headers` file, the next `Open` refuses, and
`OpenFromUnsealedHeaders` returns a message. -/
theorem Open_checksum_failure_keeps_headers_witness :
    Open sample.prim { sample.sealedDir with payload := some "jello".toList } sample.author {} =
      (.error "Content checksum failure: seal broken",
        { sample.sealedDir with
          payload := some "jello".toList,
          headers := some (sample.contentHeaders "m1".toList ++ ['\n']),
          body := some "jello".toList }) ∧
    (Open sample.prim
        { sample.sealedDir with
          payload := some "jello".toList,
          headers := some (sample.contentHeaders "m1".toList ++ ['\n']),
          body := some "jello".toList } sample.author {}).1 = .error "Message is already opened." ∧
    (OpenFromUnsealedHeaders sample.prim
        { sample.sealedDir with
          payload := some "jello".toList,
          headers := some (sample.contentHeaders "m1".toList ++ ['\n']),
          body := some "jello".toList }).toOption.map (fun m => (m.Content.ID, m.Content.Checksum)) =
      some ("m1".toList, sample.hexEncode (sample.digest "hello".toList)) := by
  have h := Open_checksum_failure_keeps_headers sample.prim
    { sample.sealedDir with payload := some "jello".toList }
    { sample.sealedDir with
      payload := some "jello".toList,
      headers := some (sample.contentHeaders "m1".toList ++ ['\n']),
      body := some "jello".toList }
    sample.author {} sample.openedMessage
    { InputSize := 5, InputChecksum := sample.hexEncode (sample.digest "jello".toList),
      OutputSize := 5, OutputChecksum := sample.hexEncode (sample.digest "jello".toList) }
    rfl
    (by set_option maxRecDepth 100000 in decide)
    (by set_option maxRecDepth 100000 in decide)
    (by set_option maxRecDepth 100000 in decide)
  refine ⟨h.1, h.2.2.1, ?_⟩
  set_option maxRecDepth 100000 in decide

end message

/-! ### Content headers round trip; the index look-up by prefix -/

namespace message

/-- C22, the failure. `EmbedContentHeaders` writes the content checksum of the broadcast
message `m1` as `checksum: algorithm=sha256; value=0fd54011`; `parseContentHeaders` reads
the attribute `sum` of that line, so from the embedded text it recovers the id, the
author address, the subject-id, the parent-message-id, the category and the size, and an
empty content checksum. -/
theorem parseContentHeaders_loses_embedded_checksum :
    EmbedContentHeaders sample.prim sample.broadcast =
      ("id: m1\nauthor: a@x.test\ndate: 0\nsubject: \nsubject-id: m1\nparent-message-id: m1\n" ++
        "category: personal\nsize: 5\nchecksum: algorithm=sha256; value=0fd54011").toList ∧
    sample.broadcast.Content.Checksum = "0fd54011".toList ∧
    (parseContentHeaders sample.prim {} (EmbedContentHeaders sample.prim sample.broadcast)).toOption.map
        (fun m => ([m.Content.ID, m.Content.AuthorAddress, m.Content.Subject, m.Content.SubjectID,
          m.Content.ParentMessageID, m.Content.Category, m.Content.Checksum], m.Content.Size)) =
      some (["m1".toList, "a@x.test".toList, [], "m1".toList, "m1".toList, "personal".toList, []], 5) := by
  refine ⟨?_, ?_, ?_⟩
  · set_option maxRecDepth 100000 in decide
  · set_option maxRecDepth 100000 in decide
  · set_option maxRecDepth 100000 in decide

end message

namespace storage

/-- C29, the failure. When a line of the index, trimmed, begins with the text
`link,fp,stream,id`, as the line of a stored identifier that has `id` as a prefix does,
`WriteMessageIndex` returns nil and writes nothing: the index is left as it was. -/
theorem WriteMessageIndex_skips_prefix_of_stored_line (home : Home)
    (link fingerprint stream messageID data line : Str)
    (hindex : home.index = some data)
    (hline : line ∈ (bufio.scanLines data).1)
    (hbegins : strings.HasPrefix (strings.TrimSpace line)
      (strings.Join [link, fingerprint, stream, messageID] MESSAGES_INDEX_COLUMN_SEPARATOR) = true) :
    WriteMessageIndex home link fingerprint stream messageID = (.ok (), home) := by
  unfold WriteMessageIndex utils.PrefixExistsInFile
  simp only [hindex, utils.prefixInLines_of_mem _ line _ hline hbegins, if_true]

/-- C29 on the index that holds the line `ab12,cd34,,m9abc`: writing the identifier `m9`
for the same link, fingerprint and stream returns nil and leaves the index without a
line `ab12,cd34,,m9`; the listing of the link names `m9abc` only, although the message
directory `m9` exists. -/
theorem WriteMessageIndex_skips_prefix_of_stored_line_witness :
    WriteMessageIndex sample.longIdHome "ab12".toList "cd34".toList [] "m9".toList =
      (.ok (), sample.longIdHome) ∧
    (bufio.scanLines ((sample.longIdHome.index).getD [])).1 = ["ab12,cd34,,m9abc".toList] ∧
    "ab12,cd34,,m9".toList ∉ (bufio.scanLines ((sample.longIdHome.index).getD [])).1 ∧
    FilterMessagesIndex (WriteMessageIndex sample.longIdHome "ab12".toList "cd34".toList [] "m9".toList).2
      "ab12".toList "cd34".toList [] = .ok ["m9abc".toList] := by
  have h := WriteMessageIndex_skips_prefix_of_stored_line sample.longIdHome
    "ab12".toList "cd34".toList [] "m9".toList "ab12,cd34,,m9abc\n".toList "ab12,cd34,,m9abc".toList
    rfl (by set_option maxRecDepth 100000 in decide) (by set_option maxRecDepth 100000 in decide)
  refine ⟨h, ?_, ?_, ?_⟩
  · set_option maxRecDepth 100000 in decide
  · set_option maxRecDepth 100000 in decide
  · rw [h]
    set_option maxRecDepth 100000 in decide

end storage

/-! ### Fields outside the declared order -/

namespace message

/-- Replacing the value of a field leaves the concatenation of a list of fields that does
not contain it as it was. -/
theorem concatValues_replace_not_mem (msg : Message) (f : EnvelopeField) (w : Str) :
    ∀ fields : List EnvelopeField, f ∉ fields →
      concatValues (f.replace msg w) fields = concatValues msg fields := by
  intro fields
  induction fields with
  | nil => intro _; rfl
  | cons g rest ih =>
    intro hnot
    simp only [List.mem_cons, not_or] at hnot
    simp only [concatValues, replace_value_other msg f g w (fun h => hnot.1 h.symm), ih hnot.2]

/-- C28, amended. When `VerifyEnvelopeAuthenticity` returns true for a parsed envelope,
the envelope checksum is the digest of the values of the fields named in the declared
order, and of those only: a field among Message-ID, Message-Stream, Message-Access,
Message-Headers and Message-Encryption that the declared order does not name lies outside
the signed checksum, and the envelope is accepted with any value of that field. -/
theorem VerifyEnvelopeAuthenticity_ignores_undeclared (P : Prim) (msg : Message) (f : EnvelopeField)
    (w : Str)
    (hverify : VerifyEnvelopeAuthenticity P msg = .ok true)
    (hnot : f ∉ declaredFields msg) :
    (∃ values, declaredValues msg = some values ∧ msg.EnvelopeHeadersChecksum = P.sha256Hex values ∧
      declaredValues (f.replace msg w) = some values) ∧
    VerifyEnvelopeAuthenticity P (f.replace msg w) = .ok true := by
  obtain ⟨hne, values, hvals, hsum, hsig⟩ := VerifyEnvelopeAuthenticity_true_inv P msg hverify
  have hvals' : declaredValues (f.replace msg w) = some values := by
    unfold declaredValues at hvals ⊢
    rw [declaredFields_replace, concatValues_replace_not_mem msg f w _ hnot, hvals]
  have ho : (f.replace msg w).EnvelopeHeadersOrder = msg.EnvelopeHeadersOrder := by cases f <;> rfl
  have hc : (f.replace msg w).EnvelopeHeadersChecksum = msg.EnvelopeHeadersChecksum := by cases f <;> rfl
  have hs : (f.replace msg w).EnvelopeHeadersSignature = msg.EnvelopeHeadersSignature := by cases f <;> rfl
  have ha : (f.replace msg w).Author = msg.Author := by cases f <;> rfl
  refine ⟨⟨values, hvals, hsum, hvals'⟩, ?_⟩
  rw [VerifyEnvelopeAuthenticity_of_values, ho, hc, hs, ha, if_neg hne, hvals']
  simp [hsum, hsig]

/-- C28, amended, on the signed envelope `m1`, whose order names `message-id` and
`message-headers`: with the stream `news` set it is still accepted. -/
theorem VerifyEnvelopeAuthenticity_ignores_undeclared_witness :
    (∃ values, declaredValues sample.signedMessage = some values ∧
      sample.signedMessage.EnvelopeHeadersChecksum = sample.prim.sha256Hex values ∧
      declaredValues (EnvelopeField.stream.replace sample.signedMessage "news".toList) = some values) ∧
    VerifyEnvelopeAuthenticity sample.prim
      (EnvelopeField.stream.replace sample.signedMessage "news".toList) = .ok true :=
  VerifyEnvelopeAuthenticity_ignores_undeclared sample.prim sample.signedMessage .stream "news".toList
    (by set_option maxRecDepth 100000 in decide) (by set_option maxRecDepth 100000 in decide)

/-- C28, the counterexample. The envelope of `m1` with the line `message-stream: news`
added, which the declared order `message-id:message-headers` does not name, is parsed
with the stream `news`, `VerifyEnvelopeAuthenticity` returns true for it, and `Open`
returns the message with that stream. -/
theorem VerifyEnvelopeAuthenticity_accepts_unsigned_stream :
    (ParseEnvelopeData ("message-stream: news\n".toList ++ sample.envelope (sample.contentHeaders "m1".toList))
      ).toOption.map (fun msg => (msg.StreamID, msg.EnvelopeHeadersOrder,
        decide (EnvelopeField.stream ∈ declaredFields msg),
        VerifyEnvelopeAuthenticity sample.prim { msg with Author := sample.author })) =
      some ("news".toList, "message-id:message-headers".toList, false, .ok true) ∧
    (Open sample.prim
      { envelope := some ("message-stream: news\n".toList ++ sample.envelope (sample.contentHeaders "m1".toList)),
        payload := some "hello".toList } sample.author {}).1.toOption.map (fun msg => msg.StreamID) =
      some "news".toList := by
  constructor
  · set_option maxRecDepth 100000 in decide
  · set_option maxRecDepth 100000 in decide

end message

/-! ### The tags of a sealed stream -/

namespace crypto

/-- Reads of a file whose length is a multiple of the buffer size fill the buffer. -/
theorem readChunks_length (n : Nat) :
    ∀ (fuel : Nat) (data : Str), n ∣ data.length → ∀ c ∈ readChunks n fuel data, c.length = n := by
  intro fuel
  induction fuel with
  | zero => intro data _ c hc; simp [readChunks] at hc
  | succ fuel ih =>
    intro data hdvd c hc
    simp only [readChunks] at hc
    split_ifs at hc with he
    · simp at hc
    · have hlen : 0 < data.length := List.length_pos.mpr he
      have hle : n ≤ data.length := Nat.le_of_dvd hlen hdvd
      rcases List.mem_cons.mp hc with h | h
      · rw [h, List.length_take]
        exact Nat.min_eq_left hle
      · refine ih (data.drop n) ?_ c h
        rw [List.length_drop]
        exact Nat.dvd_sub' hdvd (dvd_refl n)

/-- The tags handed to `Push` are added to those already recorded. -/
theorem pushChunks_tags_le (P : Prim) (chunkSize : Int) :
    ∀ (chunks : List Str) (state : Str) (eofReached : Bool) (encryptorTag : Nat)
      (consumed written : Str) (tags : List Nat),
      tags.length ≤
        (pushChunks P chunkSize chunks state eofReached encryptorTag consumed written tags).2.2.length := by
  intro chunks
  induction chunks with
  | nil => intro _ _ _ _ _ tags; simp [pushChunks]
  | cons chunk rest ih =>
    intro state eofReached encryptorTag consumed written tags
    rw [pushChunks]
    cases hp : P.streamPush state chunk
      (if (eofReached || decide ((chunk.length : Int) < chunkSize)) = true then P.tagFinal
        else encryptorTag) with
    | none => simp
    | some p =>
      obtain ⟨encryptedBuffer, state'⟩ := p
      dsimp only
      refine Nat.le_trans ?_ (ih _ _ _ _ _ _)
      simp

/-- The first chunk read is handed to `Push`. -/
theorem pushChunks_tags_length (P : Prim) (chunkSize : Int) (chunks : List Str) (hne : chunks ≠ [])
    (state : Str) (eofReached : Bool) (encryptorTag : Nat) (consumed written : Str) (tags : List Nat) :
    tags.length + 1 ≤
      (pushChunks P chunkSize chunks state eofReached encryptorTag consumed written tags).2.2.length := by
  cases chunks with
  | nil => exact absurd rfl hne
  | cons chunk rest =>
    rw [pushChunks]
    cases hp : P.streamPush state chunk
      (if (eofReached || decide ((chunk.length : Int) < chunkSize)) = true then P.tagFinal
        else encryptorTag) with
    | none => simp
    | some p =>
      obtain ⟨encryptedBuffer, state'⟩ := p
      dsimp only
      refine Nat.le_trans ?_ (pushChunks_tags_le P chunkSize rest _ _ _ _ _ _)
      simp

/-- While every read fills the buffer, every chunk is pushed with the tag `Message`. -/
theorem pushChunks_full_reads (P : Prim) (chunkSize : Int) :
    ∀ (chunks : List Str) (state consumed written : Str) (tags : List Nat),
      (∀ c ∈ chunks, (c.length : Int) = chunkSize) → (∀ t ∈ tags, t = P.tagMessage) →
      ∀ t ∈ (pushChunks P chunkSize chunks state false P.tagMessage consumed written tags).2.2,
        t = P.tagMessage := by
  intro chunks
  induction chunks with
  | nil => intro _ _ _ tags _ htags; simpa [pushChunks] using htags
  | cons chunk rest ih =>
    intro state consumed written tags hfull htags
    have hc : (chunk.length : Int) = chunkSize := hfull chunk (List.mem_cons_self _ _)
    have hlt : decide ((chunk.length : Int) < chunkSize) = false := by simp [hc]
    have htags' : ∀ t ∈ tags ++ [P.tagMessage], t = P.tagMessage := by
      intro t ht
      rcases List.mem_append.mp ht with h | h
      · exact htags t h
      · simpa using h
    simp only [pushChunks, hlt, Bool.or_false, Bool.false_eq_true, if_false]
    split
    · exact htags'
    · rename_i encryptedBuffer state' _
      exact ih state' _ _ _ (fun c h => hfull c (List.mem_cons_of_mem _ h)) htags'

/-- C23, the failure. For a non-empty source whose length is an exact multiple of the
chunk size every read fills the buffer, so `SecretStreamXchacha20Poly1305EncryptFile`
hands every chunk to `Push` with the tag `Message`, the last one too: no chunk of the
stream is tagged `Final`. -/
theorem encryptFile_exact_multiple_never_final (P : Prim) (data key header encryptor : Str)
    (dest : Option Str) (chunkSize : Int)
    (hdata : data ≠ []) (hpos : 0 < chunkSize) (hdvd : chunkSize.toNat ∣ data.length)
    (hheader : P.randomBytes P.streamHeaderBytes = some header)
    (hencryptor : P.streamEncryptor header key = some encryptor)
    (htag : P.tagMessage ≠ P.tagFinal) :
    (pushedTags P (some data) dest key chunkSize).getLast? = some P.tagMessage ∧
    (∀ t ∈ pushedTags P (some data) dest key chunkSize, t = P.tagMessage) ∧
    P.tagFinal ∉ pushedTags P (some data) dest key chunkSize := by
  have hn : 0 < chunkSize.toNat := by omega
  have hne : ¬ chunkSize < 0 := by omega
  have hz : chunkSize ≠ 0 := by omega
  have hfull : ∀ c ∈ readChunks chunkSize.toNat data.length data, (c.length : Int) = chunkSize := by
    intro c hc
    rw [readChunks_length chunkSize.toNat data.length data hdvd c hc]
    omega
  have hread : readChunks chunkSize.toNat data.length data ≠ [] := by
    cases data with
    | nil => exact absurd rfl hdata
    | cons a rest => simp [readChunks]
  have hpushed : pushedTags P (some data) dest key chunkSize =
      (pushChunks P chunkSize (readChunks chunkSize.toNat data.length data) encryptor false P.tagMessage
        [] [] []).2.2 := by
    unfold pushedTags encryptFileTrace
    simp only [hheader, hencryptor, hne, if_false, hz]
    rcases hp : pushChunks P chunkSize (readChunks chunkSize.toNat data.length data) encryptor false
      P.tagMessage [] [] [] with ⟨res, written, tags⟩
    cases res <;> rfl
  have hall := pushChunks_full_reads P chunkSize _ encryptor [] [] [] hfull (by simp)
  have hlen := pushChunks_tags_length P chunkSize (readChunks chunkSize.toNat data.length data) hread
    encryptor false P.tagMessage [] [] []
  rw [hpushed]
  refine ⟨?_, hall, fun h => htag (hall _ h).symm⟩
  cases hl : ((pushChunks P chunkSize (readChunks chunkSize.toNat data.length data) encryptor false
      P.tagMessage [] [] []).2.2).getLast? with
  | none =>
    rw [List.getLast?_eq_none_iff] at hl
    rw [hl] at hlen
    simp at hlen
  | some t => rw [hall t (List.mem_of_getLast?_eq_some hl)]

/-- C23 on the source `abcdefgh` sealed with chunk size 4: the header is written first,
then two chunks, both tagged `Message`; and on a source of 3 MiB sealed with chunk size
65 536 no chunk is tagged `Final`. With the source `abcdefg` the second chunk is tagged
`Final`. -/
theorem encryptFile_exact_multiple_never_final_witness :
    ((pushedTags sample.prim (some "abcdefgh".toList) none (List.replicate 32 'k') 4).getLast? =
        some sample.prim.tagMessage ∧
      (∀ t ∈ pushedTags sample.prim (some "abcdefgh".toList) none (List.replicate 32 'k') 4,
        t = sample.prim.tagMessage) ∧
      sample.prim.tagFinal ∉ pushedTags sample.prim (some "abcdefgh".toList) none (List.replicate 32 'k') 4) ∧
    pushedTags sample.prim (some "abcdefgh".toList) none (List.replicate 32 'k') 4 = [0, 0] ∧
    (SecretStreamXchacha20Poly1305EncryptFile sample.prim (some "abcdefgh".toList) none
      (List.replicate 32 'k') 4).2 = some (List.replicate 24 'n' ++ "0abcd0efgh".toList) ∧
    pushedTags sample.prim (some "abcdefg".toList) none (List.replicate 32 'k') 4 = [0, 3] ∧
    sample.prim.tagFinal ∉
      pushedTags sample.prim (some (List.replicate 3145728 'x')) none (List.replicate 32 'k') 65536 := by
  refine ⟨?_, ?_, ?_, ?_, ?_⟩
  · exact encryptFile_exact_multiple_never_final sample.prim "abcdefgh".toList (List.replicate 32 'k')
      (List.replicate 24 'n') (List.replicate 32 'k') none 4 (by decide) (by decide) (by decide) rfl rfl
      (by decide)
  · set_option maxRecDepth 100000 in decide
  · set_option maxRecDepth 100000 in decide
  · set_option maxRecDepth 100000 in decide
  · refine (encryptFile_exact_multiple_never_final sample.prim (List.replicate 3145728 'x')
      (List.replicate 32 'k') (List.replicate 24 'n') (List.replicate 32 'k') none 65536 ?_ (by decide) ?_
      rfl rfl (by decide)).2.2
    · intro h
      have := congrArg List.length h
      rw [List.length_replicate] at this
      exact absurd this (by decide)
    · rw [List.length_replicate]
      exact ⟨48, rfl⟩

end crypto

/-! ### Cutting and splitting at a character -/

namespace strings

theorem Cut_char_none (c : Char) (a : Str) (h : c ∉ a) (ha : a ≠ []) : Cut [c] a = none := by
  induction a with
  | nil => exact absurd rfl ha
  | cons b bs ih =>
    have hb : c ≠ b := fun e => h (by simp [e])
    have hbs : c ∉ bs := fun e => h (List.mem_cons_of_mem _ e)
    cases bs with
    | nil => simp [Cut, hb]
    | cons d ds =>
      have := ih hbs (by simp)
      rw [Cut]
      simp [hb, this]

theorem Cut_char (c : Char) (a rest : Str) (h : c ∉ a) : Cut [c] (a ++ c :: rest) = some (a, rest) := by
  induction a with
  | nil => simp [Cut]
  | cons b bs ih =>
    have hb : c ≠ b := fun e => h (by simp [e])
    have hbs : c ∉ bs := fun e => h (List.mem_cons_of_mem _ e)
    rw [List.cons_append, Cut]
    simp [hb, ih hbs]

theorem splitLoop_cons (c : Char) (fuel : Nat) (a rest : Str) (h : c ∉ a) :
    splitLoop [c] (fuel + 1) (a ++ c :: rest) = a :: splitLoop [c] fuel rest := by
  rw [splitLoop, Cut_char c a rest h]

theorem splitLoop_last (c : Char) (fuel : Nat) (a : Str) (h : c ∉ a) (ha : a ≠ []) :
    splitLoop [c] fuel a = [a] := by
  cases fuel with
  | zero => rfl
  | succ n => rw [splitLoop, Cut_char_none c a h ha]

theorem Split_four (c : Char) (a b d e : Str) (ha : c ∉ a) (hb : c ∉ b) (hd : c ∉ d) (he : c ∉ e)
    (hne : e ≠ []) :
    Split (a ++ c :: (b ++ c :: (d ++ c :: e))) [c] = [a, b, d, e] := by
  unfold Split
  have hlen : (a ++ c :: (b ++ c :: (d ++ c :: e))).length =
      (a.length + b.length + d.length + e.length) + 1 + 1 + 1 := by
    simp only [List.length_append, List.length_cons]
    omega
  rw [hlen, splitLoop_cons c _ a _ ha, splitLoop_cons c _ b _ hb, splitLoop_cons c _ d _ hd,
    splitLoop_last c _ e he hne]

theorem SplitN2_char (c : Char) (a rest : Str) (h : c ∉ a) : SplitN2 (a ++ c :: rest) [c] = [a, rest] := by
  unfold SplitN2
  rw [Cut_char c a rest h]

theorem RemoveAll_not_mem (s : Str) (c : Char) (h : c ∉ s) : RemoveAll s c = s := by
  unfold RemoveAll
  rw [List.filter_eq_self]
  intro a ha
  have : a ≠ c := fun e => h (e ▸ ha)
  simpa using this

theorem TrimSpace_leading_space (s : Str) : TrimSpace (' ' :: s) = TrimSpace s := by
  unfold TrimSpace
  have : isSpace ' ' = true := by decide
  rw [List.dropWhile_cons, if_pos this]

end strings

/-! ### The format of the nonce header -/

namespace nonce

theorem SplitN2_scheme (rest : Str) :
    strings.SplitN2 ('S' :: 'O' :: 'T' :: 'N' :: rest) NONCE_SCHEME = [[], rest] := by
  simp [strings.SplitN2, strings.Cut, NONCE_SCHEME, List.isPrefixOf]

/-- An attribute `name=value` without white space is cut at its first `=`. -/
theorem SplitN2_attribute (name value : Str) (hn : ∀ c ∈ name, strings.isSpace c = false) (hc : '=' ∉ name)
    (hv : ∀ c ∈ value, strings.isSpace c = false) :
    strings.SplitN2 (strings.TrimSpace (name ++ '=' :: value)) ['='] = [name, value] := by
  rw [strings.TrimSpace_of_noSpace, strings.SplitN2_char '=' name value hc]
  intro c hmem
  rcases List.mem_append.mp hmem with h | h
  · exact hn c h
  · rcases List.mem_cons.mp h with h | h
    · rw [h]; decide
    · exact hv c h

theorem SplitN2_spaced_attribute (name value : Str) (hn : ∀ c ∈ name, strings.isSpace c = false)
    (hc : '=' ∉ name) (hv : ∀ c ∈ value, strings.isSpace c = false) :
    strings.SplitN2 (strings.TrimSpace (' ' :: (name ++ '=' :: value))) ['='] = [name, value] := by
  rw [strings.TrimSpace_leading_space, SplitN2_attribute name value hn hc hv]

theorem headerAttributes_nonce (P : Prim) (kv v : Str) (rest : List Str) (n : Nonce)
    (h : strings.SplitN2 (strings.TrimSpace kv) ['='] = ["nonce".toList, v]) (hv : n.Value = []) :
    headerAttributes P (kv :: rest) n = headerAttributes P rest { n with Value := v } := by
  rw [headerAttributes, h]
  dsimp only
  rw [if_neg (by decide), if_pos (by decide), if_neg (by simp [hv])]

theorem headerAttributes_algorithm (P : Prim) (kv v : Str) (rest : List Str) (n : Nonce)
    (h : strings.SplitN2 (strings.TrimSpace kv) ['='] = ["algorithm".toList, v]) :
    headerAttributes P (kv :: rest) n = headerAttributes P rest { n with SigningAlgorithm := v } := by
  rw [headerAttributes, h]
  dsimp only
  rw [if_pos (by decide)]

theorem headerAttributes_signature (P : Prim) (kv v : Str) (rest : List Str) (n : Nonce)
    (h : strings.SplitN2 (strings.TrimSpace kv) ['='] = ["signature".toList, v]) (hv : n.Signature = []) :
    headerAttributes P (kv :: rest) n = headerAttributes P rest { n with Signature := v } := by
  rw [headerAttributes, h]
  dsimp only
  rw [if_neg (by decide), if_neg (by decide), if_pos (by decide), if_neg (by simp [hv])]

theorem headerAttributes_key (P : Prim) (kv v keyBytes : Str) (rest : List Str) (n : Nonce)
    (h : strings.SplitN2 (strings.TrimSpace kv) ['='] = ["key".toList, v]) (hv : n.SigningKeyBase64 = [])
    (hkey : P.base64Decode v = some keyBytes) :
    headerAttributes P (kv :: rest) n = headerAttributes P rest
      { n with SigningKeyBase64 := v, SigningKey := crypto.toArray 32 keyBytes,
               SigningKeyFingerprint := crypto.Fingerprint P (crypto.toArray 32 keyBytes) } := by
  rw [headerAttributes, h]
  dsimp only
  rw [if_neg (by decide), if_neg (by decide), if_neg (by decide), if_pos (by decide), if_neg (by simp [hv])]
  simp only [crypto.DecodeBase64Key32, hkey]

/-- C26, amended. For every nonce, `ToHeader` is the string
`SOTN nonce=<Value>, algorithm=<SigningAlgorithm>, signature=<Signature>, key=<SigningKeyBase64>`,
and `FromHeader` reads the value of the token from the attribute named `nonce`: a header
in this format whose four values hold no comma and no white space, with a value, a
signature and a key that are not empty and a key that decodes from base64, is accepted,
with `Value` set to the value written and the other three attributes as written. -/
theorem FromHeader_ToHeader (P : Prim) (now : Int) (n : Nonce) (keyBytes : Str)
    (hvalue : headerToken n.Value) (halgorithm : headerToken n.SigningAlgorithm)
    (hsignature : headerToken n.Signature) (hkey : headerToken n.SigningKeyBase64)
    (hv : n.Value ≠ []) (hs : n.Signature ≠ []) (hk : n.SigningKeyBase64 ≠ [])
    (hdecode : P.base64Decode n.SigningKeyBase64 = some keyBytes) :
    ToHeader n = "SOTN nonce=".toList ++ n.Value ++ ", algorithm=".toList ++ n.SigningAlgorithm ++
      ", signature=".toList ++ n.Signature ++ ", key=".toList ++ n.SigningKeyBase64 ∧
    FromHeader P now (ToHeader n) =
      .ok { n with Date := utils.ToRFC3339String P now, SigningKey := crypto.toArray 32 keyBytes,
                   SigningKeyFingerprint := crypto.Fingerprint P (crypto.toArray 32 keyBytes) } := by
  have hfmt : ToHeader n = "SOTN nonce=".toList ++ n.Value ++ ", algorithm=".toList ++ n.SigningAlgorithm ++
      ", signature=".toList ++ n.Signature ++ ", key=".toList ++ n.SigningKeyBase64 := by
    simp [ToHeader, strings.Join, NONCE_SCHEME, NONCE_HEADER_ATTRIBUTE_VALUE, NONCE_HEADER_ATTRIBUTE_ALGORITHM,
      NONCE_HEADER_ATTRIBUTE_SIGNATURE, NONCE_HEADER_ATTRIBUTE_KEY]
  refine ⟨hfmt, ?_⟩
  have hshape : ToHeader n = 'S' :: 'O' :: 'T' :: 'N' :: ' ' ::
      (("nonce".toList ++ '=' :: n.Value) ++ ',' ::
        ((' ' :: ("algorithm".toList ++ '=' :: n.SigningAlgorithm)) ++ ',' ::
          ((' ' :: ("signature".toList ++ '=' :: n.Signature)) ++ ',' ::
            (' ' :: ("key".toList ++ '=' :: n.SigningKeyBase64))))) := by
    rw [hfmt]
    simp
  have sp : ∀ s : Str, headerToken s → ∀ c ∈ s, strings.isSpace c = false := fun s h c hc => (h c hc).2
  have cm : ∀ s : Str, headerToken s → ',' ∉ s := fun s h hc => (h ',' hc).1 rfl
  have tb : ∀ s : Str, headerToken s → ∀ c, strings.isSpace c = true → c ∉ s := by
    intro s h c hc hmem
    rw [(h c hmem).2] at hc
    exact Bool.noConfusion hc
  rw [hshape]
  unfold FromHeader
  rw [SplitN2_scheme]
  dsimp only
  rw [strings.TrimSpace_leading_space, strings.TrimSpace_eq_self]
  · rw [strings.RemoveAll_not_mem _ '\t', strings.RemoveAll_not_mem _ '\n']
    · rw [strings.Split_four]
      · rw [headerAttributes_nonce P _ n.Value _ _
            (SplitN2_attribute _ _ (by decide) (by decide) (sp _ hvalue)) rfl,
          headerAttributes_algorithm P _ n.SigningAlgorithm _ _
            (SplitN2_spaced_attribute _ _ (by decide) (by decide) (sp _ halgorithm)),
          headerAttributes_signature P _ n.Signature _ _
            (SplitN2_spaced_attribute _ _ (by decide) (by decide) (sp _ hsignature)) rfl,
          headerAttributes_key P _ n.SigningKeyBase64 keyBytes _ _
            (SplitN2_spaced_attribute _ _ (by decide) (by decide) (sp _ hkey)) rfl hdecode]
        simp only [headerAttributes]
        rw [if_neg (by simp [hv, hs, hk])]
      · simp [cm _ hvalue]
      · simp [cm _ halgorithm]
      · simp [cm _ hsignature]
      · simp [cm _ hkey]
      · simp
    · have := tb _ hvalue '\n' (by decide)
      have := tb _ halgorithm '\n' (by decide)
      have := tb _ hsignature '\n' (by decide)
      have := tb _ hkey '\n' (by decide)
      simp [*]
    · have := tb _ hvalue '\t' (by decide)
      have := tb _ halgorithm '\t' (by decide)
      have := tb _ hsignature '\t' (by decide)
      have := tb _ hkey '\t' (by decide)
      simp [*]
  · intro c hc
    simp at hc
    rw [← hc]; decide
  · intro c hc
    have hbody : ∀ (a b d e k : Str), a ++ ',' :: (b ++ ',' :: (d ++ ',' :: (' ' :: (e ++ '=' :: k)))) =
        (a ++ ',' :: (b ++ ',' :: (d ++ ',' :: (' ' :: (e ++ ['='])))) ) ++ k := by
      intro a b d e k
      simp
    rw [hbody, List.getLast?_append_of_ne_nil _ hk] at hc
    exact sp _ hkey c (List.mem_of_getLast?_eq_some hc)

/-- C26, amended, at the nonce with the token value `abc` signed by `a@x.test`. -/
theorem FromHeader_ToHeader_witness :
    ToHeader sample.signedNonce = "SOTN nonce=".toList ++ "abc".toList ++ ", algorithm=".toList ++
      "ed25519".toList ++ ", signature=".toList ++ sample.hexEncode (sample.publicKey ++ "abc".toList) ++
      ", key=".toList ++ sample.hexEncode sample.publicKey ∧
    FromHeader sample.prim 0 (ToHeader sample.signedNonce) =
      .ok { sample.signedNonce with
        Date := utils.ToRFC3339String sample.prim 0,
        SigningKey := crypto.toArray 32 sample.publicKey,
        SigningKeyFingerprint := crypto.Fingerprint sample.prim (crypto.toArray 32 sample.publicKey) } :=
  FromHeader_ToHeader sample.prim 0 sample.signedNonce sample.publicKey
    (by decide) (by decide) (by set_option maxRecDepth 100000 in decide)
    (by set_option maxRecDepth 100000 in decide) (by decide)
    (by set_option maxRecDepth 100000 in decide) (by set_option maxRecDepth 100000 in decide)
    (by set_option maxRecDepth 100000 in decide)

/-- C26, the counterexample. The header
`SOTN value=abc, algorithm=ed25519, signature=<sig>, key=<key>`, in the format with an
attribute named `value`, is rejected with the error `bad nonce header`: the attribute
`value` is none that `FromHeader` reads, and the value of the token stays empty. The same
header with the attribute named `nonce` is accepted with the value `abc`. -/
theorem FromHeader_rejects_value_attribute :
    FromHeader sample.prim 0 sample.valueHeader = .error ErrorBadNonceHeader ∧
    (FromHeader sample.prim 0 (sample.nonceHeader "abc".toList)).toOption.map (fun n => n.Value) =
      some "abc".toList := by
  constructor
  · set_option maxRecDepth 100000 in decide
  · set_option maxRecDepth 100000 in decide

end nonce

/-! ### Envelopes that lack a header -/

namespace message

/-- A header line of another name leaves the content headers, the envelope checksum and
the envelope signature of the message as they were. -/
theorem AssignMessageHeader_frame (k v : Str) (m m' : Message) (b : Bool)
    (h : AssignMessageHeader k v m = .ok (b, m')) :
    (strings.ToLower (strings.TrimSpace k) ≠ HEADER_MESSAGE_CONTENT_HEADERS →
      m'.ContentHeadersData = m.ContentHeadersData) ∧
    (strings.ToLower (strings.TrimSpace k) ≠ HEADER_MESSAGE_ENVELOPE_CHECKSUM →
      m'.EnvelopeHeadersChecksum = m.EnvelopeHeadersChecksum) ∧
    (strings.ToLower (strings.TrimSpace k) ≠ HEADER_MESSAGE_ENVELOPE_SIGNATURE →
      m'.EnvelopeHeadersSignature = m.EnvelopeHeadersSignature) := by
  unfold AssignMessageHeader at h
  simp only at h
  split_ifs at h with h1 h2 h3 h4 h5 h6 h7
  · simp only [Outcome.ok.injEq, Prod.mk.injEq] at h
    obtain ⟨_, rfl⟩ := h
    exact ⟨fun _ => rfl, fun _ => rfl, fun _ => rfl⟩
  · simp only [Outcome.ok.injEq, Prod.mk.injEq] at h
    obtain ⟨_, rfl⟩ := h
    exact ⟨fun _ => rfl, fun _ => rfl, fun _ => rfl⟩
  · split at h
    · simp only [Outcome.ok.injEq, Prod.mk.injEq] at h
      obtain ⟨_, rfl⟩ := h
      exact ⟨fun _ => rfl, fun _ => rfl, fun _ => rfl⟩
    · simp at h
    · simp at h
  · simp only [Outcome.ok.injEq, Prod.mk.injEq] at h
    obtain ⟨_, rfl⟩ := h
    exact ⟨fun hne => absurd h4 hne, fun _ => rfl, fun _ => rfl⟩
  · split at h
    · split_ifs at h
      simp only [Outcome.ok.injEq, Prod.mk.injEq] at h
      obtain ⟨_, rfl⟩ := h
      exact ⟨fun _ => rfl, fun hne => absurd h5 hne, fun _ => rfl⟩
    · simp at h
    · simp at h
  · split at h
    · split_ifs at h
      simp only [Outcome.ok.injEq, Prod.mk.injEq] at h
      obtain ⟨_, rfl⟩ := h
      exact ⟨fun _ => rfl, fun _ => rfl, fun hne => absurd h6 hne⟩
    · simp at h
    · simp at h
  · split at h
    · simp only [Outcome.ok.injEq, Prod.mk.injEq] at h
      obtain ⟨_, rfl⟩ := h
      exact ⟨fun _ => rfl, fun _ => rfl, fun _ => rfl⟩
    · simp at h
    · simp at h
  · simp only [Outcome.ok.injEq, Prod.mk.injEq] at h
    obtain ⟨_, rfl⟩ := h
    exact ⟨fun _ => rfl, fun _ => rfl, fun _ => rfl⟩

end message

namespace message

/-- Lines none of which assigns a header leave the field of that header as it was. -/
theorem parseEnvelopeLines_frame (name : Str) (F : Message → Str)
    (hF : ∀ k v m m' b, AssignMessageHeader k v m = .ok (b, m') →
      strings.ToLower (strings.TrimSpace k) ≠ name → F m' = F m) :
    ∀ (lines : List Str) (m m' : Message), some name ∉ lines.map lineName →
      parseEnvelopeLines lines m = .ok m' → F m' = F m := by
  intro lines
  induction lines with
  | nil =>
    intro m m' _ h
    simp only [parseEnvelopeLines, Outcome.ok.injEq] at h
    rw [h]
  | cons text rest ih =>
    intro m m' hnot h
    simp only [List.map_cons, List.mem_cons, not_or] at hnot
    obtain ⟨hline, hrest⟩ := hnot
    unfold parseEnvelopeLines at h
    unfold lineName at hline
    cases ht : strings.TrimSpace text with
    | nil => simp [ht] at h
    | cons c cs =>
      simp only [ht] at h hline
      by_cases hc : c = '#'
      · simp only [hc, if_true] at h
        exact ih m m' hrest h
      · simp only [hc, if_false] at h hline
        split at h
        · rename_i k v hsplit
          simp only [hsplit] at hline
          cases ha : AssignMessageHeader k v m with
          | ok p =>
            obtain ⟨b, m1⟩ := p
            simp only [ha] at h
            rw [ih m1 m' hrest h]
            exact hF k v m m1 b ha (fun e => hline (by rw [e]))
          | error e => simp [ha] at h
          | panic => simp [ha] at h
        · exact ih m m' hrest h

/-- What `ParseEnvelopeData` leaves empty when the envelope has no line for a header. -/
theorem ParseEnvelopeData_absent (data : Str) (msg : Message) (h : ParseEnvelopeData data = .ok msg) :
    (¬ carries data HEADER_MESSAGE_CONTENT_HEADERS → msg.ContentHeadersData = []) ∧
    (¬ carries data HEADER_MESSAGE_ENVELOPE_CHECKSUM → msg.EnvelopeHeadersChecksum = []) ∧
    (¬ carries data HEADER_MESSAGE_ENVELOPE_SIGNATURE → msg.EnvelopeHeadersSignature = []) := by
  unfold ParseEnvelopeData at h
  cases hp : parseEnvelopeLines (bufio.scanLines data).1 { IsBroadcast := true } with
  | error e => simp [hp] at h
  | panic => simp [hp] at h
  | ok m =>
    simp only [hp] at h
    split_ifs at h
    simp only [Outcome.ok.injEq] at h
    subst h
    refine ⟨fun hc => ?_, fun hc => ?_, fun hc => ?_⟩
    · exact parseEnvelopeLines_frame HEADER_MESSAGE_CONTENT_HEADERS (fun m => m.ContentHeadersData)
        (fun k v m m' b ha => (AssignMessageHeader_frame k v m m' b ha).1) _ _ _ hc hp
    · exact parseEnvelopeLines_frame HEADER_MESSAGE_ENVELOPE_CHECKSUM (fun m => m.EnvelopeHeadersChecksum)
        (fun k v m m' b ha => (AssignMessageHeader_frame k v m m' b ha).2.1) _ _ _ hc hp
    · exact parseEnvelopeLines_frame HEADER_MESSAGE_ENVELOPE_SIGNATURE (fun m => m.EnvelopeHeadersSignature)
        (fun k v m m' b ha => (AssignMessageHeader_frame k v m m' b ha).2.2) _ _ _ hc hp

/-- What an envelope that `openEnvelopeFile` accepts holds. -/
theorem openEnvelopeFile_ok_inv (P : Prim) (dir : MessageDir) (authorUser : user.User)
    (readerUser : user.Reader) (m : Message) (h : openEnvelopeFile P dir authorUser readerUser = .ok m) :
    ∃ msg, ParseEnvelopeFile dir = .ok msg ∧ msg.ContentHeadersData ≠ [] ∧
      msg.EnvelopeHeadersChecksum ≠ [] ∧ msg.EnvelopeHeadersSignature ≠ [] := by
  have key : ∀ (msg : Message) (opened : Outcome Message),
      (∀ m', opened = .ok m' → m'.EnvelopeHeadersChecksum = msg.EnvelopeHeadersChecksum ∧
        m'.EnvelopeHeadersSignature = msg.EnvelopeHeadersSignature) →
      (match opened with
        | .ok message =>
          match VerifyEnvelopeAuthenticity P message with
          | .ok true => parseContentHeaders P message message.ContentHeadersBytes
          | .ok false => .error "Message authenticity failure"
          | .error e => .error e
          | .panic => .panic
        | .error e => .error e
        | .panic => .panic) = Outcome.ok m →
      msg.EnvelopeHeadersChecksum ≠ [] ∧ msg.EnvelopeHeadersSignature ≠ [] := by
    intro msg opened hsame hres
    cases opened with
    | error e => simp at hres
    | panic => simp at hres
    | ok m' =>
      obtain ⟨h1, h2⟩ := hsame m' rfl
      simp only at hres
      cases hv : VerifyEnvelopeAuthenticity P m' with
      | error e => simp [hv] at hres
      | panic => simp [hv] at hres
      | ok b =>
        cases b with
        | false => simp [hv] at hres
        | true =>
          obtain ⟨hne, _⟩ := VerifyEnvelopeAuthenticity_true_inv P m' hv
          simp only [not_or] at hne
          rw [← h1, ← h2]
          exact ⟨hne.2.1, hne.2.2⟩
  unfold openEnvelopeFile at h
  cases hp : ParseEnvelopeFile dir with
  | error e => simp [hp] at h
  | panic => simp [hp] at h
  | ok msg =>
    simp only [hp] at h
    refine ⟨msg, rfl, ?_⟩
    by_cases hc : msg.ContentHeadersData = []
    · simp [hc] at h
    · refine ⟨hc, ?_⟩
      simp only [hc, if_false] at h
      cases ha : contentHeaderAttrs (strings.Split msg.ContentHeadersData [';']) [] with
      | error e => simp [ha] at h
      | panic => simp [ha] at h
      | ok contentHeadersBase64 =>
        simp only [ha] at h
        refine key msg _ ?_ h
        intro m' hm'
        split_ifs at hm'
        · split at hm'
          · simp at hm'
          · simp only [Outcome.ok.injEq] at hm'
            subst hm'
            exact ⟨rfl, rfl⟩
        · split at hm'
          · split at hm'
            · simp only [Outcome.ok.injEq] at hm'
              subst hm'
              exact ⟨rfl, rfl⟩
            · simp at hm'
            · simp at hm'
          · simp at hm'
          · simp at hm'

/-- C25, amended. Opening an envelope returns no message whenever the envelope has no
line for Message-Headers, for Message-Checksum or for Message-Signature, in either mode:
what `Open` returns then is an error. -/
theorem Open_rejects_absent_field (P : Prim) (dir : MessageDir) (authorUser : user.User)
    (readerUser : user.Reader) (data : Str)
    (henvelope : dir.envelope = some data)
    (habsent : ¬ carries data HEADER_MESSAGE_CONTENT_HEADERS ∨
      ¬ carries data HEADER_MESSAGE_ENVELOPE_CHECKSUM ∨
      ¬ carries data HEADER_MESSAGE_ENVELOPE_SIGNATURE) :
    (∀ m, (Open P dir authorUser readerUser).1 ≠ .ok m) ∧
    ((Open P dir authorUser readerUser).1.returns = true →
      ∃ e, (Open P dir authorUser readerUser).1 = .error e) := by
  have hno : ∀ m, (Open P dir authorUser readerUser).1 ≠ .ok m := by
    intro m hopen
    have hopen' : Open P dir authorUser readerUser = (.ok m, (Open P dir authorUser readerUser).2) := by
      rw [← hopen]
    obtain ⟨_, he, _⟩ := Open_ok_inv P dir _ authorUser readerUser m hopen'
    obtain ⟨msg, hparse, h1, h2, h3⟩ := openEnvelopeFile_ok_inv P dir authorUser readerUser m he
    unfold ParseEnvelopeFile at hparse
    rw [henvelope] at hparse
    obtain ⟨a1, a2, a3⟩ := ParseEnvelopeData_absent data msg hparse
    rcases habsent with h | h | h
    · exact h1 (a1 h)
    · exact h2 (a2 h)
    · exact h3 (a3 h)
  refine ⟨hno, fun hret => ?_⟩
  cases hres : (Open P dir authorUser readerUser).1 with
  | ok m => exact absurd hres (hno m)
  | error e => exact ⟨e, rfl⟩
  | panic => rw [hres] at hret; exact absurd hret (by decide)

end message

namespace message

/-- C25, amended, on the envelope `m1` with its `message-checksum` line taken out; and
what `Open` returns for the envelope without `message-headers`, without
`message-checksum` and without `message-signature`. -/
theorem Open_rejects_absent_field_witness :
    ((∀ m, (Open sample.prim
        { envelope := some (sample.envelopeWithoutChecksum (sample.contentHeaders "m1".toList)),
          payload := some "hello".toList } sample.author {}).1 ≠ .ok m) ∧
      ((Open sample.prim
        { envelope := some (sample.envelopeWithoutChecksum (sample.contentHeaders "m1".toList)),
          payload := some "hello".toList } sample.author {}).1.returns = true →
        ∃ e, (Open sample.prim
          { envelope := some (sample.envelopeWithoutChecksum (sample.contentHeaders "m1".toList)),
            payload := some "hello".toList } sample.author {}).1 = .error e)) ∧
    (Open sample.prim { envelope := some sample.envelopeWithoutHeaders, payload := some "hello".toList }
      sample.author {}).1 = .error "Invalid message" ∧
    (Open sample.prim
      { envelope := some (sample.envelopeWithoutChecksum (sample.contentHeaders "m1".toList)),
        payload := some "hello".toList } sample.author {}).1 = .error "Message authenticity failure" ∧
    (Open sample.prim
      { envelope := some (sample.envelopeWithoutSignature (sample.contentHeaders "m1".toList)),
        payload := some "hello".toList } sample.author {}).1 = .error "Message authenticity failure" := by
  refine ⟨?_, ?_, ?_, ?_⟩
  · exact Open_rejects_absent_field sample.prim
      { envelope := some (sample.envelopeWithoutChecksum (sample.contentHeaders "m1".toList)),
        payload := some "hello".toList } sample.author {}
      (sample.envelopeWithoutChecksum (sample.contentHeaders "m1".toList)) rfl
      (Or.inr (Or.inl (by set_option maxRecDepth 100000 in decide)))
  · set_option maxRecDepth 100000 in decide
  · set_option maxRecDepth 100000 in decide
  · set_option maxRecDepth 100000 in decide

/-- C25, the counterexample. An envelope without a `message-id` line, signed by the author
over its content headers, is opened: `Open` returns the message, with an empty
identifier. And on a private envelope with a `message-access` line and without a
`message-encryption` line, signed by the author, `Open` returns no error: it fails at run
time, reading the `Stream` field of the nil `PayloadCipher`. -/
theorem Open_accepts_envelope_without_id :
    ¬ carries (sample.envelopeWithoutID (sample.contentHeaders "m1".toList)) HEADER_MESSAGE_ID ∧
    (Open sample.prim
      { envelope := some (sample.envelopeWithoutID (sample.contentHeaders "m1".toList)),
        payload := some "hello".toList } sample.author {}).1.toOption.map
        (fun m => (m.ID, m.Content.ID, m.IsBroadcast)) = some ([], "m1".toList, true) ∧
    carries (sample.envelopeWithoutEncryption (sample.contentHeaders "m2".toList)) HEADER_MESSAGE_ACCESS ∧
    ¬ carries (sample.envelopeWithoutEncryption (sample.contentHeaders "m2".toList))
      HEADER_MESSAGE_ENCRYPTION ∧
    (Open sample.prim
      { envelope := some (sample.envelopeWithoutEncryption (sample.contentHeaders "m2".toList)),
        payload := some "hello".toList } sample.author sample.readerB).1 = .panic := by
  refine ⟨?_, ?_, ?_, ?_, ?_⟩
  · set_option maxRecDepth 100000 in decide
  · set_option maxRecDepth 100000 in decide
  · set_option maxRecDepth 100000 in decide
  · set_option maxRecDepth 100000 in decide
  · set_option maxRecDepth 100000 in decide

end message

/-! ### An identifier with a separator; addresses with letters outside ASCII -/

namespace storage

/-- C16, the counterexample. The index holds the line `ab12,cd34,,d,m1`, written by
`WriteMessageIndex` for the message identifier `d,m1`, and the line of `m2`; the listing
of the link names `d,m1` and `m2`. `RemoveMessageFromIndex` for the identifier `m1`
succeeds and removes the line of `d,m1`, whose message-id column is not `m1`: the line
ends with `,m1`. Afterwards the listing names `m2` only. -/
theorem RemoveMessageFromIndex_removes_line_of_other_message :
    (WriteMessageIndex (WriteMessageIndex {} "ab12".toList "cd34".toList [] "d,m1".toList).2
      "ab12".toList "cd34".toList [] "m2".toList).2.index = sample.commaIdHome.index ∧
    FilterMessagesIndex sample.commaIdHome "ab12".toList "cd34".toList [] =
      .ok ["d,m1".toList, "m2".toList] ∧
    utils.StringIsAlphaNumeric "m1".toList = true ∧
    (RemoveMessageFromIndex sample.commaIdHome "m1".toList).1 = .ok () ∧
    (RemoveMessageFromIndex sample.commaIdHome "m1".toList).2.index = some "ab12,cd34,,m2\n".toList ∧
    FilterMessagesIndex (RemoveMessageFromIndex sample.commaIdHome "m1".toList).2
      "ab12".toList "cd34".toList [] = .ok ["m2".toList] := by
  refine ⟨?_, ?_, ?_, ?_, ?_, ?_⟩
  · set_option maxRecDepth 100000 in decide
  · set_option maxRecDepth 100000 in decide
  · set_option maxRecDepth 100000 in decide
  · set_option maxRecDepth 100000 in decide
  · set_option maxRecDepth 100000 in decide
  · set_option maxRecDepth 100000 in decide

end storage

namespace links

/-- C17 at the addresses `É@X.test` and `b@Y.test`; lowering turns `É` into `é`, the
capital I with dot above (U+0130) into `i` and the Kelvin sign (U+212A) into `k`. -/
theorem Make_symm_lower_witness :
    (Make sample.prim "É@X.test".toList "b@Y.test".toList =
        Make sample.prim "b@Y.test".toList "É@X.test".toList ∧
      Make sample.prim "É@X.test".toList "b@Y.test".toList =
        Make sample.prim (strings.ToLower "É@X.test".toList) (strings.ToLower "b@Y.test".toList)) ∧
    strings.ToLower "É@X.test".toList = "é@x.test".toList ∧
    strings.ToLower [Char.ofNat 0x130, Char.ofNat 0x212A] = "ik".toList ∧
    Make sample.prim "É@X.test".toList "b@Y.test".toList =
      sample.prim.sha256Hex "b@y.testé@x.test".toList := by
  refine ⟨Make_symm_lower sample.prim "É@X.test".toList "b@Y.test".toList, ?_, ?_, ?_⟩
  · set_option maxRecDepth 100000 in decide
  · set_option maxRecDepth 100000 in decide
  · set_option maxRecDepth 100000 in decide

end links

end OpenEmail
